import Mathlib

/-!
# GPU tracking: buffer size estimator and cluster bucket insertion

A shallow embedding of

* `GPU/GPUTracking/Base/GPUMemorySizeScalers.h` (the ten `NTPC*` stage functions), and
* `GPU/GPUTracking/TPCClusterFinder/GPUTPCCFClusterizer.cxx`
  (`sortIntoBuckets` and the control flow of `computeClustersImpl`).

## Arithmetic conventions

* `size_t` and `uint` values are natural numbers; `uint` arithmetic that can wrap is
  written with an explicit `% 2 ^ 32`.
* `double` values are rationals.  Every `double` operation of the source (an addition, a
  multiplication, an integer-to-`double` conversion) is followed by the rounding function
  of a `DoubleArith`, which is only assumed to be monotone, idempotent, to fix zero and to
  map integers to integers.  IEEE-754 round-to-nearest on its finite range is one such
  rounding; `exactArith` (no rounding) is another.
* A `double` to `size_t` conversion truncates toward zero and is undefined when the
  truncated value is not a `size_t`; it returns an `Option`.
-/

namespace GPU

/-! ## Double arithmetic -/

/-- The rounding applied after each `double` operation. -/
structure DoubleArith where
  /-- The rounding function: the representable value chosen for an exact result. -/
  rnd : ℚ → ℚ
  /-- Rounding preserves the order. -/
  rnd_mono : Monotone rnd
  /-- A representable value is not changed by rounding again. -/
  rnd_idem : ∀ x, rnd (rnd x) = rnd x
  /-- Zero is representable. -/
  rnd_zero : rnd 0 = 0
  /-- An integer rounds to an integer. -/
  rnd_nat : ∀ n : ℕ, ∃ k : ℕ, rnd n = k

namespace DoubleArith

/-- The `double` sum `x + y`. -/
def add (A : DoubleArith) (x y : ℚ) : ℚ := A.rnd (x + y)

/-- The `double` product `x * y`. -/
def mul (A : DoubleArith) (x y : ℚ) : ℚ := A.rnd (x * y)

/-- The conversion of a `size_t` to `double`. -/
def ofSizeT (A : DoubleArith) (n : ℕ) : ℚ := A.rnd (n : ℚ)

end DoubleArith

/-- Arithmetic without rounding error. -/
def exactArith : DoubleArith where
  rnd := id
  rnd_mono := monotone_id
  rnd_idem := fun _ => rfl
  rnd_zero := rfl
  rnd_nat := fun n => ⟨n, rfl⟩

/-- The conversion of a `double` to `size_t`: truncation toward zero, defined when the
truncated value lies in `[0, 2^64)`. -/
def toSizeT (x : ℚ) : Option ℕ :=
  if -1 < x ∧ x < 2 ^ 64 then some ⌊x⌋₊ else none

/-! ## `GPUMemorySizeScalers` -/

/-- The tunables of `struct GPUMemorySizeScalers`, with the defaults of the header.  A decimal
literal stands for the `double` nearest to it; `tpcSectorTrackHitsPerHit` is initialised with
the `float` literal `0.8f`, whose value is `13421773 / 2^24`. -/
structure GPUMemorySizeScalers where
  nTPCdigits : ℕ := 0
  nTPCHits : ℕ := 0
  nTRDTracklets : ℕ := 0
  nITSTracks : ℕ := 0
  factor : ℚ := 1
  offset : ℚ := 1000
  hitOffset : ℚ := 20000
  tpcPeaksPerDigit : ℚ := 2 / 10
  tpcClustersPerPeak : ℚ := 9 / 10
  tpcStartHitsPerHit : ℚ := 8 / 100
  tpcTrackletsPerStartHit : ℚ := 8 / 10
  tpcTrackletHitsPerHit : ℚ := 5
  tpcSectorTracksPerHit : ℚ := 2 / 100
  tpcSectorTrackHitsPerHit : ℚ := 13421773 / 16777216
  tpcMergedTrackPerSliceTrack : ℚ := 9 / 10
  tpcMergedTrackHitPerSliceHit : ℚ := 11 / 10
  tpcMaxPeaks : ℕ := 1000000000
  tpcMaxClusters : ℕ := 620000000
  tpcMaxStartHits : ℕ := 1250000
  tpcMaxRowStartHits : ℕ := 1000000000
  tpcMaxTracklets : ℕ := 1000000
  tpcMaxTrackletHits : ℕ := 66000000
  tpcMaxSectorTracks : ℕ := 250000
  tpcMaxSectorTrackHits : ℕ := 11500000
  tpcMaxMergedTracks : ℕ := 5800000
  tpcMaxMergedTrackHits : ℕ := 380000000

namespace GPUMemorySizeScalers

/-- `std::min<size_t>(maxVal, val) * factor` returned as `size_t`: the `double` `val` is
converted to `size_t`, the minimum is taken in `size_t`, converted back to `double`,
multiplied by `factor` and converted to `size_t` by the `return`. -/
def minTimesFactor (A : DoubleArith) (maxVal : ℕ) (val factor : ℚ) : Option ℕ :=
  (toSizeT val).bind fun v => toSizeT (A.mul (A.ofSizeT (min maxVal v)) factor)

/-- `NTPCPeaks`, line 65. -/
def NTPCPeaks (A : DoubleArith) (s : GPUMemorySizeScalers) (tpcDigits : ℕ) : Option ℕ :=
  minTimesFactor A s.tpcMaxPeaks
    (A.add s.hitOffset (A.mul (A.ofSizeT tpcDigits) s.tpcPeaksPerDigit)) s.factor

/-- `NTPCClusters`, line 66. -/
def NTPCClusters (A : DoubleArith) (s : GPUMemorySizeScalers) (tpcDigits : ℕ) : Option ℕ :=
  (NTPCPeaks A s tpcDigits).bind fun peaks =>
    minTimesFactor A s.tpcMaxClusters (A.mul s.tpcClustersPerPeak (A.ofSizeT peaks)) s.factor

/-- `NTPCStartHits`, line 67. -/
def NTPCStartHits (A : DoubleArith) (s : GPUMemorySizeScalers) (tpcHits : ℕ) : Option ℕ :=
  minTimesFactor A s.tpcMaxStartHits
    (A.add s.offset (A.mul (A.ofSizeT tpcHits) s.tpcStartHitsPerHit)) s.factor

/-- `NTPCRowStartHits`, line 68.  `GPUCA_ROW_COUNT` is an integer constant defined outside
this header; the quotient `NTPCStartHits(tpcHits) / GPUCA_ROW_COUNT` is an integer division. -/
def NTPCRowStartHits (A : DoubleArith) (GPUCA_ROW_COUNT : ℕ) (s : GPUMemorySizeScalers)
    (tpcHits : ℕ) : Option ℕ :=
  (NTPCStartHits A s tpcHits).bind fun startHits =>
    minTimesFactor A s.tpcMaxRowStartHits
      (A.add s.offset (A.mul (A.ofSizeT (startHits / GPUCA_ROW_COUNT)) 4)) s.factor

/-- `NTPCTracklets`, line 69. -/
def NTPCTracklets (A : DoubleArith) (s : GPUMemorySizeScalers) (tpcHits : ℕ) : Option ℕ :=
  (NTPCStartHits A s tpcHits).bind fun startHits =>
    minTimesFactor A s.tpcMaxTracklets
      (A.mul (A.ofSizeT startHits) s.tpcTrackletsPerStartHit) s.factor

/-- `NTPCTrackletHits`, line 70. -/
def NTPCTrackletHits (A : DoubleArith) (s : GPUMemorySizeScalers) (tpcHits : ℕ) : Option ℕ :=
  minTimesFactor A s.tpcMaxTrackletHits
    (A.add s.hitOffset (A.mul (A.ofSizeT tpcHits) s.tpcTrackletHitsPerHit)) s.factor

/-- `NTPCSectorTracks`, line 71. -/
def NTPCSectorTracks (A : DoubleArith) (s : GPUMemorySizeScalers) (tpcHits : ℕ) : Option ℕ :=
  minTimesFactor A s.tpcMaxSectorTracks
    (A.add s.offset (A.mul (A.ofSizeT tpcHits) s.tpcSectorTracksPerHit)) s.factor

/-- `NTPCSectorTrackHits`, line 72. -/
def NTPCSectorTrackHits (A : DoubleArith) (s : GPUMemorySizeScalers) (tpcHits : ℕ) :
    Option ℕ :=
  minTimesFactor A s.tpcMaxSectorTrackHits
    (A.add s.offset (A.mul (A.ofSizeT tpcHits) s.tpcSectorTrackHitsPerHit)) s.factor

/-- `NTPCMergedTracks`, line 73. -/
def NTPCMergedTracks (A : DoubleArith) (s : GPUMemorySizeScalers) (tpcSliceTracks : ℕ) :
    Option ℕ :=
  minTimesFactor A s.tpcMaxMergedTracks
    (A.add s.offset (A.mul (A.ofSizeT tpcSliceTracks) s.tpcMergedTrackPerSliceTrack)) s.factor

/-- `NTPCMergedTrackHits`, line 74. -/
def NTPCMergedTrackHits (A : DoubleArith) (s : GPUMemorySizeScalers)
    (tpcSliceTrackHitss : ℕ) : Option ℕ :=
  minTimesFactor A s.tpcMaxMergedTrackHits
    (A.add s.offset (A.mul (A.ofSizeT tpcSliceTrackHitss) s.tpcMergedTrackHitPerSliceHit))
    s.factor

/-- The stage formula in the words of the specification,
`min(hardUpperBound, offset + inputCount * perUnitRatio) * globalFactor`: the sum is
truncated to an unsigned integer before the minimum is taken, and the product with the
global factor is truncated to an unsigned integer. -/
def stageFormula (A : DoubleArith) (hardUpperBound : ℕ) (offset perUnitRatio globalFactor : ℚ)
    (inputCount : ℕ) : Option ℕ :=
  match toSizeT (A.add offset (A.mul (A.ofSizeT inputCount) perUnitRatio)) with
  | none => none
  | some sum => toSizeT (A.mul (A.ofSizeT (min hardUpperBound sum)) globalFactor)

/-- The bounded and scaled value of a chained stage in the words of the specification,
`min(hardUpperBound, derived) * globalFactor`, where `derived` is the `double` computed from
the earlier stage result. -/
def chainedFormula (A : DoubleArith) (hardUpperBound : ℕ) (derived globalFactor : ℚ) :
    Option ℕ :=
  match toSizeT derived with
  | none => none
  | some v => toSizeT (A.mul (A.ofSizeT (min hardUpperBound v)) globalFactor)

/-- The tunables with the global factor replaced by `f`. -/
def withFactor (s : GPUMemorySizeScalers) (f : ℚ) : GPUMemorySizeScalers :=
  { s with factor := f }

/-- The global factor, both offsets and all ratios are non-negative. -/
def NonNegTunables (s : GPUMemorySizeScalers) : Prop :=
  0 ≤ s.factor ∧ 0 ≤ s.offset ∧ 0 ≤ s.hitOffset ∧ 0 ≤ s.tpcPeaksPerDigit ∧
  0 ≤ s.tpcClustersPerPeak ∧ 0 ≤ s.tpcStartHitsPerHit ∧ 0 ≤ s.tpcTrackletsPerStartHit ∧
  0 ≤ s.tpcTrackletHitsPerHit ∧ 0 ≤ s.tpcSectorTracksPerHit ∧
  0 ≤ s.tpcSectorTrackHitsPerHit ∧ 0 ≤ s.tpcMergedTrackPerSliceTrack ∧
  0 ≤ s.tpcMergedTrackHitPerSliceHit

/-- A stage function is monotonically non-decreasing: whenever it returns `r₂` for `n₂`, it
returns some `r₁ ≤ r₂` for every `n₁ ≤ n₂`. -/
def MonotoneStage (F : ℕ → Option ℕ) : Prop :=
  ∀ n₁ n₂, n₁ ≤ n₂ → ∀ r₂, F n₂ = some r₂ → ∃ r₁, F n₁ = some r₁ ∧ r₁ ≤ r₂

/-- A stage function returns a value for every input count and these values are
non-decreasing. -/
def TotalMonotoneStage (F : ℕ → Option ℕ) : Prop :=
  ∀ n₁ n₂, n₁ ≤ n₂ → ∃ r₁ r₂, F n₁ = some r₁ ∧ F n₂ = some r₂ ∧ r₁ ≤ r₂

/-- Every value returned by a stage function is at most `bound`. -/
def BoundedStage (F : ℕ → Option ℕ) (bound : ℕ) : Prop :=
  ∀ n r, F n = some r → r ≤ bound

/-- The result computed with factor `f` is `f` times the result computed with factor `1`,
up to the final truncation: if `F1` returns `r₁` for `n` then `Ff` returns the truncation of
`r₁ * f` there. -/
def ScalesWithFactor (A : DoubleArith) (f : ℚ) (F1 Ff : ℕ → Option ℕ) : Prop :=
  ∀ n r₁, F1 n = some r₁ → Ff n = toSizeT (A.mul (A.ofSizeT r₁) f)

end GPUMemorySizeScalers

/-! ## Cluster finder: memory of the kernel -/

/-- Modelled from the spec: the ClusterRecord of the data model (`tpc::ClusterNative`, whose
declaration is not part of the cluster finder source): weighted mean position (pad, time),
total and maximum charge and the two shape terms, each a packed integer.  The cluster
finder itself reads only `qTot`. -/
structure ClusterNative where
  pad : ℕ
  time : ℕ
  qTot : ℕ
  qMax : ℕ
  sigmaPad : ℕ
  sigmaTime : ℕ
  deriving DecidableEq

/-- Modelled from the spec: the ChargePos position key (row, pad, time bin); `row` and `time`
are the accessors `pos.row()` and `pos.time()` used by the cluster finder. -/
structure ChargePos where
  row : ℕ
  pad : ℕ
  time : ℤ
  deriving DecidableEq

/-- A pointer argument that the code compares with `nullptr`. -/
inductive Pointer where
  | null
  | valid
  deriving DecidableEq

/-- One store executed on the output buffers. -/
inductive Store where
  /-- The atomic update `elemsInBucket[row] = val`. -/
  | counter (row val : ℕ)
  /-- The write `buckets[slot] = cluster`. -/
  | bucket (slot : ℕ) (cluster : ClusterNative)
  /-- The write `clusterPosInRow[idx] = val`. -/
  | posInRow (idx val : ℕ)
  deriving DecidableEq

/-- The output buffers of the cluster finder kernel, with the sequence of stores executed on
them so far (oldest first). -/
structure Memory where
  /-- The per-row counters `clusterInRow` (`elemsInBucket` in `sortIntoBuckets`). -/
  clusterInRow : ℕ → ℕ
  /-- The bucket array `clusterByRow` (`buckets` in `sortIntoBuckets`). -/
  clusterByRow : ℕ → ClusterNative
  /-- The position-in-row output `clusterPosInRow`. -/
  clusterPosInRow : ℕ → ℕ
  /-- The stores executed so far. -/
  stores : List Store

namespace Memory

/-- `CAMath::AtomicAdd(&elemsInBucket[row], 1u)`: returns the old counter and stores the
counter plus one in `uint` arithmetic. -/
def atomicAdd (m : Memory) (row : ℕ) : ℕ × Memory :=
  let old := m.clusterInRow row
  let new := (old + 1) % 2 ^ 32
  (old, { m with clusterInRow := Function.update m.clusterInRow row new
                 stores := m.stores ++ [Store.counter row new] })

/-- The write `buckets[slot] = cluster`. -/
def storeBucket (m : Memory) (slot : ℕ) (cluster : ClusterNative) : Memory :=
  { m with clusterByRow := Function.update m.clusterByRow slot cluster
           stores := m.stores ++ [Store.bucket slot cluster] }

/-- The write `clusterPosInRow[idx] = val`. -/
def storePosInRow (m : Memory) (idx val : ℕ) : Memory :=
  { m with clusterPosInRow := Function.update m.clusterPosInRow idx val
           stores := m.stores ++ [Store.posInRow idx val] }

end Memory

/-- The bucket writes among a sequence of stores, as (slot, record) pairs in order. -/
def bucketWrites : List Store → List (ℕ × ClusterNative)
  | [] => []
  | Store.bucket slot cluster :: l => (slot, cluster) :: bucketWrites l
  | _ :: l => bucketWrites l

/-! ## Cluster finder: `GPUTPCCFClusterizer` -/

namespace GPUTPCCFClusterizer

/-- The index `maxElemsPerBucket * row + index` of a bucket slot, in `uint` arithmetic. -/
def slotIndex (maxElemsPerBucket row index : ℕ) : ℕ :=
  (maxElemsPerBucket * row + index) % 2 ^ 32

/-- `sortIntoBuckets`, lines 258-265: the returned index and the memory after the call. -/
def sortIntoBuckets (cluster : ClusterNative) (row maxElemsPerBucket : ℕ) (m : Memory) :
    ℕ × Memory :=
  let (index, m₁) := m.atomicAdd row
  if index < maxElemsPerBucket then
    (index, m₁.storeBucket (slotIndex maxElemsPerBucket row index) cluster)
  else
    (index, m₁)

/-- What `computeClustersImpl` obtains from code outside the file. -/
structure Collaborators where
  /-- `fragment.isOverlap(t)` for a time bin `t`. -/
  isOverlap : ℤ → Bool
  /-- The record `myCluster` of the peak at `pos`: the accumulator filled by `buildCluster`,
  then `pc.finalize` and `pc.toNative`. -/
  toNative : ChargePos → ClusterNative
  /-- The setting `calib.tpcCFqtotCutoff`. -/
  tpcCFqtotCutoff : ℚ

/-- The peak position read at line 63, `filteredPeakPositions[CAMath::Min(idx, clusternum - 1)]`,
with `clusternum - 1` in `uint` arithmetic. -/
def peakPosition (filteredPeakPositions : ℕ → ChargePos) (clusternum idx : ℕ) : ChargePos :=
  filteredPeakPositions (min idx ((clusternum + 2 ^ 32 - 1) % 2 ^ 32))

/-- `computeClustersImpl`, lines 45-110, for the work item `idx`: the memory after the work
item, or `none` when a null pointer is dereferenced.  The scratch pad and the Monte Carlo
labels are not part of the memory. -/
def computeClustersImpl (env : Collaborators) (filteredPeakPositions : ℕ → ChargePos)
    (clusternum maxClusterPerRow : ℕ) (clusterByRow clusterPosInRow : Pointer)
    (idx : ℕ) (m : Memory) : Option Memory :=
  let pos := peakPosition filteredPeakPositions clusternum idx
  if idx ≥ clusternum ∨ env.isOverlap pos.time = true then
    some m
  else
    let myCluster := env.toNative pos
    let aboveQTotCutoff : Bool := decide ((myCluster.qTot : ℚ) > env.tpcCFqtotCutoff)
    if !aboveQTotCutoff then
      match clusterPosInRow with
      | Pointer.null => none
      | Pointer.valid => some (m.storePosInRow idx maxClusterPerRow)
    else
      match clusterByRow with
      | Pointer.valid =>
        let (rowIndex, m₁) := sortIntoBuckets myCluster pos.row maxClusterPerRow m
        match clusterPosInRow with
        | Pointer.null => some m₁
        | Pointer.valid => some (m₁.storePosInRow idx rowIndex)
      | Pointer.null =>
        match clusterPosInRow with
        | Pointer.null => none
        | Pointer.valid => some m

end GPUTPCCFClusterizer

/-! ## Example data -/

/-- Buffers with all counters zero, all bucket slots holding the zero record and no store
executed yet. -/
def zeroMemory : Memory where
  clusterInRow := fun _ => 0
  clusterByRow := fun _ => ⟨0, 0, 0, 0, 0, 0⟩
  clusterPosInRow := fun _ => 0
  stores := []

/-- A record of total charge 100 at pad 10, time 20. -/
def clusterA : ClusterNative := ⟨10, 20, 100, 100, 0, 0⟩

/-- A record of total charge 60 at pad 11, time 20. -/
def clusterB : ClusterNative := ⟨11, 20, 60, 40, 0, 0⟩

/-- Peak positions in row 5: work item `i` looks at pad `10 + i`, time bin 20. -/
def examplePositions : ℕ → ChargePos := fun i => ⟨5, 10 + i, 20⟩

/-- Collaborators without fragment overlap, giving every peak the record `clusterA`, with the
given charge cutoff. -/
def exampleCollaborators (cutoff : ℚ) : GPUTPCCFClusterizer.Collaborators where
  isOverlap := fun _ => false
  toNative := fun _ => clusterA
  tpcCFqtotCutoff := cutoff

/-! ## Cluster finder: further observations on the work item -/

/-- The stores to `clusterPosInRow` among a sequence of stores, as (index, value) pairs in
order. -/
def posWrites : List Store → List (ℕ × ℕ)
  | [] => []
  | Store.posInRow idx val :: l => (idx, val) :: posWrites l
  | _ :: l => posWrites l

/-- Buffers in which row 5 already counts one record: as `zeroMemory`, with
`clusterInRow[5] = 1`. -/
def oneInRowFive : Memory where
  clusterInRow := fun r => if r = 5 then 1 else 0
  clusterByRow := fun _ => ⟨0, 0, 0, 0, 0, 0⟩
  clusterPosInRow := fun _ => 0
  stores := []

namespace GPUTPCCFClusterizer

/-- The index `CAMath::Min(idx, clusternum - 1)` used at line 63 to read
`filteredPeakPositions`, with `clusternum - 1` in `uint` arithmetic. -/
def peakIndex (clusternum idx : ℕ) : ℕ :=
  min idx ((clusternum + 2 ^ 32 - 1) % 2 ^ 32)

end GPUTPCCFClusterizer

/-! ## Cluster finder: building a cluster

`ClusterAccumulator`, `PackedCharge`, `Delta2`, the neighbour tables of `cfconsts` and the
loads of `CfUtils` are declared outside the file.  The accumulator state `σ`, the packed
charge `P` and the offset type `D` are type parameters, `updateInner` and `updateOuter`
stand for the two accumulator methods (returning the charge and the new state), and the
contents of the scratch buffer after each load are arguments. -/

namespace GPUTPCCFClusterizer

section BuildCluster

variable {σ P D : Type}

/-- The state of the `for` loop of `updateClusterInner` (lines 125-136) when `i = k`: the
accumulator and the `uchar aboveThreshold` after the iterations `0 .. k - 1`. -/
def updateClusterInnerLoop (updateInner : σ → P → D → ℚ × σ) (InnerNeighbors : ℕ → D)
    (tpcCFinnerThreshold : ℚ) (lid N : ℕ) (buf : ℕ → P) (cluster : σ) : ℕ → σ × ℕ
  | 0 => (cluster, 0)
  | k + 1 =>
    let state := updateClusterInnerLoop updateInner InnerNeighbors tpcCFinnerThreshold lid N
      buf cluster k
    let d := InnerNeighbors k
    let p := buf (N * lid + k)
    let r := updateInner state.1 p d
    (r.2, (state.2 ||| ((if r.1 > tpcCFinnerThreshold then 1 else 0) <<< k)) % 2 ^ 8)

/-- The charge `q` returned by `cluster->updateInner(buf[N * lid + i], InnerNeighbors[i])` in
iteration `i` of `updateClusterInner`. -/
def innerCharge (updateInner : σ → P → D → ℚ × σ) (InnerNeighbors : ℕ → D)
    (tpcCFinnerThreshold : ℚ) (lid N : ℕ) (buf : ℕ → P) (cluster : σ) (i : ℕ) : ℚ :=
  (updateInner
    (updateClusterInnerLoop updateInner InnerNeighbors tpcCFinnerThreshold lid N buf cluster i).1
    (buf (N * lid + i)) (InnerNeighbors i)).1

/-- `updateClusterInner`, lines 112-141: the accumulator after the loop and the array
`innerAboveThreshold` after the store of line 138. -/
def updateClusterInner (updateInner : σ → P → D → ℚ × σ) (InnerNeighbors : ℕ → D)
    (tpcCFinnerThreshold : ℚ) (lid N : ℕ) (buf : ℕ → P) (cluster : σ)
    (innerAboveThreshold : ℕ → ℕ) : σ × (ℕ → ℕ) :=
  let state := updateClusterInnerLoop updateInner InnerNeighbors tpcCFinnerThreshold lid N
    buf cluster N
  (state.1, Function.update innerAboveThreshold lid state.2)

/-- The accumulator in the `for` loop of `updateClusterOuter` (lines 154-164) after `k`
iterations, `i = offset .. offset + k - 1`. -/
def updateClusterOuterLoop (updateOuter : σ → P → D → ℚ × σ) (OuterNeighbors : ℕ → D)
    (lid N offset : ℕ) (buf : ℕ → P) (cluster : σ) : ℕ → σ
  | 0 => cluster
  | k + 1 =>
    let state := updateClusterOuterLoop updateOuter OuterNeighbors lid N offset buf cluster k
    let p := buf (N * lid + (offset + k))
    let d := OuterNeighbors (offset + k)
    (updateOuter state p d).2

/-- `updateClusterOuter`, lines 143-165: the loop runs for `i = offset .. M + offset - 1`. -/
def updateClusterOuter (updateOuter : σ → P → D → ℚ × σ) (OuterNeighbors : ℕ → D)
    (lid N M offset : ℕ) (buf : ℕ → P) (cluster : σ) : σ :=
  updateClusterOuterLoop updateOuter OuterNeighbors lid N offset buf cluster M

/-- `ushort wgSizeHalf = (SCRATCH_PAD_WORK_GROUP_SIZE + 1) / 2`, line 202, for the work-group
size `W`. -/
def wgSizeHalf (W : ℕ) : ℕ := ((W + 1) / 2) % 2 ^ 16

/-- `bool inGroup1 = ll < wgSizeHalf`, line 204. -/
def inGroup1 (W ll : ℕ) : Bool := decide (ll < wgSizeHalf W)

/-- `ushort llhalf = (inGroup1) ? ll : (ll - wgSizeHalf)`, line 206. -/
def llhalf (W ll : ℕ) : ℕ :=
  if inGroup1 W ll = true then ll else (ll - wgSizeHalf W) % 2 ^ 16

/-- `buildCluster`, lines 167-256, as executed by lane `ll` of a work-group of size `W`.
`gpuCode` tells whether `GPUCA_GPUCODE` is defined; `bufInner`, `bufOuter1` and `bufOuter2`
are the contents of the scratch buffer after the `blockLoad` and after the first and the
second `condBlockLoad`. -/
def buildCluster (gpuCode : Bool) (W ll : ℕ)
    (updateInner updateOuter : σ → P → D → ℚ × σ) (InnerNeighbors OuterNeighbors : ℕ → D)
    (tpcCFinnerThreshold : ℚ) (bufInner bufOuter1 bufOuter2 : ℕ → P)
    (myCluster : σ) (innerAboveThreshold : ℕ → ℕ) : σ × (ℕ → ℕ) :=
  let inner := updateClusterInner updateInner InnerNeighbors tpcCFinnerThreshold ll 8
    bufInner myCluster innerAboveThreshold
  let first :=
    if inGroup1 W ll = true then
      updateClusterOuter updateOuter OuterNeighbors (llhalf W ll) 16 16 0 bufOuter1 inner.1
    else inner.1
  let second :=
    if gpuCode = true then
      if inGroup1 W ll = false then
        updateClusterOuter updateOuter OuterNeighbors (llhalf W ll) 16 16 0 bufOuter2 first
      else first
    else first
  (second, inner.2)

end BuildCluster

end GPUTPCCFClusterizer

/-- An accumulator that only sums the charges it is given: the state is the total so far and
the returned charge is the loaded value. -/
def sumUpdate : ℚ → ℚ → ℕ → ℚ × ℚ := fun total p _ => (p, total + p)

/-- A scratch buffer in which only the entry 2 holds a charge, 5. -/
def exampleBuf : ℕ → ℚ := fun i => if i = 2 then 5 else 0

/-! ## Cluster finder: a launch as a sequence of insertions -/

namespace GPUTPCCFClusterizer

/-- The `sortIntoBuckets` calls of the accepted candidates `(cluster, row)` of a launch,
executed one after another in the given order. -/
def sortAll (maxElemsPerBucket : ℕ) (insertions : List (ClusterNative × ℕ)) (m : Memory) :
    Memory :=
  insertions.foldl (fun m x => (sortIntoBuckets x.1 x.2 maxElemsPerBucket m).2) m

/-- The records of a row as the caller reads them: the slots `0 .. clusterInRow[row] - 1` of
the row's bucket. -/
def rowRecords (maxElemsPerBucket : ℕ) (m : Memory) (row : ℕ) : List ClusterNative :=
  (List.range (m.clusterInRow row)).map fun j => m.clusterByRow (slotIndex maxElemsPerBucket row j)

/-- The records sent to `row` by a list of insertions, in order. -/
def rowInsertions (insertions : List (ClusterNative × ℕ)) (row : ℕ) : List ClusterNative :=
  (insertions.filter fun x => decide (x.2 = row)).map Prod.fst

end GPUTPCCFClusterizer

/-! ## `GPUTPCO2Interface::RunTracking` -/

namespace GPUTPCO2Interface

/-- The members of the interface, of its configuration and of its chain that `RunTracking`
reads or writes.  `IOPtrs` stands for `GPUTrackingInOutPointers`, `Regions` for the output
regions `mOutputRegions`. -/
structure State (IOPtrs Regions : Type) where
  /-- The flag `mInitialized`. -/
  mInitialized : Bool
  /-- The setting `mConfig->configInterface.dumpEvents`. -/
  dumpEvents : ℤ
  /-- The setting `mConfig->configInterface.outputToExternalBuffers`. -/
  outputToExternalBuffers : Bool
  /-- The setting `mConfig->configQA.shipToQC`. -/
  shipToQC : Bool
  /-- The chain's pointers `mChain->mIOPtrs`. -/
  chainIOPtrs : IOPtrs
  /-- The output regions `*mOutputRegions`. -/
  outputRegions : Regions
  /-- The function-local `static int nEvent`. -/
  nEvent : ℤ
  /-- The dumps written by `mChain->DumpData`, as (event number, dumped pointers), oldest
  first. -/
  dumped : List (ℤ × IOPtrs)
  /-- The number of calls of `mRec->DumpSettings()`. -/
  settingsDumps : ℕ
  /-- The number of calls of `mRec->ClearAllocatedMemory()`. -/
  memoryClears : ℕ

/-- The collaborators of `RunTracking` outside the file. -/
structure Chain (IOPtrs Regions Outputs QA : Type) where
  /-- `mRec->RunChains()` on the chain's pointers: the return code and the chain's pointers
  afterwards. -/
  runChains : IOPtrs → ℤ × IOPtrs
  /-- The chain's pointers after `ClearIOPointers()` and the copy of `clustersNative`,
  `tpcPackedDigits` and `tpcZS` from `*data` (lines 100-103). -/
  dumpSelection : IOPtrs → IOPtrs
  /-- The output regions after the loop of lines 119-127 over `outputs->asArray()`. -/
  setRegions : Outputs → Regions → Regions
  /-- The histograms `mChain->GetQA()` hands out after a run (lines 139-141). -/
  histograms : IOPtrs → QA

/-- What a call of `RunTracking` leaves behind: the returned `int`, the interface, `*data` and
`outputs->qa`. -/
structure Outcome (IOPtrs Regions QA : Type) where
  retVal : ℤ
  state : State IOPtrs Regions
  data : IOPtrs
  qa : QA

/-- `GPUTPCO2Interface::RunTracking`, lines 93-146. -/
def RunTracking {IOPtrs Regions Outputs QA : Type} (chain : Chain IOPtrs Regions Outputs QA)
    (s : State IOPtrs Regions) (data : IOPtrs) (outputs : Outputs) (qa : QA) :
    Outcome IOPtrs Regions QA :=
  if s.mInitialized = false then
    ⟨1, s, data, qa⟩
  else
    let s₁ : State IOPtrs Regions :=
      if s.dumpEvents ≠ 0 then
        { s with chainIOPtrs := chain.dumpSelection data
                 dumped := s.dumped ++ [(s.nEvent, chain.dumpSelection data)]
                 settingsDumps := if s.nEvent = 0 then s.settingsDumps + 1 else s.settingsDumps
                 nEvent := s.nEvent + 1 }
      else s
    if s.dumpEvents ≠ 0 ∧ s.dumpEvents ≥ 2 then
      ⟨0, s₁, data, qa⟩
    else
      let s₂ : State IOPtrs Regions :=
        { s₁ with chainIOPtrs := data
                  outputRegions :=
                    if s.outputToExternalBuffers = true then
                      chain.setRegions outputs s₁.outputRegions
                    else s₁.outputRegions }
      let run := chain.runChains s₂.chainIOPtrs
      let s₃ : State IOPtrs Regions := { s₂ with chainIOPtrs := run.2 }
      let retVal : ℤ := if run.1 = 2 then 0 else run.1
      if retVal ≠ 0 then
        ⟨retVal, { s₃ with memoryClears := s₃.memoryClears + 1 }, data, qa⟩
      else
        ⟨0, s₃, s₃.chainIOPtrs, if s.shipToQC = true then chain.histograms s₃.chainIOPtrs else qa⟩

/-- An interface that is initialized, dumps nothing and ships no histograms. -/
def exampleState : State ℕ ℕ where
  mInitialized := true
  dumpEvents := 0
  outputToExternalBuffers := false
  shipToQC := false
  chainIOPtrs := 0
  outputRegions := 0
  nEvent := 0
  dumped := []
  settingsDumps := 0
  memoryClears := 0

/-- A chain whose run returns the given code and advances the pointers by one. -/
def exampleChain (code : ℤ) : Chain ℕ ℕ ℕ ℕ where
  runChains := fun p => (code, p + 1)
  dumpSelection := fun p => p
  setRegions := fun o _ => o
  histograms := fun p => p

end GPUTPCO2Interface

/-! ## Compression gather kernels

`GPUTPCCompressionKernels.h` declares the gather kernels; their definitions are outside the
sources.  The strategy `enum K` is taken from the header, the offset computation and the
copies are modelled from the specification. -/

namespace GPUTPCCompressionGatherKernels

/-- The copy strategies, `enum K` of the header (lines 67-73). -/
inductive K where
  | unbuffered
  | buffered32
  | buffered64
  | buffered128
  | multiBlock
  deriving DecidableEq

/-- Modelled from the spec: the sizes of the units handled by lane group `iWarp` when the
units are dealt to groups of `nLanes` cooperating lanes (the definition of
`calculateWarpOffsets` is missing). -/
def warpSizes (nLanes : ℕ) (sizes : List ℕ) (iWarp : ℕ) : List ℕ :=
  (sizes.drop (iWarp * nLanes)).take nLanes

/-- Modelled from the spec: the partial sum a group leader publishes in the shared scratchpad,
the total size of its group's units (the definition of `calculateWarpOffsets` is missing). -/
def warpTotal (nLanes : ℕ) (sizes : List ℕ) (iWarp : ℕ) : ℕ :=
  (warpSizes nLanes sizes iWarp).sum

/-- Modelled from the spec: the group-level offset, the second-level prefix sum over the
partial sums of the preceding groups (the definition of `calculateWarpOffsets` is missing). -/
def warpOffset (nLanes : ℕ) (sizes : List ℕ) (iWarp : ℕ) : ℕ :=
  ((List.range iWarp).map (warpTotal nLanes sizes)).sum

/-- Modelled from the spec: the local prefix sum of unit `i` within its lane group, the sizes
of the units of the group held by the lower lanes (the definition of `calculateWarpOffsets` is
missing). -/
def localOffset (nLanes : ℕ) (sizes : List ℕ) (i : ℕ) : ℕ :=
  ((warpSizes nLanes sizes (i / nLanes)).take (i % nLanes)).sum

/-- Modelled from the spec: the destination offset of unit `i`, its group-level offset plus
its local prefix sum (the definition of `calculateWarpOffsets` is missing). -/
def unitOffset (nLanes : ℕ) (sizes : List ℕ) (i : ℕ) : ℕ :=
  warpOffset nLanes sizes (i / nLanes) + localOffset nLanes sizes i

/-- Modelled from the spec: the GatherPlan, the destination offset of every unit (the
definition of `calculateWarpOffsets` is missing). -/
def gatherPlan (nLanes : ℕ) (sizes : List ℕ) : List ℕ :=
  (List.range sizes.length).map (unitOffset nLanes sizes)

/-- The exclusive prefix sum of the unit sizes at `i`: `s_0 + ... + s_{i-1}`. -/
def prefixSum (sizes : List ℕ) (i : ℕ) : ℕ := (sizes.take i).sum

end GPUTPCCompressionGatherKernels

namespace GPUTPCCompressionGatherKernels

/-- Modelled from the spec: a VariableLengthUnit, a source record of known size, with its
source pointer and its bytes (the type of the compressed cluster data is not part of the
sources). -/
structure GatherUnit where
  srcPtr : ℕ
  bytes : List ℕ

/-- The size in bytes of the vector word of a buffered strategy (`Vec32`, `Vec64`, `Vec128`
of the header, lines 76-78); 1 for the scalar strategies. -/
def vectorBytes : K → ℕ
  | K.buffered32 => 4
  | K.buffered64 => 8
  | K.buffered128 => 16
  | _ => 1

/-- Modelled from the spec: the alignment check, a pointer is aligned to a width when it is
divisible by the width in bytes (the definition of `isAlignedTo` is missing). -/
def isAlignedTo (width ptr : ℕ) : Bool := decide (ptr % width = 0)

/-- Modelled from the spec: the width used for a copy.  A width is valid only if both the
source and the destination pointer are aligned to it; a buffered strategy falls back to the
next smaller width, down to the scalar copy (the definitions of the gather kernels are
missing). -/
def copyWidth (k : K) (src dst : ℕ) : ℕ :=
  let valid := fun w : ℕ => isAlignedTo w src && isAlignedTo w dst
  if vectorBytes k = 16 ∧ valid 16 = true then 16
  else if 8 ≤ vectorBytes k ∧ valid 8 = true then 8
  else if 4 ≤ vectorBytes k ∧ valid 4 = true then 4
  else 1

/-- Modelled from the spec: the order of the unbuffered copy, in which lane `iLane` of
`nLanes` copies the scalar elements `iLane`, `iLane + nLanes`, ... directly (the definition
of `compressorMemcpyBasic` is missing). -/
def unbufferedOrder (nLanes size : ℕ) : List ℕ :=
  ((List.range nLanes).map fun iLane =>
    (List.range size).filter fun i => decide (i % nLanes = iLane)).flatten

/-- Modelled from the spec: the order of a buffered copy of width `w`, in which the lanes
stage the elements through the scratchpad in whole vector words of `w` elements and the
elements left over after the last whole word are copied one by one (the definition of
`compressorMemcpyBuffered` is missing). -/
def bufferedOrder (w size : ℕ) : List ℕ :=
  ((List.range (size / w)).map fun word => (List.range w).map fun t => word * w + t).flatten ++
    (List.range (size % w)).map fun t => size / w * w + t

/-- Modelled from the spec: the order of the multi-block copy, in which work-group `iBlock`
of `nBlocks` copies its own sub-range of `ceil(size / nBlocks)` elements (the definition of
`gatherMulti` is missing). -/
def multiBlockOrder (nBlocks size : ℕ) : List ℕ :=
  ((List.range nBlocks).map fun iBlock =>
    (List.range size).filter fun i =>
      decide (i / ((size + nBlocks - 1) / nBlocks) = iBlock)).flatten

/-- Modelled from the spec: the element order in which strategy `k` copies a unit of `size`
bytes from `src` to `dst` (the definitions of the gather kernels are missing). -/
def copyOrder (k : K) (nLanes nBlocks src dst size : ℕ) : List ℕ :=
  match k with
  | K.unbuffered => unbufferedOrder nLanes size
  | K.multiBlock => multiBlockOrder nBlocks size
  | _ =>
    if copyWidth k src dst = 1 then unbufferedOrder nLanes size
    else bufferedOrder (copyWidth k src dst) size

/-- Modelled from the spec: the copy of one unit to the destination address `dst` with
strategy `k`, element by element in the order of the strategy (the definitions of the gather
kernels are missing). -/
def copyUnit (k : K) (nLanes nBlocks dst : ℕ) (u : GatherUnit) (mem : ℕ → ℕ) : ℕ → ℕ :=
  (copyOrder k nLanes nBlocks u.srcPtr dst u.bytes.length).foldl
    (fun d i => Function.update d (dst + i) (u.bytes.getD i 0)) mem

/-- Modelled from the spec: the copies of the units `i`, `i + 1`, ... of a gather, each to the
destination offset the GatherPlan gives it (the definitions of the gather kernels are
missing). -/
def gatherLoop (k : K) (nLanes nBlocks dst : ℕ) (sizes : List ℕ) :
    ℕ → List GatherUnit → (ℕ → ℕ) → (ℕ → ℕ)
  | _, [], mem => mem
  | i, u :: rest, mem =>
    gatherLoop k nLanes nBlocks dst sizes (i + 1) rest
      (copyUnit k nLanes nBlocks (dst + unitOffset nLanes sizes i) u mem)

/-- Modelled from the spec: `gather(units[], destination)` with strategy `k`, the memory after
all units have been copied to the buffer at `dst` (the definitions of the gather kernels are
missing). -/
def gather (k : K) (nLanes nBlocks dst : ℕ) (units : List GatherUnit) (mem : ℕ → ℕ) : ℕ → ℕ :=
  gatherLoop k nLanes nBlocks dst (units.map fun u => u.bytes.length) 0 units mem

/-- The reference result: the sequential concatenation of the units in source order. -/
def concatenation (units : List GatherUnit) : List ℕ :=
  (units.map fun u => u.bytes).flatten

end GPUTPCCompressionGatherKernels

/-! ## Buffer size estimator: bounds that survive the conversion to `double` -/

/-- Round to nearest, ties to even, onto the even integers: the `double` nearest to a value
of `[2^53, 2^54)`, where the `double`s are the even integers.  Around `x` they are `4 q`
(even significand), `4 q + 2` (odd significand) and `4 q + 4` for `q = floor (x / 4)`. -/
def roundToEven2 (x : ℚ) : ℚ :=
  if x - 4 * ⌊x / 4⌋ ≤ 1 then 4 * ⌊x / 4⌋
  else if x - 4 * ⌊x / 4⌋ < 3 then 4 * ⌊x / 4⌋ + 2
  else 4 * ⌊x / 4⌋ + 4

/-- The rounding of IEEE binary64 (round to nearest, ties to even) on `[2^53, 2^54)`, and no
rounding outside this range. -/
def binary64Rnd (x : ℚ) : ℚ :=
  if 2 ^ 53 ≤ x ∧ x < 2 ^ 54 then roundToEven2 x else x

/-- Arithmetic that rounds as IEEE binary64 does on `[2^53, 2^54)` and is exact elsewhere: it
agrees with `double` arithmetic on every integer of `[0, 2^54]`. -/
def binary64Band : DoubleArith where
  rnd := binary64Rnd
  rnd_mono := by
    have grid : ∀ x : ℚ, ∃ k : ℤ, roundToEven2 x = 2 * k ∧ x - 1 ≤ 2 * k ∧
        (2 * k : ℚ) ≤ x + 1 := by
      intro x
      have hx1 := Int.floor_le (x / 4)
      have hx2 := Int.lt_floor_add_one (x / 4)
      unfold roundToEven2
      split_ifs with h1 h2
      · exact ⟨2 * ⌊x / 4⌋, by push_cast; ring, by push_cast; linarith, by push_cast; linarith⟩
      · exact ⟨2 * ⌊x / 4⌋ + 1, by push_cast; ring, by push_cast; linarith,
          by push_cast; linarith⟩
      · exact ⟨2 * ⌊x / 4⌋ + 2, by push_cast; ring, by push_cast; linarith,
          by push_cast; linarith⟩
    intro x y hxy
    show binary64Rnd x ≤ binary64Rnd y
    unfold binary64Rnd
    obtain ⟨kx, hkx, hkx1, hkx2⟩ := grid x
    obtain ⟨ky, hky, hky1, hky2⟩ := grid y
    split_ifs with hx hy hy
    · have hq : ⌊x / 4⌋ ≤ ⌊y / 4⌋ := Int.floor_mono (by linarith)
      have hx1 := Int.floor_le (x / 4)
      have hx2 := Int.lt_floor_add_one (x / 4)
      have hy1 := Int.floor_le (y / 4)
      have hy2 := Int.lt_floor_add_one (y / 4)
      unfold roundToEven2
      rcases hq.lt_or_eq with hlt | heq
      · have h1 : (⌊x / 4⌋ : ℚ) + 1 ≤ ⌊y / 4⌋ := by exact_mod_cast hlt
        split_ifs <;> linarith
      · rw [heq] at hx1 hx2 ⊢
        split_ifs <;> linarith
    · have hy' : (2 : ℚ) ^ 54 ≤ y := by
        by_contra hc
        exact hy ⟨le_trans hx.1 hxy, lt_of_not_le hc⟩
      rw [hkx]
      have h1 : (2 * kx : ℤ) < 2 ^ 54 + 1 := by
        have : (2 * (kx : ℚ)) < 2 ^ 54 + 1 := by linarith [hx.2]
        exact_mod_cast this
      have h2 : (2 * kx : ℤ) ≤ 2 ^ 54 := by omega
      have h3 : (2 * (kx : ℚ)) ≤ 2 ^ 54 := by exact_mod_cast h2
      linarith
    · have hx' : x < (2 : ℚ) ^ 53 := by
        by_contra hc
        exact hx ⟨not_lt.1 hc, lt_of_le_of_lt hxy hy.2⟩
      rw [hky]
      have h1 : (2 ^ 53 - 1 : ℤ) ≤ 2 * ky := by
        have : (2 ^ 53 - 1 : ℚ) ≤ 2 * (ky : ℚ) := by linarith [hy.1]
        exact_mod_cast this
      have h2 : (2 ^ 53 : ℤ) ≤ 2 * ky := by omega
      have h3 : (2 ^ 53 : ℚ) ≤ 2 * (ky : ℚ) := by exact_mod_cast h2
      linarith
    · exact hxy
  rnd_idem := by
    intro x
    show binary64Rnd (binary64Rnd x) = binary64Rnd x
    unfold binary64Rnd
    by_cases hx : 2 ^ 53 ≤ x ∧ x < 2 ^ 54
    · rw [if_pos hx]
      have even4 : ∀ j : ℤ, roundToEven2 (4 * j) = 4 * j := by
        intro j
        have hf : ⌊(4 * (j : ℚ)) / 4⌋ = j := by
          rw [Int.floor_eq_iff]
          constructor <;> linarith
        unfold roundToEven2
        rw [hf, if_pos (by linarith)]
      have odd4 : ∀ j : ℤ, roundToEven2 (4 * j + 2) = 4 * j + 2 := by
        intro j
        have hf : ⌊(4 * (j : ℚ) + 2) / 4⌋ = j := by
          rw [Int.floor_eq_iff]
          constructor <;> linarith
        unfold roundToEven2
        rw [hf, if_neg (by linarith), if_pos (by linarith)]
      have hv : ∃ j : ℤ, roundToEven2 x = 4 * j ∨ roundToEven2 x = 4 * j + 2 := by
        unfold roundToEven2
        split_ifs
        · exact ⟨⌊x / 4⌋, Or.inl rfl⟩
        · exact ⟨⌊x / 4⌋, Or.inr rfl⟩
        · exact ⟨⌊x / 4⌋ + 1, Or.inl (by push_cast; ring)⟩
      obtain ⟨j, hj | hj⟩ := hv
      · rw [hj]
        split_ifs
        · exact even4 j
        · rfl
      · rw [hj]
        split_ifs
        · exact odd4 j
        · rfl
    · rw [if_neg hx, if_neg hx]
  rnd_zero := by norm_num [binary64Rnd]
  rnd_nat := by
    intro n
    show ∃ k : ℕ, binary64Rnd n = k
    unfold binary64Rnd
    split_ifs with h
    · have hq : (0 : ℤ) ≤ ⌊(n : ℚ) / 4⌋ := Int.floor_nonneg.2 (by positivity)
      obtain ⟨q, hq'⟩ := Int.eq_ofNat_of_zero_le hq
      unfold roundToEven2
      rw [hq']
      split_ifs
      · exact ⟨4 * q, by push_cast; ring⟩
      · exact ⟨4 * q + 2, by push_cast; ring⟩
      · exact ⟨4 * q + 4, by push_cast; ring⟩
    · exact ⟨n, rfl⟩

namespace GPUMemorySizeScalers

/-- No hard upper bound is rounded up by its conversion to `double`.  This holds in
particular when the bounds are exactly representable, as every integer up to `2^53` is. -/
def BoundsNotRoundedUp (A : DoubleArith) (s : GPUMemorySizeScalers) : Prop :=
  A.ofSizeT s.tpcMaxPeaks ≤ s.tpcMaxPeaks ∧ A.ofSizeT s.tpcMaxClusters ≤ s.tpcMaxClusters ∧
  A.ofSizeT s.tpcMaxStartHits ≤ s.tpcMaxStartHits ∧
  A.ofSizeT s.tpcMaxRowStartHits ≤ s.tpcMaxRowStartHits ∧
  A.ofSizeT s.tpcMaxTracklets ≤ s.tpcMaxTracklets ∧
  A.ofSizeT s.tpcMaxTrackletHits ≤ s.tpcMaxTrackletHits ∧
  A.ofSizeT s.tpcMaxSectorTracks ≤ s.tpcMaxSectorTracks ∧
  A.ofSizeT s.tpcMaxSectorTrackHits ≤ s.tpcMaxSectorTrackHits ∧
  A.ofSizeT s.tpcMaxMergedTracks ≤ s.tpcMaxMergedTracks ∧
  A.ofSizeT s.tpcMaxMergedTrackHits ≤ s.tpcMaxMergedTrackHits

/-- With the global factor set to 0 the stage returns 0 for every input count for which it
returns a value with the factor of `s`. -/
def ZeroAtFactorZero (F : GPUMemorySizeScalers → ℕ → Option ℕ) (s : GPUMemorySizeScalers) :
    Prop :=
  ∀ n, (F s n).isSome = true → F (withFactor s 0) n = some 0

end GPUMemorySizeScalers

/-! ## TRD propagator interfaces (`GPUTRDInterfaces.h`) -/

namespace GPUTRDInterfaces

/-- The members of the base class `GPUTPCGMPropagator` and of the track that
`propagatorInterface<GPUTPCGMPropagator>::propagateToX` calls; they are defined outside the
header.  `R` stands for `float`, `Track` for the state of the propagator and of its track. -/
structure GMPropagator (R Track : Type) where
  /-- `PropagateToXAlpha(x, alpha, inFlyDirection)`: the return code and the state after the
  call. -/
  PropagateToXAlpha : Track → R → R → Bool → ℤ × Track
  /-- `GetAlpha()`. -/
  GetAlpha : Track → R
  /-- `mTrack->CheckNumericalQuality()`. -/
  CheckNumericalQuality : Track → Bool

/-- `propagatorInterface<GPUTPCGMPropagator>::propagateToX`, lines 350-357: the returned flag
and the state after the call.  The local `ok` is first set from the return code and then
overwritten by the result of `CheckNumericalQuality`. -/
def propagateToX {R Track : Type} (env : GMPropagator R Track) (t : Track)
    (x _maxSnp _maxStep : R) : Bool × Track :=
  let (retVal, t₁) := env.PropagateToXAlpha t x (env.GetAlpha t) true
  let ok : Bool := if retVal = 0 then true else false
  let ok : Bool := (fun _ => env.CheckNumericalQuality t₁) ok
  (ok, t₁)

/-- A propagator whose propagation returns `code` and leaves the track alone, with a track that
passes the numerical quality check. -/
def exampleGMPropagator (code : ℤ) : GMPropagator ℚ ℕ where
  PropagateToXAlpha := fun t _ _ _ => (code, t)
  GetAlpha := fun _ => 0
  CheckNumericalQuality := fun _ => true

/-- The members of the track `trackInterface<o2::dataformats::TrackTPCITS>` that
`propagatorInterface<o2::base::Propagator>` calls; they are defined outside the header. -/
structure O2Track (R Track : Type) where
  /-- `mParam->update(pTmp, covTmp)`: the returned flag and the track after the call. -/
  update : Track → R × R → R × R × R → Bool × Track
  /-- `mParam->getPredictedChi2(pTmp, covTmp)`. -/
  getPredictedChi2 : Track → R × R → R × R × R → R

/-- The indices at which `covTmp = {cov[0], cov[1], cov[3]}` reads the array `cov`, lines 220
and 230. -/
def covIndices : List ℕ := [0, 1, 3]

/-- The initialiser `pTmp = {p[0], p[1]}`; a read outside the array has no defined value. -/
def pTmp {R : Type} (p : List R) : Option (R × R) := do
  let p0 ← p[0]?
  let p1 ← p[1]?
  pure (p0, p1)

/-- The initialiser `covTmp = {cov[0], cov[1], cov[3]}`; a read outside the array has no
defined value. -/
def covTmp {R : Type} (cov : List R) : Option (R × R × R) := do
  let c0 ← cov[0]?
  let c1 ← cov[1]?
  let c2 ← cov[3]?
  pure (c0, c1, c2)

/-- `propagatorInterface<o2::base::Propagator>::update`, lines 216-225: the returned flag and
the track `*mParam` after the call; `none` when an array is read outside its bounds. -/
def update {R Track : Type} (O : O2Track R Track) (mParam : Option Track) (p cov : List R) :
    Option (Bool × Option Track) :=
  match mParam with
  | some trk => do
    let pT ← pTmp p
    let cT ← covTmp cov
    pure ((O.update trk pT cT).1, some (O.update trk pT cT).2)
  | none => some (false, none)

/-- `propagatorInterface<o2::base::Propagator>::getPredictedChi2`, lines 226-235; `99999` is
the literal `99999.f`. -/
def getPredictedChi2 {R Track : Type} [OfNat R 99999] (O : O2Track R Track)
    (mParam : Option Track) (p cov : List R) : Option R :=
  match mParam with
  | some trk => do
    let pT ← pTmp p
    let cT ← covTmp cov
    pure (O.getPredictedChi2 trk pT cT)
  | none => some 99999

/-- A track whose `update` succeeds exactly when it is given the covariance `(1, 2, 3)` and
whose predicted chi2 is the sum of the three covariance entries it is given. -/
def exampleO2Track : O2Track ℚ ℕ where
  update := fun t _ c => (decide (c = (1, 2, 3)), t)
  getPredictedChi2 := fun _ _ c => c.1 + c.2.1 + c.2.2

end GPUTRDInterfaces

/-! ## `GPUTPCO2Interface::Initialize` -/

namespace GPUTPCO2Interface

/-- The settings of `GPUO2InterfaceConfiguration` that `Initialize` reads or writes; `Rest`
stands for all other settings. -/
structure Configuration (Rest : Type) where
  /-- The setting `configEvent.continuousMaxTimeBin`. -/
  continuousMaxTimeBin : ℤ
  /-- The setting `configEvent.needsClusterer`. -/
  needsClusterer : ℤ
  /-- The test `configWorkflow.inputs.isSet(GPUDataTypes::InOutType::TPCRaw)`. -/
  inputsTPCRaw : Bool
  /-- The setting `configInterface.outputToExternalBuffers`, default `false`. -/
  outputToExternalBuffers : Bool
  /-- The setting `configInterface.memoryBufferScaleFactor`, a `float` of default `1.f`. -/
  memoryBufferScaleFactor : ℚ
  /-- All other settings. -/
  rest : Rest

/-- What `Initialize` reads or writes of the reconstruction object `*mRec`; `Rest` stands for
the remainder of its state. -/
structure Reconstruction (Rest : Type) where
  /-- The global factor `MemoryScalers()->factor`. -/
  factor : ℚ
  /-- The result of `IsGPU()`. -/
  IsGPU : Bool
  /-- The setting `GetProcessingSettings().memoryAllocationStrategy`. -/
  memoryAllocationStrategy : ℤ
  /-- The remainder of the state. -/
  rest : Rest

/-- The collaborators of `Initialize` outside the file. -/
structure Backend (CRest RRest : Type) where
  /-- `GPUReconstruction::CreateInstance(mConfig->configDeviceBackend)`; `none` is
  `nullptr`. -/
  CreateInstance : Configuration CRest → Option (Reconstruction RRest)
  /-- The calls between the creation and `Init()`: `AddChain`, `SetSettings`,
  `SetCalibObjects`, and with `outputToExternalBuffers` the output controls. -/
  configure : Configuration CRest → Reconstruction RRest → Reconstruction RRest
  /-- `mRec->Init()`: the return code and the reconstruction after the call. -/
  Init : Reconstruction RRest → ℤ × Reconstruction RRest
  /-- The enumerator `GPUMemoryResource::ALLOCATION_INDIVIDUAL`. -/
  ALLOCATION_INDIVIDUAL : ℤ

/-- The members of the interface that `Initialize` reads or writes. -/
structure Interface (CRest RRest : Type) where
  /-- The flag `mInitialized`. -/
  mInitialized : Bool
  /-- The stored configuration `mConfig`; `none` is an empty pointer. -/
  mConfig : Option (Configuration CRest)
  /-- The flag `mContinuous`. -/
  mContinuous : Bool
  /-- The reconstruction `mRec`; `none` is an empty pointer. -/
  mRec : Option (Reconstruction RRest)

/-- `GPUTPCO2Interface::Initialize`, lines 43-82: the return code and the interface after the
call.  The products `factor *= 2` and `factor *= memoryBufferScaleFactor` are `double`
products. -/
def Initialize {CRest RRest : Type} (A : DoubleArith) (env : Backend CRest RRest)
    (s : Interface CRest RRest) (config : Configuration CRest) : ℤ × Interface CRest RRest :=
  if s.mInitialized then
    (1, s)
  else
    let mContinuous := decide (config.continuousMaxTimeBin ≠ 0)
    match env.CreateInstance config with
    | none => (1, { s with mConfig := some config, mContinuous := mContinuous, mRec := none })
    | some created =>
      let mConfig := if config.inputsTPCRaw then { config with needsClusterer := 1 } else config
      let (code, rec₁) := env.Init (env.configure mConfig created)
      if code ≠ 0 then
        (1, { s with mConfig := some mConfig, mContinuous := mContinuous, mRec := some rec₁ })
      else
        let rec₂ :=
          if rec₁.IsGPU = false ∧ rec₁.memoryAllocationStrategy = env.ALLOCATION_INDIVIDUAL then
            { rec₁ with factor := A.mul rec₁.factor 2 }
          else rec₁
        let rec₃ := { rec₂ with factor := A.mul rec₂.factor mConfig.memoryBufferScaleFactor }
        (0, { mInitialized := true, mConfig := some mConfig, mContinuous := mContinuous,
              mRec := some rec₃ })

/-- A configuration with the buffer scale factor `3 / 2` and no raw TPC input. -/
def exampleConfiguration : Configuration Unit where
  continuousMaxTimeBin := 0
  needsClusterer := 0
  inputsTPCRaw := false
  outputToExternalBuffers := false
  memoryBufferScaleFactor := 3 / 2
  rest := ()

/-- A backend that creates a CPU reconstruction with individual allocation (enumerator 1) and
the default global factor 1, and whose `Init()` succeeds without changing it. -/
def exampleBackend : Backend Unit Unit where
  CreateInstance := fun _ => some ⟨1, false, 1, ()⟩
  configure := fun _ r => r
  Init := fun r => (0, r)
  ALLOCATION_INDIVIDUAL := 1

/-- An interface that has not been initialized. -/
def freshInterface : Interface Unit Unit := ⟨false, none, false, none⟩

end GPUTPCO2Interface

/-! ## `GPUChainTracking::ReadData` -/

namespace GPUChainTracking

/-- The fields of `GPUTPCClusterData` that `ReadData` reads or writes: the `int id` and the
`float amp`. -/
structure GPUTPCClusterData where
  id : ℤ
  amp : ℚ

/-- The fields of `AliHLTTPCRawCluster` behind `GetCharge`/`SetCharge` and
`GetQMax`/`SetQMax`, both unsigned 16-bit integers. -/
structure AliHLTTPCRawCluster where
  charge : ℕ
  qMax : ℕ

/-- The length `DUMP_HEADER_SIZE` of the file header, line 68. -/
def DUMP_HEADER_SIZE : ℕ := 4

/-- The file header `DUMP_HEADER`, line 69. -/
def DUMP_HEADER : List Char := ['C', 'A', 'v', '1']

/-- What `ReadData` reads from a dump file: the bytes delivered by the first `fread` (at most
`DUMP_HEADER_SIZE`), the geometry type, and for every slice the cluster data and the raw
clusters that the `ReadData` helper loads (`nClusterData[i]` and `nRawClusters[i]` are the
lengths). -/
structure DumpFile where
  header : List Char
  geo : ℕ
  slices : List (List GPUTPCClusterData × List AliHLTTPCRawCluster)

/-- The conversion `(unsigned int)` of a `float`: truncation toward zero, defined when the
truncated value lies in `[0, 2^32)`. -/
def toUInt (x : ℚ) : Option ℕ :=
  if -1 < x ∧ x < 2 ^ 32 then some ⌊x⌋₊ else none

/-- The body of the loop of lines 203-209 for one cluster: `id = nClustersTotal++`, then the
clamp of `amp`.  The result is the cluster and the counter after the body; `none` when the
`int` counter overflows or the conversion of `amp` is undefined. -/
def clusterDataBody (c : GPUTPCClusterData) (nClustersTotal : ℤ) :
    Option (GPUTPCClusterData × ℤ) :=
  if nClustersTotal + 1 < 2 ^ 31 then
    (toUInt c.amp).map fun a =>
      let c₁ := { c with id := nClustersTotal }
      (if a ≥ 25 * 1024 then { c₁ with amp := 25 * 1024 - 1 } else c₁, nClustersTotal + 1)
  else none

/-- The loop of lines 203-209 over the clusters of one slice. -/
def clusterDataLoop : List GPUTPCClusterData → ℤ → Option (List GPUTPCClusterData × ℤ)
  | [], nClustersTotal => some ([], nClustersTotal)
  | c :: rest, nClustersTotal =>
    (clusterDataBody c nClustersTotal).bind fun r =>
      (clusterDataLoop rest r.2).map fun rs => (r.1 :: rs.1, rs.2)

/-- The body of the loop of lines 210-219 for one raw cluster: the clamp of the charge, then
the clamp of the charge maximum; `(unsigned int)` of an integer is its value modulo `2^32`. -/
def rawClusterBody (c : AliHLTTPCRawCluster) : AliHLTTPCRawCluster :=
  let c₁ := if c.charge % 2 ^ 32 ≥ 25 * 1024 then { c with charge := 25 * 1024 - 1 } else c
  if c₁.qMax % 2 ^ 32 ≥ 1024 then { c₁ with qMax := 1024 - 1 } else c₁

/-- The loop of lines 202-220 over the slices, started with the counter `nClustersTotal`. -/
def sliceLoop : List (List GPUTPCClusterData × List AliHLTTPCRawCluster) → ℤ →
    Option (List (List GPUTPCClusterData × List AliHLTTPCRawCluster))
  | [], _ => some []
  | slice :: rest, nClustersTotal =>
    (clusterDataLoop slice.1 nClustersTotal).bind fun r =>
      (sliceLoop rest r.2).map fun rs => (r.1, slice.2.map rawClusterBody) :: rs

/-- `GPUChainTracking::ReadData`, lines 131-223: the return code and the cluster data and raw
clusters of the slices afterwards (none after `ClearIOPointers()` when the function returns
early).  `file` is `none` when `fopen` returns `nullptr`; the result is `none` when the
behaviour is undefined. -/
def ReadData (geometryType : ℕ) (file : Option DumpFile) :
    Option (ℤ × List (List GPUTPCClusterData × List AliHLTTPCRawCluster)) :=
  match file with
  | none => some (1, [])
  | some f =>
    if f.header ≠ DUMP_HEADER then some (-1, [])
    else if f.geo ≠ geometryType then some (1, [])
    else (sliceLoop f.slices 0).map fun slices => (0, slices)

/-- The cluster data of all slices, in slice-major order. -/
def allClusterData (slices : List (List GPUTPCClusterData × List AliHLTTPCRawCluster)) :
    List GPUTPCClusterData :=
  (slices.map Prod.fst).flatten

/-- The raw clusters of all slices, in slice-major order. -/
def allRawClusters (slices : List (List GPUTPCClusterData × List AliHLTTPCRawCluster)) :
    List AliHLTTPCRawCluster :=
  (slices.map Prod.snd).flatten

/-- The number of clusters in the slices before slice `i`. -/
def clustersBefore (slices : List (List GPUTPCClusterData × List AliHLTTPCRawCluster))
    (i : ℕ) : ℕ :=
  ((slices.take i).map fun s => s.1.length).sum

/-- Every `amp` converts to `unsigned int` and the number of clusters fits an `int`. -/
def Loadable (slices : List (List GPUTPCClusterData × List AliHLTTPCRawCluster)) : Prop :=
  (∀ c ∈ allClusterData slices, -1 < c.amp ∧ c.amp < 2 ^ 32) ∧
  ((allClusterData slices).length : ℤ) < 2 ^ 31

/-- The charge and the charge maximum of every raw cluster fit their unsigned 16-bit
fields. -/
def RawInRange (slices : List (List GPUTPCClusterData × List AliHLTTPCRawCluster)) : Prop :=
  ∀ c ∈ allRawClusters slices, c.charge < 2 ^ 16 ∧ c.qMax < 2 ^ 16

/-- A dump whose only cluster has the amplitude `2^32`. -/
def hugeAmpDump : DumpFile where
  header := ['C', 'A', 'v', '1']
  geo := 0
  slices := [([⟨0, 4294967296⟩], [])]

/-- A dump whose only cluster has the amplitude `-5`. -/
def negativeAmpDump : DumpFile where
  header := ['C', 'A', 'v', '1']
  geo := 0
  slices := [([⟨0, -5⟩], [])]

/-- A dump of two slices: amplitudes 100 and 30000 in the first, 25600 in the second; raw
charges 30000 (maximum 2000) and 50 (maximum 7). -/
def exampleDump : DumpFile where
  header := ['C', 'A', 'v', '1']
  geo := 0
  slices := [([⟨0, 100⟩, ⟨0, 30000⟩], [⟨30000, 2000⟩]), ([⟨0, 25600⟩], [⟨50, 7⟩])]

end GPUChainTracking

/-! # Theorems -/

/-! ## Conversions and rounding -/

theorem toSizeT_eq_some_iff {x : ℚ} {k : ℕ} :
    toSizeT x = some k ↔ (-1 < x ∧ x < 2 ^ 64) ∧ ⌊x⌋₊ = k := by
  unfold toSizeT
  split_ifs with h
  · simp [h]
  · simp [h]

theorem toSizeT_of_bounds {x : ℚ} {k : ℕ} (h1 : (k : ℚ) ≤ x) (h2 : x < k + 1)
    (h3 : x < 2 ^ 64) : toSizeT x = some k := by
  have hk : (0 : ℚ) ≤ k := Nat.cast_nonneg k
  rw [toSizeT_eq_some_iff]
  refine ⟨⟨by linarith, h3⟩, ?_⟩
  rw [Nat.floor_eq_iff (by linarith)]
  exact ⟨h1, h2⟩

theorem toSizeT_mono {x y : ℚ} {b : ℕ} (hx : 0 ≤ x) (hxy : x ≤ y)
    (hy : toSizeT y = some b) : ∃ a, toSizeT x = some a ∧ a ≤ b := by
  rw [toSizeT_eq_some_iff] at hy
  obtain ⟨⟨_, hy2⟩, rfl⟩ := hy
  refine ⟨⌊x⌋₊, ?_, Nat.floor_mono hxy⟩
  rw [toSizeT_eq_some_iff]
  exact ⟨⟨by linarith, by linarith⟩, rfl⟩

namespace DoubleArith

theorem rnd_nonneg (A : DoubleArith) {x : ℚ} (hx : 0 ≤ x) : 0 ≤ A.rnd x := by
  have h := A.rnd_mono hx
  rwa [A.rnd_zero] at h

theorem ofSizeT_nonneg (A : DoubleArith) (n : ℕ) : 0 ≤ A.ofSizeT n :=
  A.rnd_nonneg (Nat.cast_nonneg n)

theorem ofSizeT_mono (A : DoubleArith) {m n : ℕ} (h : m ≤ n) : A.ofSizeT m ≤ A.ofSizeT n :=
  A.rnd_mono (by exact_mod_cast h)

theorem mul_nonneg_of (A : DoubleArith) {x y : ℚ} (hx : 0 ≤ x) (hy : 0 ≤ y) :
    0 ≤ A.mul x y :=
  A.rnd_nonneg (mul_nonneg hx hy)

theorem add_nonneg_of (A : DoubleArith) {x y : ℚ} (hx : 0 ≤ x) (hy : 0 ≤ y) :
    0 ≤ A.add x y :=
  A.rnd_nonneg (add_nonneg hx hy)

theorem mul_mono_left (A : DoubleArith) {x y r : ℚ} (hxy : x ≤ y) (hr : 0 ≤ r) :
    A.mul x r ≤ A.mul y r :=
  A.rnd_mono (mul_le_mul_of_nonneg_right hxy hr)

theorem mul_mono_right (A : DoubleArith) {x y r : ℚ} (hxy : x ≤ y) (hr : 0 ≤ r) :
    A.mul r x ≤ A.mul r y :=
  A.rnd_mono (mul_le_mul_of_nonneg_left hxy hr)

theorem add_mono_right (A : DoubleArith) {x y : ℚ} (c : ℚ) (hxy : x ≤ y) :
    A.add c x ≤ A.add c y :=
  A.rnd_mono (by linarith)

/-- A `size_t` converted to `double`, truncated and converted again gives the same
`double`. -/
theorem ofSizeT_floor (A : DoubleArith) (m : ℕ) :
    A.ofSizeT ⌊A.ofSizeT m⌋₊ = A.ofSizeT m := by
  obtain ⟨k, hk⟩ := A.rnd_nat m
  unfold ofSizeT
  rw [hk, Nat.floor_natCast, ← hk, A.rnd_idem]

end DoubleArith

namespace GPUMemorySizeScalers

/-! ## The common sub-expression `min(maxVal, val) * factor` -/

theorem minTimesFactor_eq_chainedFormula (A : DoubleArith) (maxVal : ℕ) (val factor : ℚ) :
    minTimesFactor A maxVal val factor = chainedFormula A maxVal val factor := by
  unfold minTimesFactor chainedFormula
  cases toSizeT val <;> rfl

theorem minTimesFactor_eq_some_iff {A : DoubleArith} {maxVal : ℕ} {val factor : ℚ} {r : ℕ} :
    minTimesFactor A maxVal val factor = some r ↔
      ∃ v, toSizeT val = some v ∧ toSizeT (A.mul (A.ofSizeT (min maxVal v)) factor) = some r := by
  unfold minTimesFactor
  cases h : toSizeT val <;> simp

theorem minTimesFactor_mono (A : DoubleArith) {maxVal : ℕ} {x y factor : ℚ} {b : ℕ}
    (hf : 0 ≤ factor) (hx : 0 ≤ x) (hxy : x ≤ y)
    (hy : minTimesFactor A maxVal y factor = some b) :
    ∃ a, minTimesFactor A maxVal x factor = some a ∧ a ≤ b := by
  obtain ⟨v, hv, hb⟩ := minTimesFactor_eq_some_iff.1 hy
  obtain ⟨u, hu, huv⟩ := toSizeT_mono hx hxy hv
  have hmin : min maxVal u ≤ min maxVal v := min_le_min le_rfl huv
  obtain ⟨a, ha, hab⟩ := toSizeT_mono
    (A.mul_nonneg_of (A.ofSizeT_nonneg _) hf)
    (A.mul_mono_left (A.ofSizeT_mono hmin) hf) hb
  exact ⟨a, minTimesFactor_eq_some_iff.2 ⟨u, hu, ha⟩, hab⟩

theorem minTimesFactor_scales (A : DoubleArith) {maxVal : ℕ} {val : ℚ} (f : ℚ) {r₁ : ℕ}
    (h : minTimesFactor A maxVal val 1 = some r₁) :
    minTimesFactor A maxVal val f = toSizeT (A.mul (A.ofSizeT r₁) f) := by
  obtain ⟨v, hv, hr⟩ := minTimesFactor_eq_some_iff.1 h
  rw [toSizeT_eq_some_iff] at hr
  have hone : A.mul (A.ofSizeT (min maxVal v)) 1 = A.ofSizeT (min maxVal v) := by
    simp only [DoubleArith.mul, DoubleArith.ofSizeT, mul_one, A.rnd_idem]
  rw [hone] at hr
  have hr₁ : A.ofSizeT r₁ = A.ofSizeT (min maxVal v) := by
    rw [← hr.2, A.ofSizeT_floor]
  simp only [minTimesFactor, hv, Option.some_bind, hr₁]

theorem stage_mono (A : DoubleArith) (maxVal : ℕ) {off ratio factor : ℚ}
    (hf : 0 ≤ factor) (ho : 0 ≤ off) (hr : 0 ≤ ratio) :
    MonotoneStage fun n =>
      minTimesFactor A maxVal (A.add off (A.mul (A.ofSizeT n) ratio)) factor := by
  intro n₁ n₂ h12 r₂ h2
  exact minTimesFactor_mono A hf
    (A.add_nonneg_of ho (A.mul_nonneg_of (A.ofSizeT_nonneg _) hr))
    (A.add_mono_right off (A.mul_mono_left (A.ofSizeT_mono h12) hr)) h2

theorem chained_mono (A : DoubleArith) (maxVal : ℕ) {factor : ℚ} {F : ℕ → Option ℕ}
    {g : ℕ → ℚ} (hf : 0 ≤ factor) (hF : MonotoneStage F) (hg0 : ∀ n, 0 ≤ g n)
    (hg : ∀ m n, m ≤ n → g m ≤ g n) :
    MonotoneStage fun n => (F n).bind fun p => minTimesFactor A maxVal (g p) factor := by
  intro n₁ n₂ h12 r₂ h2
  cases hp2 : F n₂ with
  | none => simp [hp2] at h2
  | some p₂ =>
    obtain ⟨p₁, hp1, hp12⟩ := hF n₁ n₂ h12 p₂ hp2
    simp only [hp2, Option.some_bind] at h2
    obtain ⟨a, ha, hab⟩ := minTimesFactor_mono A hf (hg0 p₁) (hg p₁ p₂ hp12) h2
    exact ⟨a, by simp only [hp1, Option.some_bind, ha], hab⟩


/-! ## Evaluation in exact arithmetic -/

theorem toSizeT_natCast {k : ℕ} (hk : k < 2 ^ 64) : toSizeT (k : ℚ) = some k := by
  refine toSizeT_of_bounds le_rfl (by linarith) ?_
  exact_mod_cast hk

theorem minTimesFactor_exact {maxVal : ℕ} {val factor : ℚ} (v r : ℕ)
    (hv1 : (v : ℚ) ≤ val) (hv2 : val < v + 1) (hv3 : val < 2 ^ 64)
    (hr1 : (r : ℚ) ≤ (min maxVal v : ℕ) * factor) (hr2 : ((min maxVal v : ℕ) : ℚ) * factor < r + 1)
    (hr3 : ((min maxVal v : ℕ) : ℚ) * factor < 2 ^ 64) :
    minTimesFactor exactArith maxVal val factor = some r :=
  minTimesFactor_eq_some_iff.2 ⟨v, toSizeT_of_bounds hv1 hv2 hv3, toSizeT_of_bounds hr1 hr2 hr3⟩

theorem NTPCStartHits_default_zero : NTPCStartHits exactArith {} 0 = some 1000 := by
  apply minTimesFactor_exact 1000 1000 <;>
    norm_num [DoubleArith.add, DoubleArith.mul, DoubleArith.ofSizeT, exactArith]

theorem NTPCStartHits_default_one : NTPCStartHits exactArith {} 1 = some 1000 := by
  apply minTimesFactor_exact 1000 1000 <;>
    norm_num [DoubleArith.add, DoubleArith.mul, DoubleArith.ofSizeT, exactArith]

theorem NTPCTrackletHits_default_zero : NTPCTrackletHits exactArith {} 0 = some 20000 := by
  apply minTimesFactor_exact 20000 20000 <;>
    norm_num [DoubleArith.add, DoubleArith.mul, DoubleArith.ofSizeT, exactArith]

theorem NTPCTrackletHits_default_one : NTPCTrackletHits exactArith {} 1 = some 20005 := by
  apply minTimesFactor_exact 20005 20005 <;>
    norm_num [DoubleArith.add, DoubleArith.mul, DoubleArith.ofSizeT, exactArith]

theorem NTPCPeaks_factor_zero (f : ℚ) (r : ℕ) (h1 : (r : ℚ) ≤ 20000 * f)
    (h2 : 20000 * f < r + 1) (h3 : 20000 * f < 18446744073709551616) :
    NTPCPeaks exactArith (withFactor {} f) 0 = some r := by
  apply minTimesFactor_exact 20000 r <;>
    norm_num [DoubleArith.add, DoubleArith.mul, DoubleArith.ofSizeT, exactArith, withFactor, h1, h2, h3]

theorem NTPCClusters_factor_one_zero :
    NTPCClusters exactArith (withFactor {} 1) 0 = some 18000 := by
  unfold NTPCClusters
  rw [NTPCPeaks_factor_zero 1 20000 (by norm_num) (by norm_num) (by norm_num)]
  apply minTimesFactor_exact 18000 18000 <;>
    norm_num [DoubleArith.add, DoubleArith.mul, DoubleArith.ofSizeT, exactArith, withFactor]

theorem NTPCClusters_factor_two_zero :
    NTPCClusters exactArith (withFactor {} 2) 0 = some 72000 := by
  unfold NTPCClusters
  rw [NTPCPeaks_factor_zero 2 40000 (by norm_num) (by norm_num) (by norm_num)]
  apply minTimesFactor_exact 36000 72000 <;>
    norm_num [DoubleArith.add, DoubleArith.mul, DoubleArith.ofSizeT, exactArith, withFactor]

/-! ## Claims on the buffer size estimator -/

/-- C1: each direct stage (`NTPCStartHits`, `NTPCSectorTracks`, `NTPCSectorTrackHits`,
`NTPCMergedTracks`, `NTPCMergedTrackHits` with `offset`; `NTPCPeaks`, `NTPCTrackletHits` with
`hitOffset`) returns, for every input count, `min(hardUpperBound, offset + n * perUnitRatio)
* factor` for its own ratio and upper bound, the sum truncated before the minimum and the
product truncated on return. -/
theorem direct_stages_eq_stageFormula (A : DoubleArith) (s : GPUMemorySizeScalers) (n : ℕ) :
    NTPCStartHits A s n
        = stageFormula A s.tpcMaxStartHits s.offset s.tpcStartHitsPerHit s.factor n ∧
    NTPCSectorTracks A s n
        = stageFormula A s.tpcMaxSectorTracks s.offset s.tpcSectorTracksPerHit s.factor n ∧
    NTPCSectorTrackHits A s n
        = stageFormula A s.tpcMaxSectorTrackHits s.offset s.tpcSectorTrackHitsPerHit
            s.factor n ∧
    NTPCMergedTracks A s n
        = stageFormula A s.tpcMaxMergedTracks s.offset s.tpcMergedTrackPerSliceTrack
            s.factor n ∧
    NTPCMergedTrackHits A s n
        = stageFormula A s.tpcMaxMergedTrackHits s.offset s.tpcMergedTrackHitPerSliceHit
            s.factor n ∧
    NTPCPeaks A s n
        = stageFormula A s.tpcMaxPeaks s.hitOffset s.tpcPeaksPerDigit s.factor n ∧
    NTPCTrackletHits A s n
        = stageFormula A s.tpcMaxTrackletHits s.hitOffset s.tpcTrackletHitsPerHit
            s.factor n := by
  refine ⟨?_, ?_, ?_, ?_, ?_, ?_, ?_⟩ <;>
    exact minTimesFactor_eq_chainedFormula A _ _ _

/-- C2, amended: with a non-negative factor, non-negative offsets and non-negative ratios,
every one of the ten stage functions is monotonically non-decreasing on the input counts for
which it is defined: if it returns a value for `n₂`, so that every `double` converted to
`size_t` on the way is below `2^64`, then for every `n₁ ≤ n₂` it returns a value as well, and
one that is not larger. -/
theorem stages_monotone (A : DoubleArith) (GPUCA_ROW_COUNT : ℕ) (s : GPUMemorySizeScalers)
    (h : NonNegTunables s) :
    MonotoneStage (NTPCPeaks A s) ∧ MonotoneStage (NTPCClusters A s) ∧
    MonotoneStage (NTPCStartHits A s) ∧ MonotoneStage (NTPCRowStartHits A GPUCA_ROW_COUNT s) ∧
    MonotoneStage (NTPCTracklets A s) ∧ MonotoneStage (NTPCTrackletHits A s) ∧
    MonotoneStage (NTPCSectorTracks A s) ∧ MonotoneStage (NTPCSectorTrackHits A s) ∧
    MonotoneStage (NTPCMergedTracks A s) ∧ MonotoneStage (NTPCMergedTrackHits A s) := by
  obtain ⟨hf, ho, hh, h1, h2, h3, h4, h5, h6, h7, h8, h9⟩ := h
  have hPeaks : MonotoneStage (NTPCPeaks A s) := stage_mono A _ hf hh h1
  have hStart : MonotoneStage (NTPCStartHits A s) := stage_mono A _ hf ho h3
  refine ⟨hPeaks, ?_, hStart, ?_, ?_, stage_mono A _ hf hh h5, stage_mono A _ hf ho h6,
    stage_mono A _ hf ho h7, stage_mono A _ hf ho h8, stage_mono A _ hf ho h9⟩
  · exact chained_mono A s.tpcMaxClusters hf hPeaks
      (fun n => A.mul_nonneg_of h2 (A.ofSizeT_nonneg n))
      (fun m n hmn => A.mul_mono_right (A.ofSizeT_mono hmn) h2)
  · exact chained_mono A s.tpcMaxRowStartHits hf hStart
      (fun n => A.add_nonneg_of ho (A.mul_nonneg_of (A.ofSizeT_nonneg _) (by norm_num)))
      (fun m n hmn => A.add_mono_right s.offset
        (A.mul_mono_left (A.ofSizeT_mono (Nat.div_le_div_right hmn)) (by norm_num)))
  · exact chained_mono A s.tpcMaxTracklets hf hStart
      (fun n => A.mul_nonneg_of (A.ofSizeT_nonneg n) h4)
      (fun m n hmn => A.mul_mono_left (A.ofSizeT_mono hmn) h4)

/-- Witness of C2 (amended): the default tunables in exact arithmetic.  `NTPCTrackletHits`
returns 20005 for 1 hit, so it returns a value for 0 hits as well, and that value, 20000, is
not larger. -/
theorem stages_monotone_default :
    NonNegTunables {} ∧
    NTPCTrackletHits exactArith {} 1 = some 20005 ∧
    ∃ r₁, NTPCTrackletHits exactArith {} 0 = some r₁ ∧ r₁ ≤ 20005 ∧ r₁ = 20000 := by
  have hnn : NonNegTunables {} := by norm_num [NonNegTunables]
  obtain ⟨r₁, h1, hle⟩ := (stages_monotone exactArith 152 {} hnn).2.2.2.2.2.1 0 1
    (by norm_num) 20005 NTPCTrackletHits_default_one
  have h1' := h1
  rw [NTPCTrackletHits_default_zero] at h1'
  exact ⟨hnn, NTPCTrackletHits_default_one, r₁, h1, hle, (Option.some.inj h1').symm⟩

/-- C2, counterexample: with the default tunables `NTPCTrackletHits` returns 20000 for 0 hits,
but for `2^62` hits the sum `20000 + 2^62 * 5` is above `2^64`, so its conversion to `size_t`
is not defined and the code fixes no result, let alone one of at least 20000 (a build whose
out-of-range conversion yields 0 returns 0 there). -/
theorem trackletHits_not_monotone_beyond_size_t :
    NonNegTunables {} ∧ (0 : ℕ) ≤ 4611686018427387904 ∧
    NTPCTrackletHits exactArith {} 0 = some 20000 ∧
    NTPCTrackletHits exactArith {} 4611686018427387904 = none ∧
    ¬ TotalMonotoneStage (NTPCTrackletHits exactArith {}) := by
  have hv : toSizeT (exactArith.add 20000
      (exactArith.mul (exactArith.ofSizeT 4611686018427387904) 5)) = none := by
    unfold toSizeT
    rw [if_neg]
    norm_num [DoubleArith.add, DoubleArith.mul, DoubleArith.ofSizeT, exactArith]
  have hnone : NTPCTrackletHits exactArith {} 4611686018427387904 = none := by
    show minTimesFactor exactArith 66000000 (exactArith.add 20000
      (exactArith.mul (exactArith.ofSizeT 4611686018427387904) 5)) 1 = none
    unfold minTimesFactor
    rw [hv]
    rfl
  refine ⟨by norm_num [NonNegTunables], by norm_num, NTPCTrackletHits_default_zero, hnone,
    fun h => ?_⟩
  obtain ⟨r₁, r₂, _, h2, _⟩ := h 0 4611686018427387904 (by norm_num)
  rw [hnone] at h2
  cases h2

/-- C4: the chained stages evaluate the earlier stage internally from the raw input count:
`NTPCClusters(d) = min(tpcMaxClusters, tpcClustersPerPeak * NTPCPeaks(d)) * factor` and
`NTPCTracklets(h) = min(tpcMaxTracklets, NTPCStartHits(h) * tpcTrackletsPerStartHit) * factor`,
with `NTPCPeaks(d)` and `NTPCStartHits(h)` the estimator's own stage results. -/
theorem chained_stages_eval_inner (A : DoubleArith) (s : GPUMemorySizeScalers) (d h : ℕ) :
    NTPCClusters A s d =
      (NTPCPeaks A s d).bind (fun peaks =>
        chainedFormula A s.tpcMaxClusters
          (A.mul s.tpcClustersPerPeak (A.ofSizeT peaks)) s.factor) ∧
    NTPCTracklets A s h =
      (NTPCStartHits A s h).bind (fun startHits =>
        chainedFormula A s.tpcMaxTracklets
          (A.mul (A.ofSizeT startHits) s.tpcTrackletsPerStartHit) s.factor) := by
  constructor
  · unfold NTPCClusters
    congr 1
    funext peaks
    exact minTimesFactor_eq_chainedFormula A _ _ _
  · unfold NTPCTracklets
    congr 1
    funext startHits
    exact minTimesFactor_eq_chainedFormula A _ _ _

/-- C5, counterexample: with the default tunables, 0 and 1 hits give the same start-hit
prediction (1000) but different tracklet-hit predictions (20000 and 20005). -/
theorem trackletHits_not_from_startHits :
    NTPCStartHits exactArith {} 0 = NTPCStartHits exactArith {} 1 ∧
    NTPCTrackletHits exactArith {} 0 ≠ NTPCTrackletHits exactArith {} 1 := by
  rw [NTPCStartHits_default_zero, NTPCStartHits_default_one, NTPCTrackletHits_default_zero,
    NTPCTrackletHits_default_one]
  exact ⟨rfl, by decide⟩

/-- C5, amended: the predicted tracklet count and the predicted row-start-hit count depend on
the hit count only through the start-hit prediction, while `NTPCTrackletHits` is the direct
stage `min(tpcMaxTrackletHits, hitOffset + h * tpcTrackletHitsPerHit) * factor` of the hit
count. -/
theorem tracklets_from_startHits (A : DoubleArith) (GPUCA_ROW_COUNT : ℕ)
    (s : GPUMemorySizeScalers) (h₁ h₂ : ℕ)
    (heq : NTPCStartHits A s h₁ = NTPCStartHits A s h₂) :
    NTPCTracklets A s h₁ = NTPCTracklets A s h₂ ∧
    NTPCRowStartHits A GPUCA_ROW_COUNT s h₁ = NTPCRowStartHits A GPUCA_ROW_COUNT s h₂ ∧
    NTPCTrackletHits A s h₁
      = stageFormula A s.tpcMaxTrackletHits s.hitOffset s.tpcTrackletHitsPerHit s.factor h₁ := by
  refine ⟨?_, ?_, minTimesFactor_eq_chainedFormula A _ _ _⟩
  · unfold NTPCTracklets
    rw [heq]
  · unfold NTPCRowStartHits
    rw [heq]

/-- Witness of C5 (amended): 0 and 1 hits with the default tunables. -/
theorem tracklets_from_startHits_default :
    NTPCStartHits exactArith {} 0 = NTPCStartHits exactArith {} 1 ∧
    NTPCTracklets exactArith {} 0 = NTPCTracklets exactArith {} 1 ∧
    NTPCRowStartHits exactArith 152 {} 0 = NTPCRowStartHits exactArith 152 {} 1 ∧
    NTPCTrackletHits exactArith {} 0
      = stageFormula exactArith 66000000 20000 5 1 0 :=
  ⟨NTPCStartHits_default_zero.trans NTPCStartHits_default_one.symm,
    tracklets_from_startHits exactArith 152 {} 0 1
      (NTPCStartHits_default_zero.trans NTPCStartHits_default_one.symm)⟩

/-- C6, counterexample: with the default tunables `NTPCClusters(0)` is 18000 for factor 1 and
72000 for factor 2, not the truncation of `2 * 18000`: the factor enters the chained stage
twice. -/
theorem chained_factor_applied_twice :
    NTPCClusters exactArith (withFactor {} 1) 0 = some 18000 ∧
    NTPCClusters exactArith (withFactor {} 2) 0 = some 72000 ∧
    toSizeT (exactArith.mul (exactArith.ofSizeT 18000) 2) = some 36000 ∧
    ¬ ScalesWithFactor exactArith 2 (NTPCClusters exactArith (withFactor {} 1))
        (NTPCClusters exactArith (withFactor {} 2)) := by
  have h36 : toSizeT (exactArith.mul (exactArith.ofSizeT 18000) 2) = some 36000 := by
    apply toSizeT_of_bounds <;>
      norm_num [DoubleArith.mul, DoubleArith.ofSizeT, exactArith]
  refine ⟨NTPCClusters_factor_one_zero, NTPCClusters_factor_two_zero, h36, fun hs => ?_⟩
  have := hs 0 18000 NTPCClusters_factor_one_zero
  rw [NTPCClusters_factor_two_zero, h36] at this
  exact absurd this (by decide)

/-- C6, amended: for each of the seven direct stage functions, every input count and every
factor `f`, the result computed with factor `f` equals `f` times the result computed with
factor 1, up to the final truncation. -/
theorem direct_stages_scale_with_factor (A : DoubleArith) (s : GPUMemorySizeScalers) (f : ℚ) :
    ScalesWithFactor A f (NTPCPeaks A (withFactor s 1)) (NTPCPeaks A (withFactor s f)) ∧
    ScalesWithFactor A f (NTPCStartHits A (withFactor s 1))
      (NTPCStartHits A (withFactor s f)) ∧
    ScalesWithFactor A f (NTPCTrackletHits A (withFactor s 1))
      (NTPCTrackletHits A (withFactor s f)) ∧
    ScalesWithFactor A f (NTPCSectorTracks A (withFactor s 1))
      (NTPCSectorTracks A (withFactor s f)) ∧
    ScalesWithFactor A f (NTPCSectorTrackHits A (withFactor s 1))
      (NTPCSectorTrackHits A (withFactor s f)) ∧
    ScalesWithFactor A f (NTPCMergedTracks A (withFactor s 1))
      (NTPCMergedTracks A (withFactor s f)) ∧
    ScalesWithFactor A f (NTPCMergedTrackHits A (withFactor s 1))
      (NTPCMergedTrackHits A (withFactor s f)) := by
  refine ⟨?_, ?_, ?_, ?_, ?_, ?_, ?_⟩ <;>
    exact fun n r₁ h => minTimesFactor_scales A f h

/-- Witness of C6 (amended): `NTPCPeaks(0)` with the default tunables is 20000 for factor 1
and the truncation of `20000 * 2` for factor 2. -/
theorem direct_stages_scale_with_factor_default :
    NTPCPeaks exactArith (withFactor {} 1) 0 = some 20000 ∧
    NTPCPeaks exactArith (withFactor {} 2) 0
      = toSizeT (exactArith.mul (exactArith.ofSizeT 20000) 2) :=
  ⟨NTPCPeaks_factor_zero 1 20000 (by norm_num) (by norm_num) (by norm_num),
    (direct_stages_scale_with_factor exactArith {} 2).1 0 20000
      (NTPCPeaks_factor_zero 1 20000 (by norm_num) (by norm_num) (by norm_num))⟩

end GPUMemorySizeScalers

/-! ## Bucket insertion -/

theorem bucketWrites_append (l₁ l₂ : List Store) :
    bucketWrites (l₁ ++ l₂) = bucketWrites l₁ ++ bucketWrites l₂ := by
  induction l₁ with
  | nil => rfl
  | cons a l ih => cases a <;> simp [bucketWrites, ih]

namespace GPUTPCCFClusterizer

theorem sortIntoBuckets_fst (cluster : ClusterNative) (row cap : ℕ) (m : Memory) :
    (sortIntoBuckets cluster row cap m).1 = m.clusterInRow row := by
  unfold sortIntoBuckets Memory.atomicAdd
  dsimp only
  split_ifs <;> rfl

theorem sortIntoBuckets_clusterInRow (cluster : ClusterNative) (row cap : ℕ) (m : Memory) :
    (sortIntoBuckets cluster row cap m).2.clusterInRow
      = Function.update m.clusterInRow row ((m.clusterInRow row + 1) % 2 ^ 32) := by
  unfold sortIntoBuckets Memory.atomicAdd
  dsimp only
  split_ifs <;> rfl

theorem sortIntoBuckets_clusterPosInRow (cluster : ClusterNative) (row cap : ℕ) (m : Memory) :
    (sortIntoBuckets cluster row cap m).2.clusterPosInRow = m.clusterPosInRow := by
  unfold sortIntoBuckets Memory.atomicAdd
  dsimp only
  split_ifs <;> rfl

theorem sortIntoBuckets_clusterByRow (cluster : ClusterNative) (row cap : ℕ) (m : Memory) :
    (sortIntoBuckets cluster row cap m).2.clusterByRow
      = if m.clusterInRow row < cap then
          Function.update m.clusterByRow (slotIndex cap row (m.clusterInRow row)) cluster
        else m.clusterByRow := by
  unfold sortIntoBuckets Memory.atomicAdd
  dsimp only
  split_ifs <;> rfl

theorem sortIntoBuckets_stores (cluster : ClusterNative) (row cap : ℕ) (m : Memory) :
    (sortIntoBuckets cluster row cap m).2.stores
      = m.stores ++ Store.counter row ((m.clusterInRow row + 1) % 2 ^ 32) ::
          (if m.clusterInRow row < cap then
            [Store.bucket (slotIndex cap row (m.clusterInRow row)) cluster]
          else []) := by
  unfold sortIntoBuckets Memory.atomicAdd
  dsimp only
  split_ifs <;> simp [Memory.storeBucket]

/-- C7: `sortIntoBuckets` returns the index that `elemsInBucket[row]` held before the call,
always increments `elemsInBucket[row]` by one (in `uint` arithmetic, also when the index is
not below the capacity), stores the cluster at `buckets[cap * row + index]` exactly when
`index < cap`, and writes no bucket slot otherwise. -/
theorem sortIntoBuckets_spec (cluster : ClusterNative) (row cap : ℕ) (m : Memory) :
    (sortIntoBuckets cluster row cap m).1 = m.clusterInRow row ∧
    (sortIntoBuckets cluster row cap m).2.clusterInRow row
      = (m.clusterInRow row + 1) % 2 ^ 32 ∧
    (m.clusterInRow row + 1 < 2 ^ 32 →
      (sortIntoBuckets cluster row cap m).2.clusterInRow row = m.clusterInRow row + 1) ∧
    (m.clusterInRow row < cap →
      (sortIntoBuckets cluster row cap m).2.clusterByRow
        = Function.update m.clusterByRow (slotIndex cap row (m.clusterInRow row)) cluster ∧
      bucketWrites (sortIntoBuckets cluster row cap m).2.stores
        = bucketWrites m.stores ++ [(slotIndex cap row (m.clusterInRow row), cluster)]) ∧
    (cap ≤ m.clusterInRow row →
      (sortIntoBuckets cluster row cap m).2.clusterByRow = m.clusterByRow ∧
      bucketWrites (sortIntoBuckets cluster row cap m).2.stores = bucketWrites m.stores) := by
  have hc : (sortIntoBuckets cluster row cap m).2.clusterInRow row
      = (m.clusterInRow row + 1) % 2 ^ 32 := by
    rw [sortIntoBuckets_clusterInRow, Function.update_same]
  refine ⟨sortIntoBuckets_fst _ _ _ _, hc, fun h => ?_, fun h => ?_, fun h => ?_⟩
  · rw [hc, Nat.mod_eq_of_lt h]
  · rw [sortIntoBuckets_clusterByRow, sortIntoBuckets_stores, if_pos h, if_pos h]
    simp [bucketWrites_append, bucketWrites]
  · rw [sortIntoBuckets_clusterByRow, sortIntoBuckets_stores, if_neg (not_lt.2 h),
      if_neg (not_lt.2 h)]
    simp [bucketWrites_append, bucketWrites]

/-! ## Sequences of insertions into one row -/

theorem slotIndex_eq_of_le (cap row j : ℕ) (hj : j < cap) (haddr : cap * (row + 1) ≤ 2 ^ 32) :
    slotIndex cap row j = cap * row + j := by
  unfold slotIndex
  exact Nat.mod_eq_of_lt (by nlinarith)

theorem slotIndex_injective (cap row : ℕ) {a b : ℕ} (ha : a < 2 ^ 32) (hb : b < 2 ^ 32)
    (h : slotIndex cap row a = slotIndex cap row b) : a = b := by
  unfold slotIndex at h
  have h' : a ≡ b [MOD 2 ^ 32] := Nat.ModEq.add_left_cancel' (cap * row) h
  exact Nat.ModEq.eq_of_lt_of_lt h' ha hb

/-- C9: a real candidate (`idx < clusternum`) outside the fragment overlap whose total charge
does not exceed the cutoff (`qTot <= cutoff`, equality included): with a non-null
`clusterPosInRow` the work item completes, writes the sentinel `maxClusterPerRow` to
`clusterPosInRow[idx]`, writes no record to `clusterByRow` and changes no row counter. -/
theorem computeClustersImpl_rejected (env : Collaborators)
    (filteredPeakPositions : ℕ → ChargePos) (clusternum maxClusterPerRow : ℕ)
    (clusterByRow : Pointer) (idx : ℕ) (m : Memory)
    (hreal : idx < clusternum)
    (hov : env.isOverlap (peakPosition filteredPeakPositions clusternum idx).time = false)
    (hq : ((env.toNative (peakPosition filteredPeakPositions clusternum idx)).qTot : ℚ)
      ≤ env.tpcCFqtotCutoff) :
    ∃ m₁, computeClustersImpl env filteredPeakPositions clusternum maxClusterPerRow
        clusterByRow Pointer.valid idx m = some m₁ ∧
      m₁.clusterPosInRow idx = maxClusterPerRow ∧
      m₁.stores = m.stores ++ [Store.posInRow idx maxClusterPerRow] ∧
      bucketWrites m₁.stores = bucketWrites m.stores ∧
      m₁.clusterByRow = m.clusterByRow ∧
      m₁.clusterInRow = m.clusterInRow := by
  refine ⟨m.storePosInRow idx maxClusterPerRow, ?_, ?_, rfl, ?_, rfl, rfl⟩
  · unfold computeClustersImpl
    simp only [ge_iff_le, not_le.2 hreal, hov, Bool.false_eq_true, or_self, if_false,
      gt_iff_lt, not_lt.2 hq, decide_False, Bool.not_false, if_true]
  · simp [Memory.storePosInRow]
  · simp [Memory.storePosInRow, bucketWrites_append, bucketWrites]

/-- Witness of C9: work item 0 of 1, total charge 100 equal to the cutoff 100. -/
theorem computeClustersImpl_rejected_at_cutoff :
    ∃ m₁, computeClustersImpl (exampleCollaborators 100) examplePositions 1 7
        Pointer.valid Pointer.valid 0 zeroMemory = some m₁ ∧
      m₁.clusterPosInRow 0 = 7 ∧
      m₁.stores = zeroMemory.stores ++ [Store.posInRow 0 7] ∧
      bucketWrites m₁.stores = bucketWrites zeroMemory.stores ∧
      m₁.clusterByRow = zeroMemory.clusterByRow ∧
      m₁.clusterInRow = zeroMemory.clusterInRow :=
  computeClustersImpl_rejected (exampleCollaborators 100) examplePositions 1 7
    Pointer.valid 0 zeroMemory (by norm_num) rfl
    (by norm_num [exampleCollaborators, clusterA])

/-- C10: a dummy work item (`idx >= clusternum`) returns without any store: `clusterInRow`,
`clusterByRow` and `clusterPosInRow` are left as they were, whatever the collaborators (charge
map, thresholds, fragment) and the pointers are. -/
theorem computeClustersImpl_dummy (env : Collaborators)
    (filteredPeakPositions : ℕ → ChargePos) (clusternum maxClusterPerRow : ℕ)
    (clusterByRow clusterPosInRow : Pointer) (idx : ℕ) (m : Memory)
    (hdummy : clusternum ≤ idx) :
    computeClustersImpl env filteredPeakPositions clusternum maxClusterPerRow
      clusterByRow clusterPosInRow idx m = some m := by
  unfold computeClustersImpl
  simp only [ge_iff_le, hdummy, true_or, if_true]

/-- Witness of C10: work item 64 of a launch with 3 candidates. -/
theorem computeClustersImpl_dummy_padding :
    computeClustersImpl (exampleCollaborators 0) examplePositions 3 7
      Pointer.valid Pointer.valid 64 zeroMemory = some zeroMemory :=
  computeClustersImpl_dummy (exampleCollaborators 0) examplePositions 3 7
    Pointer.valid Pointer.valid 64 zeroMemory (by norm_num)

end GPUTPCCFClusterizer


/-! ## Overlap, acceptance and the peak index -/

theorem posWrites_append (l₁ l₂ : List Store) :
    posWrites (l₁ ++ l₂) = posWrites l₁ ++ posWrites l₂ := by
  induction l₁ with
  | nil => rfl
  | cons a l ih => cases a <;> simp [posWrites, ih]

namespace GPUTPCCFClusterizer

theorem peakPosition_eq (filteredPeakPositions : ℕ → ChargePos) (clusternum idx : ℕ) :
    peakPosition filteredPeakPositions clusternum idx
      = filteredPeakPositions (peakIndex clusternum idx) := rfl

/-- C11: a candidate whose time bin lies in the fragment overlap is dropped entirely: the
work item completes without any store, so no record is written, no row counter changes and
`clusterPosInRow[idx]` keeps its value, whatever the accumulated charge, the cutoff and the
pointers are. -/
theorem computeClustersImpl_overlap (env : Collaborators)
    (filteredPeakPositions : ℕ → ChargePos) (clusternum maxClusterPerRow : ℕ)
    (clusterByRow clusterPosInRow : Pointer) (idx : ℕ) (m : Memory)
    (hov : env.isOverlap (peakPosition filteredPeakPositions clusternum idx).time = true) :
    computeClustersImpl env filteredPeakPositions clusternum maxClusterPerRow
      clusterByRow clusterPosInRow idx m = some m := by
  unfold computeClustersImpl
  simp only [hov, or_true, if_true]

/-- Witness of C11: every time bin overlaps; work item 0 of 1 with total charge 100 above the
cutoff 50 stores nothing. -/
theorem computeClustersImpl_overlap_example :
    computeClustersImpl ⟨fun _ => true, fun _ => clusterA, 50⟩ examplePositions 1 7
      Pointer.valid Pointer.valid 0 zeroMemory = some zeroMemory :=
  computeClustersImpl_overlap ⟨fun _ => true, fun _ => clusterA, 50⟩ examplePositions 1 7
    Pointer.valid Pointer.valid 0 zeroMemory rfl

/-- The accepted branch of `computeClustersImpl` with a non-null `clusterByRow` and a null
`clusterPosInRow`. -/
theorem computeClustersImpl_accepted_null (env : Collaborators)
    (filteredPeakPositions : ℕ → ChargePos) (clusternum maxClusterPerRow : ℕ)
    (idx : ℕ) (m : Memory)
    (hreal : idx < clusternum)
    (hov : env.isOverlap (peakPosition filteredPeakPositions clusternum idx).time = false)
    (hq : env.tpcCFqtotCutoff
      < ((env.toNative (peakPosition filteredPeakPositions clusternum idx)).qTot : ℚ)) :
    computeClustersImpl env filteredPeakPositions clusternum maxClusterPerRow
        Pointer.valid Pointer.null idx m
      = some (sortIntoBuckets (env.toNative (peakPosition filteredPeakPositions clusternum idx))
          (peakPosition filteredPeakPositions clusternum idx).row maxClusterPerRow m).2 := by
  unfold computeClustersImpl
  simp only [ge_iff_le, not_le.2 hreal, hov, Bool.false_eq_true, or_self, if_false,
    gt_iff_lt, hq, decide_True, Bool.not_true]

/-- The accepted branch of `computeClustersImpl` with both pointers non-null. -/
theorem computeClustersImpl_accepted_valid (env : Collaborators)
    (filteredPeakPositions : ℕ → ChargePos) (clusternum maxClusterPerRow : ℕ)
    (idx : ℕ) (m : Memory)
    (hreal : idx < clusternum)
    (hov : env.isOverlap (peakPosition filteredPeakPositions clusternum idx).time = false)
    (hq : env.tpcCFqtotCutoff
      < ((env.toNative (peakPosition filteredPeakPositions clusternum idx)).qTot : ℚ)) :
    computeClustersImpl env filteredPeakPositions clusternum maxClusterPerRow
        Pointer.valid Pointer.valid idx m
      = some (Memory.storePosInRow
          (sortIntoBuckets (env.toNative (peakPosition filteredPeakPositions clusternum idx))
            (peakPosition filteredPeakPositions clusternum idx).row maxClusterPerRow m).2
          idx
          (sortIntoBuckets (env.toNative (peakPosition filteredPeakPositions clusternum idx))
            (peakPosition filteredPeakPositions clusternum idx).row maxClusterPerRow m).1) := by
  unfold computeClustersImpl
  simp only [ge_iff_le, not_le.2 hreal, hov, Bool.false_eq_true, or_self, if_false,
    gt_iff_lt, hq, decide_True, Bool.not_true]

/-- C12, counterexample: with a null `clusterPosInRow` an accepted candidate claims slot 1 of
row 5 (the row already counts one record), the record is stored, but no store to
`clusterPosInRow` is executed and `clusterPosInRow[0]` keeps its value 0. -/
theorem computeClustersImpl_accepted_null_pos :
    (0 : ℕ) < 1 ∧
    (exampleCollaborators 50).isOverlap (peakPosition examplePositions 1 0).time = false ∧
    (exampleCollaborators 50).tpcCFqtotCutoff
      < (((exampleCollaborators 50).toNative (peakPosition examplePositions 1 0)).qTot : ℚ) ∧
    ∃ m₁, computeClustersImpl (exampleCollaborators 50) examplePositions 1 7
        Pointer.valid Pointer.null 0 oneInRowFive = some m₁ ∧
      bucketWrites m₁.stores = [(slotIndex 7 5 1, clusterA)] ∧
      m₁.clusterInRow 5 = 2 ∧
      posWrites m₁.stores = [] ∧
      m₁.clusterPosInRow 0 ≠ 1 := by
  refine ⟨by norm_num, rfl, by norm_num [exampleCollaborators, clusterA],
    (sortIntoBuckets clusterA 5 7 oneInRowFive).2, ?_, ?_, ?_, ?_, ?_⟩
  · exact computeClustersImpl_accepted_null (exampleCollaborators 50) examplePositions 1 7
      0 oneInRowFive (by norm_num) rfl (by norm_num [exampleCollaborators, clusterA])
  · rw [sortIntoBuckets_stores]
    simp [oneInRowFive, bucketWrites, examplePositions, peakPosition, exampleCollaborators]
  · rw [sortIntoBuckets_clusterInRow]
    simp [oneInRowFive, examplePositions, peakPosition]
  · rw [sortIntoBuckets_stores]
    simp [oneInRowFive, posWrites, examplePositions, peakPosition]
  · rw [sortIntoBuckets_clusterPosInRow]
    simp [oneInRowFive]

/-- C12, amended: a real candidate outside the fragment overlap with `qTot` strictly above the
cutoff, `clusterByRow` non-null: the work item completes with exactly one slot claim.  The
counter of row `pos.row()` is incremented by one (in `uint` arithmetic) and no other counter
changes; the only bucket write, made when the claimed index is below the capacity, stores the
candidate's own record at slot `maxClusterPerRow * pos.row() + index` computed in `uint`
arithmetic; if `clusterPosInRow` is non-null, `clusterPosInRow[idx]` is set to the claimed
index, and if it is null no position is stored; and when the row's bucket is addressable
without overflow, `maxClusterPerRow * (pos.row() + 1) <= 2^32`, the written slot lies in the
bucket of row `pos.row()`, the slots `[maxClusterPerRow * pos.row(),
maxClusterPerRow * (pos.row() + 1))`. -/
theorem computeClustersImpl_accepted (env : Collaborators)
    (filteredPeakPositions : ℕ → ChargePos) (clusternum maxClusterPerRow : ℕ)
    (clusterPosInRow : Pointer) (idx : ℕ) (m : Memory)
    (hreal : idx < clusternum)
    (hov : env.isOverlap (peakPosition filteredPeakPositions clusternum idx).time = false)
    (hq : env.tpcCFqtotCutoff
      < ((env.toNative (peakPosition filteredPeakPositions clusternum idx)).qTot : ℚ)) :
    ∃ m₁, computeClustersImpl env filteredPeakPositions clusternum maxClusterPerRow
        Pointer.valid clusterPosInRow idx m = some m₁ ∧
      m₁.clusterInRow = Function.update m.clusterInRow
        (peakPosition filteredPeakPositions clusternum idx).row
        ((m.clusterInRow (peakPosition filteredPeakPositions clusternum idx).row + 1) % 2 ^ 32) ∧
      (m.clusterInRow (peakPosition filteredPeakPositions clusternum idx).row + 1 < 2 ^ 32 →
        m₁.clusterInRow (peakPosition filteredPeakPositions clusternum idx).row
          = m.clusterInRow (peakPosition filteredPeakPositions clusternum idx).row + 1) ∧
      (∀ r, r ≠ (peakPosition filteredPeakPositions clusternum idx).row →
        m₁.clusterInRow r = m.clusterInRow r) ∧
      bucketWrites m₁.stores = bucketWrites m.stores ++
        (if m.clusterInRow (peakPosition filteredPeakPositions clusternum idx).row
            < maxClusterPerRow then
          [(slotIndex maxClusterPerRow (peakPosition filteredPeakPositions clusternum idx).row
              (m.clusterInRow (peakPosition filteredPeakPositions clusternum idx).row),
            env.toNative (peakPosition filteredPeakPositions clusternum idx))]
        else []) ∧
      (clusterPosInRow = Pointer.valid →
        m₁.clusterPosInRow = Function.update m.clusterPosInRow idx
          (m.clusterInRow (peakPosition filteredPeakPositions clusternum idx).row) ∧
        posWrites m₁.stores = posWrites m.stores ++
          [(idx, m.clusterInRow (peakPosition filteredPeakPositions clusternum idx).row)]) ∧
      (clusterPosInRow = Pointer.null →
        m₁.clusterPosInRow = m.clusterPosInRow ∧ posWrites m₁.stores = posWrites m.stores) ∧
      (maxClusterPerRow * ((peakPosition filteredPeakPositions clusternum idx).row + 1)
          ≤ 2 ^ 32 →
        m.clusterInRow (peakPosition filteredPeakPositions clusternum idx).row
          < maxClusterPerRow →
        maxClusterPerRow * (peakPosition filteredPeakPositions clusternum idx).row
          ≤ slotIndex maxClusterPerRow (peakPosition filteredPeakPositions clusternum idx).row
              (m.clusterInRow (peakPosition filteredPeakPositions clusternum idx).row) ∧
        slotIndex maxClusterPerRow (peakPosition filteredPeakPositions clusternum idx).row
            (m.clusterInRow (peakPosition filteredPeakPositions clusternum idx).row)
          < maxClusterPerRow * ((peakPosition filteredPeakPositions clusternum idx).row + 1)) := by
  have hrange : maxClusterPerRow * ((peakPosition filteredPeakPositions clusternum idx).row + 1)
        ≤ 2 ^ 32 →
      m.clusterInRow (peakPosition filteredPeakPositions clusternum idx).row
        < maxClusterPerRow →
      maxClusterPerRow * (peakPosition filteredPeakPositions clusternum idx).row
        ≤ slotIndex maxClusterPerRow (peakPosition filteredPeakPositions clusternum idx).row
            (m.clusterInRow (peakPosition filteredPeakPositions clusternum idx).row) ∧
      slotIndex maxClusterPerRow (peakPosition filteredPeakPositions clusternum idx).row
          (m.clusterInRow (peakPosition filteredPeakPositions clusternum idx).row)
        < maxClusterPerRow * ((peakPosition filteredPeakPositions clusternum idx).row + 1) := by
    intro haddr hlt
    rw [slotIndex_eq_of_le _ _ _ hlt haddr, Nat.mul_succ]
    omega
  have hstores := sortIntoBuckets_stores
    (env.toNative (peakPosition filteredPeakPositions clusternum idx))
    (peakPosition filteredPeakPositions clusternum idx).row maxClusterPerRow m
  have hctr := sortIntoBuckets_clusterInRow
    (env.toNative (peakPosition filteredPeakPositions clusternum idx))
    (peakPosition filteredPeakPositions clusternum idx).row maxClusterPerRow m
  have hpos := sortIntoBuckets_clusterPosInRow
    (env.toNative (peakPosition filteredPeakPositions clusternum idx))
    (peakPosition filteredPeakPositions clusternum idx).row maxClusterPerRow m
  have hfst := sortIntoBuckets_fst
    (env.toNative (peakPosition filteredPeakPositions clusternum idx))
    (peakPosition filteredPeakPositions clusternum idx).row maxClusterPerRow m
  cases clusterPosInRow with
  | null =>
    refine ⟨_, computeClustersImpl_accepted_null env filteredPeakPositions clusternum
      maxClusterPerRow idx m hreal hov hq,
      hctr, fun h => ?_, fun r hr => ?_, ?_, (fun h => by cases h), (fun _ => ⟨hpos, ?_⟩),
      hrange⟩
    · rw [hctr, Function.update_same, Nat.mod_eq_of_lt h]
    · rw [hctr, Function.update_noteq hr]
    · rw [hstores]
      split_ifs <;> simp [bucketWrites_append, bucketWrites]
    · rw [hstores]
      split_ifs <;> simp [posWrites_append, posWrites]
  | valid =>
    refine ⟨_, computeClustersImpl_accepted_valid env filteredPeakPositions clusternum
      maxClusterPerRow idx m hreal hov hq,
      hctr, fun h => ?_, fun r hr => ?_, ?_, (fun _ => ⟨?_, ?_⟩), (fun h => by cases h),
      hrange⟩
    · show (sortIntoBuckets _ _ _ m).2.clusterInRow _ = _
      rw [hctr, Function.update_same, Nat.mod_eq_of_lt h]
    · show (sortIntoBuckets _ _ _ m).2.clusterInRow r = _
      rw [hctr, Function.update_noteq hr]
    · show bucketWrites ((sortIntoBuckets _ _ _ m).2.stores ++ _) = _
      rw [hstores]
      split_ifs <;> simp [bucketWrites_append, bucketWrites]
    · show Function.update (sortIntoBuckets _ _ _ m).2.clusterPosInRow idx _ = _
      rw [hpos, hfst]
    · show posWrites ((sortIntoBuckets _ _ _ m).2.stores ++ _) = _
      rw [hstores, hfst]
      split_ifs <;> simp [posWrites_append, posWrites]

/-- Witness of C12 (amended): work item 0 of 1, total charge 100 above the cutoff 50, both
pointers non-null, row 5 already counting one record, capacity 7: the counter becomes 2, the
position is 1 and the written slot lies in `[35, 42)`, the bucket of row 5. -/
theorem computeClustersImpl_accepted_example :
    ∃ m₁, computeClustersImpl (exampleCollaborators 50) examplePositions 1 7
        Pointer.valid Pointer.valid 0 oneInRowFive = some m₁ ∧
      m₁.clusterInRow 5 = 2 ∧
      m₁.clusterPosInRow 0 = 1 ∧
      7 * 5 ≤ slotIndex 7 5 1 ∧ slotIndex 7 5 1 < 7 * (5 + 1) := by
  obtain ⟨m₁, h1, _, h3, _, _, h6, _, h8⟩ :=
    computeClustersImpl_accepted (exampleCollaborators 50) examplePositions 1 7
      Pointer.valid 0 oneInRowFive (by norm_num) rfl
      (by norm_num [exampleCollaborators, clusterA])
  have hr := h8 (by norm_num [examplePositions, peakPosition, peakIndex])
    (by norm_num [oneInRowFive, examplePositions, peakPosition, peakIndex])
  refine ⟨m₁, h1, h3 (by norm_num [oneInRowFive, examplePositions, peakPosition]), ?_,
    hr.1, hr.2⟩
  rw [(h6 rfl).1]
  simp [oneInRowFive, examplePositions, peakPosition]

/-- C19: for `clusternum >= 1` (a `uint`, so below `2^32`) the index used to read
`filteredPeakPositions` is below `clusternum`, equals `idx` for a real work item and equals
`clusternum - 1` for every dummy work item. -/
theorem peakIndex_spec (clusternum idx : ℕ) (h1 : 1 ≤ clusternum)
    (h32 : clusternum < 2 ^ 32) :
    peakIndex clusternum idx < clusternum ∧
    (idx < clusternum → peakIndex clusternum idx = idx) ∧
    (clusternum ≤ idx → peakIndex clusternum idx = clusternum - 1) := by
  have hm : (clusternum + 2 ^ 32 - 1) % 2 ^ 32 = clusternum - 1 := by
    rw [show clusternum + 2 ^ 32 - 1 = (clusternum - 1) + 2 ^ 32 by omega,
      Nat.add_mod_right, Nat.mod_eq_of_lt (by omega)]
  unfold peakIndex
  rw [hm]
  refine ⟨?_, fun h => ?_, fun h => ?_⟩
  · exact lt_of_le_of_lt (min_le_right _ _) (by omega)
  · exact min_eq_left (by omega)
  · exact min_eq_right (by omega)

/-- Witness of C19: three candidates; work item 1 reads position 1, the dummy work item 64
reads position 2. -/
theorem peakIndex_spec_example :
    peakIndex 3 64 < 3 ∧ peakIndex 3 1 = 1 ∧ peakIndex 3 64 = 3 - 1 := by
  obtain ⟨h1, _, h3⟩ := peakIndex_spec 3 64 (by norm_num) (by norm_num)
  obtain ⟨_, h2, _⟩ := peakIndex_spec 3 1 (by norm_num) (by norm_num)
  exact ⟨h1, h2 (by norm_num), h3 (by norm_num)⟩

end GPUTPCCFClusterizer


/-! ## Building a cluster -/

namespace GPUTPCCFClusterizer

section BuildCluster

variable {σ P D : Type}

theorem testBit_bool_shiftLeft (b : Prop) [Decidable b] (k j : ℕ) :
    ((if b then 1 else 0 : ℕ) <<< k).testBit j = (decide (j = k) && decide b) := by
  rw [Nat.testBit_shiftLeft]
  by_cases hb : b
  · simp only [hb, if_true, decide_True, Bool.and_true]
    by_cases hj : j = k
    · subst hj; simp
    · by_cases hge : j ≥ k
      · have hne : j - k ≠ 0 := by omega
        have h1 : Nat.testBit 1 (j - k) = false := by
          cases h : Nat.testBit 1 (j - k) with
          | false => rfl
          | true => exact absurd (Nat.testBit_one_eq_true_iff_self_eq_zero.1 h) hne
        simp [hge, hj, h1]
      · simp [hge, hj]
  · simp [hb]

theorem updateClusterInnerLoop_testBit (updateInner : σ → P → D → ℚ × σ)
    (InnerNeighbors : ℕ → D) (thr : ℚ) (lid N : ℕ) (buf : ℕ → P) (cluster : σ) :
    ∀ k, k ≤ 8 → ∀ j,
      (updateClusterInnerLoop updateInner InnerNeighbors thr lid N buf cluster k).2.testBit j
        = (decide (j < k) &&
            decide (innerCharge updateInner InnerNeighbors thr lid N buf cluster j > thr)) := by
  intro k
  induction k with
  | zero => intro _ j; simp [updateClusterInnerLoop]
  | succ k ih =>
    intro hk j
    have ih' := ih (by omega) j
    rw [updateClusterInnerLoop]
    dsimp only
    rw [Nat.testBit_mod_two_pow, Nat.testBit_lor, ih', testBit_bool_shiftLeft]
    by_cases hjk : j = k
    · subst hjk
      have h8 : j < 8 := by omega
      simp [h8, innerCharge]
    · by_cases hlt : j < k
      · have h8 : j < 8 := by omega
        have : j < k + 1 := by omega
        simp [hjk, hlt, h8, this]
      · have : ¬ j < k + 1 := by omega
        simp [hjk, hlt, this]

/-- C14: for `N <= 8` and every lane `lid`, after `updateClusterInner` bit `i < N` of
`innerAboveThreshold[lid]` is set exactly when the charge returned by the `i`-th call of
`updateInner` is strictly above `tpcCFinnerThreshold`, the bits `i >= N` are clear, and the
entries of the other lanes are not written. -/
theorem updateClusterInner_mask (updateInner : σ → P → D → ℚ × σ) (InnerNeighbors : ℕ → D)
    (tpcCFinnerThreshold : ℚ) (lid N : ℕ) (buf : ℕ → P) (cluster : σ)
    (innerAboveThreshold : ℕ → ℕ) (hN : N ≤ 8) :
    (∀ i, i < N →
      (((updateClusterInner updateInner InnerNeighbors tpcCFinnerThreshold lid N buf cluster
          innerAboveThreshold).2 lid).testBit i = true ↔
        innerCharge updateInner InnerNeighbors tpcCFinnerThreshold lid N buf cluster i
          > tpcCFinnerThreshold)) ∧
    (∀ i, N ≤ i →
      ((updateClusterInner updateInner InnerNeighbors tpcCFinnerThreshold lid N buf cluster
          innerAboveThreshold).2 lid).testBit i = false) ∧
    (∀ l, l ≠ lid →
      (updateClusterInner updateInner InnerNeighbors tpcCFinnerThreshold lid N buf cluster
          innerAboveThreshold).2 l = innerAboveThreshold l) := by
  have hbit := updateClusterInnerLoop_testBit updateInner InnerNeighbors tpcCFinnerThreshold
    lid N buf cluster N hN
  refine ⟨fun i hi => ?_, fun i hi => ?_, fun l hl => ?_⟩
  · unfold updateClusterInner
    dsimp only
    rw [Function.update_same, hbit i]
    simp [hi]
  · unfold updateClusterInner
    dsimp only
    rw [Function.update_same, hbit i]
    simp [not_lt.2 hi]
  · unfold updateClusterInner
    dsimp only
    rw [Function.update_noteq hl]

theorem innerCharge_sumUpdate (InnerNeighbors : ℕ → ℕ) (thr : ℚ) (lid N : ℕ) (buf : ℕ → ℚ)
    (cluster : ℚ) (i : ℕ) :
    innerCharge sumUpdate InnerNeighbors thr lid N buf cluster i = buf (N * lid + i) := rfl

/-- Witness of C14: lane 0, eight neighbours of which only neighbour 2 holds a charge (5)
above the threshold 1: bit 2 is set and bit 0 is not. -/
theorem updateClusterInner_mask_example :
    (8 : ℕ) ≤ 8 ∧
    ((updateClusterInner sumUpdate id 1 0 8 exampleBuf 0 (fun _ => 0)).2 0).testBit 2 = true ∧
    ¬ ((updateClusterInner sumUpdate id 1 0 8 exampleBuf 0 (fun _ => 0)).2 0).testBit 0
        = true := by
  have h := updateClusterInner_mask sumUpdate id 1 0 8 exampleBuf 0 (fun _ => 0) le_rfl
  refine ⟨le_rfl, (h.1 2 (by norm_num)).2 ?_, fun h0 => ?_⟩
  · rw [innerCharge_sumUpdate]
    norm_num [exampleBuf]
  · have := (h.1 0 (by norm_num)).1 h0
    rw [innerCharge_sumUpdate] at this
    norm_num [exampleBuf] at this

theorem wgSizeHalf_eq (W : ℕ) (hW : W ≤ 2 ^ 16) : wgSizeHalf W = (W + 1) / 2 := by
  unfold wgSizeHalf
  exact Nat.mod_eq_of_lt (by omega)

theorem llhalf_of_not_inGroup1 (W ll : ℕ) (hW : W ≤ 2 ^ 16) (hll : ll < W)
    (h : inGroup1 W ll = false) : llhalf W ll = ll - (W + 1) / 2 := by
  unfold llhalf
  rw [h, wgSizeHalf_eq W hW]
  simp only [Bool.false_eq_true, if_false]
  exact Nat.mod_eq_of_lt (by omega)

/-- C18: for a work-group size `W <= 2^16` (lane ids are `ushort`) and a lane `ll < W` (so
`W >= 1`),
with `wgSizeHalf = (W + 1) / 2`: the lane is in group 1 exactly when `ll < wgSizeHalf`; its
scratch slot `llhalf` is below `wgSizeHalf`; two distinct lanes of the same group have
distinct `llhalf`; and in the GPU build the accumulator returned by `buildCluster` is the one
left by `updateClusterInner` updated by `updateOuter` once for each of the outer offsets
`0 .. 15` in order, read from the buffer of the first pass for group 1 and of the second
pass for the other group. -/
theorem buildCluster_outer_split (W ll : ℕ) (hW : W ≤ 2 ^ 16) (hll : ll < W)
    (updateInner updateOuter : σ → P → D → ℚ × σ) (InnerNeighbors OuterNeighbors : ℕ → D)
    (tpcCFinnerThreshold : ℚ) (bufInner bufOuter1 bufOuter2 : ℕ → P)
    (myCluster : σ) (innerAboveThreshold : ℕ → ℕ) :
    wgSizeHalf W = (W + 1) / 2 ∧
    (inGroup1 W ll = true ↔ ll < wgSizeHalf W) ∧
    llhalf W ll < wgSizeHalf W ∧
    (∀ ll₂, ll₂ < W → ll₂ ≠ ll → inGroup1 W ll₂ = inGroup1 W ll → llhalf W ll₂ ≠ llhalf W ll) ∧
    (buildCluster true W ll updateInner updateOuter InnerNeighbors OuterNeighbors
        tpcCFinnerThreshold bufInner bufOuter1 bufOuter2 myCluster innerAboveThreshold).1
      = (List.range 16).foldl
          (fun c i => (updateOuter c
            ((if inGroup1 W ll = true then bufOuter1 else bufOuter2) (16 * llhalf W ll + i))
            (OuterNeighbors i)).2)
          (updateClusterInner updateInner InnerNeighbors tpcCFinnerThreshold ll 8 bufInner
            myCluster innerAboveThreshold).1 := by
  have hhalf := wgSizeHalf_eq W hW
  have hloop : ∀ (buf : ℕ → P) (c : σ) (k : ℕ),
      updateClusterOuterLoop updateOuter OuterNeighbors (llhalf W ll) 16 0 buf c k
        = (List.range k).foldl
            (fun c i => (updateOuter c (buf (16 * llhalf W ll + i)) (OuterNeighbors i)).2) c := by
    intro buf c k
    induction k with
    | zero => rfl
    | succ k ih =>
      rw [updateClusterOuterLoop, List.range_succ, List.foldl_append, ← ih]
      simp
  refine ⟨hhalf, by simp [inGroup1], ?_, ?_, ?_⟩
  · cases h : inGroup1 W ll with
    | true =>
      have : ll < wgSizeHalf W := by simpa [inGroup1] using h
      simpa [llhalf, h] using this
    | false =>
      have : ¬ ll < wgSizeHalf W := by simpa [inGroup1] using h
      rw [llhalf_of_not_inGroup1 W ll hW hll h, hhalf]
      rw [hhalf] at this
      omega
  · intro ll₂ hll₂ hne hsame
    cases h : inGroup1 W ll with
    | true =>
      rw [h] at hsame
      simpa [llhalf, h, hsame] using hne
    | false =>
      rw [h] at hsame
      have h1 : ¬ ll < wgSizeHalf W := by simpa [inGroup1] using h
      have h2 : ¬ ll₂ < wgSizeHalf W := by simpa [inGroup1] using hsame
      rw [llhalf_of_not_inGroup1 W ll hW hll h, llhalf_of_not_inGroup1 W ll₂ hW hll₂ hsame]
      rw [hhalf] at h1 h2
      omega
  · unfold buildCluster updateClusterOuter
    cases h : inGroup1 W ll <;> simp [hloop]

/-- Witness of C18: a work-group of 5 lanes has `wgSizeHalf = 3`; lane 4 is in the second
group with scratch slot 1, and with the summing accumulator its sixteen outer charges, all 1,
are each added once to the inner total 0. -/
theorem buildCluster_outer_split_example :
    (5 : ℕ) ≤ 2 ^ 16 ∧ (4 : ℕ) < 5 ∧
    wgSizeHalf 5 = 3 ∧ inGroup1 5 4 = false ∧ llhalf 5 4 = 1 ∧
    (buildCluster true 5 4 sumUpdate sumUpdate id id 1 (fun _ => 0) (fun _ => 0) (fun _ => 1)
      0 (fun _ => 0)).1 = 16 := by
  obtain ⟨h1, _, _, _, h5⟩ := buildCluster_outer_split 5 4 (by norm_num)
    (by norm_num) sumUpdate sumUpdate id id 1 (fun _ => 0) (fun _ => 0) (fun _ => 1)
    0 (fun _ => 0)
  have hg : inGroup1 5 4 = false := by simp [inGroup1, h1]
  have hl : llhalf 5 4 = 1 := by
    rw [llhalf_of_not_inGroup1 5 4 (by norm_num) (by norm_num) hg]
  refine ⟨by norm_num, by norm_num, h1, hg, hl, ?_⟩
  rw [h5]
  simp [hg, sumUpdate, updateClusterInner, updateClusterInnerLoop, List.range_succ]
  norm_num

end BuildCluster

end GPUTPCCFClusterizer


/-! ## Order independence of the buckets -/

namespace GPUTPCCFClusterizer

theorem sortAll_append (cap : ℕ) (l : List (ClusterNative × ℕ)) (x : ClusterNative × ℕ)
    (m : Memory) :
    sortAll cap (l ++ [x]) m = (sortIntoBuckets x.1 x.2 cap (sortAll cap l m)).2 := by
  simp [sortAll, List.foldl_append]

theorem rowInsertions_append (l : List (ClusterNative × ℕ)) (x : ClusterNative × ℕ) (r : ℕ) :
    rowInsertions (l ++ [x]) r
      = rowInsertions l r ++ (if x.2 = r then [x.1] else []) := by
  unfold rowInsertions
  rw [List.filter_append, List.map_append]
  by_cases h : x.2 = r <;> simp [List.filter, h]

theorem slot_ne_of_row_ne (cap r r₀ j n : ℕ) (hj : j < cap) (hn : n < cap) (hr : r ≠ r₀) :
    cap * r + j ≠ cap * r₀ + n := by
  intro h
  have h1 : (cap * r + j) / cap = r := by
    rw [Nat.mul_add_div (by omega), Nat.div_eq_of_lt hj, Nat.add_zero]
  have h2 : (cap * r₀ + n) / cap = r₀ := by
    rw [Nat.mul_add_div (by omega), Nat.div_eq_of_lt hn, Nat.add_zero]
  rw [h, h2] at h1
  exact hr h1.symm

theorem exists_mem_of_rowInsertions_pos (l : List (ClusterNative × ℕ)) (r : ℕ)
    (h : 0 < (rowInsertions l r).length) : ∃ x ∈ l, x.2 = r := by
  unfold rowInsertions at h
  rw [List.length_map] at h
  obtain ⟨x, hx⟩ := List.exists_mem_of_length_pos h
  rw [List.mem_filter] at hx
  exact ⟨x, hx.1, by simpa using hx.2⟩

/-- After the insertions `l` from zeroed counters, with enough capacity and addressable
buckets, every row counts its insertions and holds them in insertion order. -/
theorem sortAll_rowRecords (cap : ℕ) (m : Memory) (h0 : ∀ r, m.clusterInRow r = 0)
    (hcap32 : cap < 2 ^ 32) (l : List (ClusterNative × ℕ)) :
    (∀ r, (rowInsertions l r).length ≤ cap) →
    (∀ x ∈ l, cap * (x.2 + 1) ≤ 2 ^ 32) →
    ∀ r, (sortAll cap l m).clusterInRow r = (rowInsertions l r).length ∧
      rowRecords cap (sortAll cap l m) r = rowInsertions l r := by
  induction l using List.reverseRecOn with
  | nil =>
    intro _ _ r
    simp [sortAll, rowInsertions, rowRecords, h0]
  | append_singleton l x ih =>
    intro hcap haddr r
    have hcap' : ∀ r, (rowInsertions l r).length ≤ cap := by
      intro r
      have := hcap r
      rw [rowInsertions_append, List.length_append] at this
      omega
    have haddr' : ∀ y ∈ l, cap * (y.2 + 1) ≤ 2 ^ 32 :=
      fun y hy => haddr y (List.mem_append_left _ hy)
    have ih' := ih hcap' haddr'
    have hx := hcap x.2
    rw [rowInsertions_append, if_pos rfl, List.length_append, List.length_singleton] at hx
    have hn : (sortAll cap l m).clusterInRow x.2 = (rowInsertions l x.2).length := (ih' x.2).1
    have hlt : (sortAll cap l m).clusterInRow x.2 < cap := by omega
    have hxaddr : cap * (x.2 + 1) ≤ 2 ^ 32 := haddr x (by simp)
    rw [sortAll_append, rowInsertions_append]
    unfold rowRecords
    rw [sortIntoBuckets_clusterInRow, sortIntoBuckets_clusterByRow, if_pos hlt]
    by_cases hr : x.2 = r
    · subst hr
      rw [Function.update_same, Nat.mod_eq_of_lt (by omega), if_pos rfl, List.length_append,
        List.length_singleton, hn]
      refine ⟨rfl, ?_⟩
      rw [List.range_succ, List.map_append, List.map_singleton, Function.update_same]
      congr 1
      have hrec : rowRecords cap (sortAll cap l m) x.2 = rowInsertions l x.2 := (ih' x.2).2
      refine Eq.trans ?_ hrec
      unfold rowRecords
      rw [hn]
      apply List.map_congr_left
      intro j hj
      rw [List.mem_range] at hj
      rw [Function.update_noteq]
      intro heq
      have := slotIndex_injective cap x.2 (by omega) (by omega) heq
      omega
    · rw [Function.update_noteq (Ne.symm hr), if_neg hr, List.append_nil]
      refine ⟨(ih' r).1, ?_⟩
      have hrec : rowRecords cap (sortAll cap l m) r = rowInsertions l r := (ih' r).2
      refine Eq.trans ?_ hrec
      unfold rowRecords
      apply List.map_congr_left
      intro j hj
      rw [List.mem_range, (ih' r).1] at hj
      rw [Function.update_noteq]
      obtain ⟨y, hy, hyr⟩ := exists_mem_of_rowInsertions_pos l r (by omega)
      have hraddr : cap * (r + 1) ≤ 2 ^ 32 := hyr ▸ haddr' y hy
      have hjcap : j < cap := lt_of_lt_of_le hj (hcap' r)
      rw [slotIndex_eq_of_le cap r j hjcap hraddr, slotIndex_eq_of_le cap x.2 _ hlt hxaddr]
      exact slot_ne_of_row_ne cap r x.2 j _ hjcap hlt (Ne.symm hr)

theorem rowInsertions_perm {l₁ l₂ : List (ClusterNative × ℕ)} (h : l₁.Perm l₂) (r : ℕ) :
    (rowInsertions l₁ r).Perm (rowInsertions l₂ r) :=
  (h.filter _).map _

/-- C15: two orders of the same accepted insertions, executed through `sortIntoBuckets` from
the same zeroed counters with a capacity (below `2^32`, a `uint`) of at least the number of
insertions of every row and buckets addressable in `uint` arithmetic, give equal row counters
and, for every row, equal multisets of stored records. -/
theorem sortAll_perm (cap : ℕ) (m : Memory) (l₁ l₂ : List (ClusterNative × ℕ))
    (hperm : l₁.Perm l₂) (h0 : ∀ r, m.clusterInRow r = 0) (hcap32 : cap < 2 ^ 32)
    (hcap : ∀ r, (rowInsertions l₁ r).length ≤ cap)
    (haddr : ∀ x ∈ l₁, cap * (x.2 + 1) ≤ 2 ^ 32) :
    (sortAll cap l₁ m).clusterInRow = (sortAll cap l₂ m).clusterInRow ∧
    ∀ r, (rowRecords cap (sortAll cap l₁ m) r : Multiset ClusterNative)
      = (rowRecords cap (sortAll cap l₂ m) r : Multiset ClusterNative) := by
  have hcap₂ : ∀ r, (rowInsertions l₂ r).length ≤ cap := fun r => by
    rw [← (rowInsertions_perm hperm r).length_eq]
    exact hcap r
  have haddr₂ : ∀ x ∈ l₂, cap * (x.2 + 1) ≤ 2 ^ 32 :=
    fun x hx => haddr x (hperm.mem_iff.2 hx)
  have h₁ := sortAll_rowRecords cap m h0 hcap32 l₁ hcap haddr
  have h₂ := sortAll_rowRecords cap m h0 hcap32 l₂ hcap₂ haddr₂
  refine ⟨funext fun r => ?_, fun r => ?_⟩
  · rw [(h₁ r).1, (h₂ r).1, (rowInsertions_perm hperm r).length_eq]
  · rw [(h₁ r).2, (h₂ r).2]
    exact Multiset.coe_eq_coe.2 (rowInsertions_perm hperm r)

/-- Witness of C15: two records sent to row 5 with capacity 7, in both orders. -/
theorem sortAll_perm_example :
    (sortAll 7 [(clusterA, 5), (clusterB, 5)] zeroMemory).clusterInRow
      = (sortAll 7 [(clusterB, 5), (clusterA, 5)] zeroMemory).clusterInRow ∧
    ∀ r, (rowRecords 7 (sortAll 7 [(clusterA, 5), (clusterB, 5)] zeroMemory) r :
        Multiset ClusterNative)
      = (rowRecords 7 (sortAll 7 [(clusterB, 5), (clusterA, 5)] zeroMemory) r :
        Multiset ClusterNative) :=
  sortAll_perm 7 zeroMemory [(clusterA, 5), (clusterB, 5)] [(clusterB, 5), (clusterA, 5)]
    (List.Perm.swap _ _ _) (fun _ => rfl) (by norm_num)
    (fun r => le_trans (by
      unfold rowInsertions
      rw [List.length_map]
      exact List.length_filter_le _ _) (by norm_num : [(clusterA, 5), (clusterB, 5)].length ≤ 7))
    (fun x hx => by
      simp only [List.mem_cons, List.mem_singleton, List.not_mem_nil, or_false] at hx
      rcases hx with rfl | rfl <;> norm_num)

end GPUTPCCFClusterizer


/-! ## Running the tracking chain -/

namespace GPUTPCO2Interface

/-- C20: `RunTracking` returns 1 when not initialized; when `RunChains()` returns 2 it
returns 0 with `*data` updated from the chain's pointers; when `RunChains()` returns any other
non-zero value `r` it returns `r`, clears the allocated memory and leaves `*data` and the QA
outputs unchanged; an initialized interface returns 0 exactly when `dumpEvents >= 2` or
`RunChains()` returned 0 or 2. -/
theorem RunTracking_spec {IOPtrs Regions Outputs QA : Type}
    (chain : Chain IOPtrs Regions Outputs QA) (s : State IOPtrs Regions) (data : IOPtrs)
    (outputs : Outputs) (qa : QA) :
    (s.mInitialized = false → (RunTracking chain s data outputs qa).retVal = 1) ∧
    (s.mInitialized = true → ¬ s.dumpEvents ≥ 2 → (chain.runChains data).1 = 2 →
      (RunTracking chain s data outputs qa).retVal = 0 ∧
      (RunTracking chain s data outputs qa).data = (chain.runChains data).2) ∧
    (s.mInitialized = true → ¬ s.dumpEvents ≥ 2 → (chain.runChains data).1 ≠ 0 →
      (chain.runChains data).1 ≠ 2 →
      (RunTracking chain s data outputs qa).retVal = (chain.runChains data).1 ∧
      (RunTracking chain s data outputs qa).state.memoryClears = s.memoryClears + 1 ∧
      (RunTracking chain s data outputs qa).data = data ∧
      (RunTracking chain s data outputs qa).qa = qa) ∧
    (s.mInitialized = true →
      ((RunTracking chain s data outputs qa).retVal = 0 ↔
        s.dumpEvents ≥ 2 ∨ (chain.runChains data).1 = 0 ∨ (chain.runChains data).1 = 2)) := by
  have hinit : s.mInitialized = true → ¬ (s.mInitialized = false) := fun h => by simp [h]
  have hrun : ∀ (r : ℤ), s.mInitialized = true → ¬ s.dumpEvents ≥ 2 →
      (if (chain.runChains data).1 = 2 then (0 : ℤ) else (chain.runChains data).1) = r →
      (RunTracking chain s data outputs qa).retVal = r := by
    intro r hi hd hr
    have hns : ¬ (s.dumpEvents ≠ 0 ∧ s.dumpEvents ≥ 2) := fun h => hd h.2
    unfold RunTracking
    rw [if_neg (hinit hi)]
    dsimp only
    rw [if_neg hns, hr]
    by_cases h : r ≠ 0
    · rw [if_pos h]
    · rw [if_neg h]
      exact (not_not.1 h).symm
  refine ⟨fun hi => ?_, fun hi hd h2 => ?_, fun hi hd h0 h2 => ?_, fun hi => ?_⟩
  · unfold RunTracking
    rw [if_pos hi]
  · refine ⟨hrun 0 hi hd (by rw [if_pos h2]), ?_⟩
    have hns : ¬ (s.dumpEvents ≠ 0 ∧ s.dumpEvents ≥ 2) := fun h => hd h.2
    unfold RunTracking
    rw [if_neg (hinit hi)]
    dsimp only
    rw [if_neg hns, if_pos h2, if_neg (by simp)]
  · refine ⟨hrun _ hi hd (by rw [if_neg h2]), ?_⟩
    have hns : ¬ (s.dumpEvents ≠ 0 ∧ s.dumpEvents ≥ 2) := fun h => hd h.2
    unfold RunTracking
    rw [if_neg (hinit hi)]
    dsimp only
    rw [if_neg hns, if_neg h2, if_pos h0]
    refine ⟨?_, rfl, rfl⟩
    dsimp only
    split_ifs <;> rfl
  · by_cases hd : s.dumpEvents ≥ 2
    · have : (RunTracking chain s data outputs qa).retVal = 0 := by
        unfold RunTracking
        rw [if_neg (hinit hi)]
        dsimp only
        rw [if_pos ⟨by omega, hd⟩]
      simp [this, hd]
    · by_cases h2 : (chain.runChains data).1 = 2
      · rw [hrun 0 hi hd (by rw [if_pos h2])]
        simp [h2]
      · rw [hrun _ hi hd (by rw [if_neg h2])]
        simp [hd, h2]

/-- Evaluation of C20 on an initialized interface: a chain returning 2 gives 0 and the new
pointers, a chain returning 3 gives 3, one memory clear and the old pointers. -/
theorem RunTracking_spec_example :
    (RunTracking (exampleChain 2) exampleState 7 0 0).retVal = 0 ∧
    (RunTracking (exampleChain 2) exampleState 7 0 0).data = 8 ∧
    (RunTracking (exampleChain 3) exampleState 7 0 0).retVal = 3 ∧
    (RunTracking (exampleChain 3) exampleState 7 0 0).state.memoryClears = 1 ∧
    (RunTracking (exampleChain 3) exampleState 7 0 0).data = 7 := by
  have h2 := (RunTracking_spec (exampleChain 2) exampleState 7 0 0).2.1 rfl
    (by norm_num [exampleState]) rfl
  have h3 := (RunTracking_spec (exampleChain 3) exampleState 7 0 0).2.2.1 rfl
    (by norm_num [exampleState]) (by norm_num [exampleChain]) (by norm_num [exampleChain])
  exact ⟨h2.1, h2.2, h3.1, h3.2.1, h3.2.2.1⟩

end GPUTPCO2Interface


/-! ## The gather plan -/

namespace GPUTPCCompressionGatherKernels

theorem prefixSum_zero (sizes : List ℕ) : prefixSum sizes 0 = 0 := rfl

theorem prefixSum_add (sizes : List ℕ) (m n : ℕ) :
    prefixSum sizes (m + n) = prefixSum sizes m + ((sizes.drop m).take n).sum := by
  unfold prefixSum
  rw [List.take_add, List.sum_append]

theorem prefixSum_succ (sizes : List ℕ) (i : ℕ) (hi : i < sizes.length) :
    prefixSum sizes (i + 1) = prefixSum sizes i + sizes[i] := by
  rw [prefixSum_add]
  have h : (List.take 1 (List.drop i sizes)).sum = sizes[i] := by
    rw [List.drop_eq_getElem_cons hi, List.take_succ_cons, List.take_zero, List.sum_cons,
      List.sum_nil, add_zero]
  rw [h]

theorem prefixSum_mono (sizes : List ℕ) {i j : ℕ} (h : i ≤ j) :
    prefixSum sizes i ≤ prefixSum sizes j := by
  obtain ⟨d, rfl⟩ := Nat.exists_eq_add_of_le h
  rw [prefixSum_add]
  exact Nat.le_add_right _ _

theorem prefixSum_length (sizes : List ℕ) : prefixSum sizes sizes.length = sizes.sum := by
  unfold prefixSum
  rw [List.take_length]

theorem warpOffset_eq (nLanes : ℕ) (sizes : List ℕ) (g : ℕ) :
    warpOffset nLanes sizes g = prefixSum sizes (g * nLanes) := by
  induction g with
  | zero => simp [warpOffset, prefixSum]
  | succ g ih =>
    have : warpOffset nLanes sizes (g + 1)
        = warpOffset nLanes sizes g + warpTotal nLanes sizes g := by
      unfold warpOffset
      rw [List.range_succ, List.map_append, List.sum_append]
      simp
    rw [this, ih, Nat.succ_mul, prefixSum_add]
    rfl

theorem unitOffset_eq (nLanes : ℕ) (sizes : List ℕ) (i : ℕ) (hn : 0 < nLanes) :
    unitOffset nLanes sizes i = prefixSum sizes i := by
  unfold unitOffset localOffset warpSizes
  rw [warpOffset_eq, List.take_take, min_eq_left (Nat.mod_lt i hn).le]
  have h := prefixSum_add sizes (i / nLanes * nLanes) (i % nLanes)
  rw [Nat.div_add_mod' i nLanes] at h
  exact h.symm

/-- C17: for lane groups of `nLanes > 0` lanes, the two-level offset computation gives every
unit the exclusive prefix sum of the unit sizes; the offsets start at 0, are monotonically
non-decreasing, each unit ends where the next begins and the last unit ends at the total
size, so that every byte position below the total lies in the range of exactly one unit. -/
theorem gatherPlan_spec (nLanes : ℕ) (sizes : List ℕ) (hn : 0 < nLanes) :
    gatherPlan nLanes sizes = (List.range sizes.length).map (prefixSum sizes) ∧
    (∀ i, unitOffset nLanes sizes i = prefixSum sizes i) ∧
    (∀ i j, i ≤ j → unitOffset nLanes sizes i ≤ unitOffset nLanes sizes j) ∧
    unitOffset nLanes sizes 0 = 0 ∧
    (∀ i (hi : i < sizes.length),
      unitOffset nLanes sizes (i + 1) = unitOffset nLanes sizes i + sizes[i]) ∧
    unitOffset nLanes sizes sizes.length = sizes.sum ∧
    (∀ b, b < sizes.sum → ∃! i, ∃ hi : i < sizes.length,
      unitOffset nLanes sizes i ≤ b ∧ b < unitOffset nLanes sizes i + sizes[i]) := by
  have heq : ∀ i, unitOffset nLanes sizes i = prefixSum sizes i :=
    fun i => unitOffset_eq nLanes sizes i hn
  refine ⟨?_, heq, ?_, ?_, ?_, ?_, ?_⟩
  · unfold gatherPlan
    exact List.map_congr_left fun i _ => heq i
  · intro i j hij
    rw [heq, heq]
    exact prefixSum_mono sizes hij
  · rw [heq, prefixSum_zero]
  · intro i hi
    rw [heq, heq, prefixSum_succ sizes i hi]
  · rw [heq, prefixSum_length]
  · intro b hb
    have hex : ∀ k, k ≤ sizes.length → b < prefixSum sizes k →
        ∃ i, ∃ hi : i < sizes.length, prefixSum sizes i ≤ b ∧ b < prefixSum sizes i + sizes[i] := by
      intro k
      induction k with
      | zero => intro _ h; rw [prefixSum_zero] at h; omega
      | succ k ih =>
        intro hk h
        by_cases hlt : b < prefixSum sizes k
        · exact ih (by omega) hlt
        · refine ⟨k, by omega, by omega, ?_⟩
          rwa [prefixSum_succ sizes k (by omega)] at h
    obtain ⟨i, hi, h1, h2⟩ := hex sizes.length le_rfl (by rw [prefixSum_length]; exact hb)
    refine ⟨i, ⟨hi, by rw [heq]; exact ⟨h1, h2⟩⟩, ?_⟩
    rintro j ⟨hj, hj1, hj2⟩
    rw [heq] at hj1 hj2
    rw [← prefixSum_succ sizes j hj] at hj2
    rw [← prefixSum_succ sizes i hi] at h2
    by_contra hne
    rcases Nat.lt_or_gt_of_ne hne with hlt | hgt
    · have := prefixSum_mono sizes (show j + 1 ≤ i by omega)
      omega
    · have := prefixSum_mono sizes (show i + 1 ≤ j by omega)
      omega

/-- Witness of C17: the sizes 7, 3, 12 in lane groups of 2 give the offsets 0, 7, 10 and the
total size 22. -/
theorem gatherPlan_spec_example :
    (0 : ℕ) < 2 ∧ gatherPlan 2 [7, 3, 12] = [0, 7, 10] ∧ unitOffset 2 [7, 3, 12] 3 = 22 := by
  obtain ⟨h1, h2, _⟩ := gatherPlan_spec 2 [7, 3, 12] (by norm_num)
  refine ⟨by norm_num, ?_, ?_⟩
  · rw [h1]; decide
  · rw [h2]; decide

end GPUTPCCompressionGatherKernels


/-! ## The gather copies -/

namespace GPUTPCCompressionGatherKernels

theorem mem_unbufferedOrder (nLanes size i : ℕ) (hn : 0 < nLanes) :
    i ∈ unbufferedOrder nLanes size ↔ i < size := by
  unfold unbufferedOrder
  simp only [List.mem_flatten, List.mem_map, List.mem_range, List.mem_filter, decide_eq_true_eq]
  constructor
  · rintro ⟨l, ⟨iLane, _, rfl⟩, hi⟩
    rw [List.mem_filter, List.mem_range] at hi
    exact hi.1
  · intro hi
    refine ⟨_, ⟨i % nLanes, Nat.mod_lt i hn, rfl⟩, ?_⟩
    rw [List.mem_filter, List.mem_range]
    exact ⟨hi, by simp⟩

theorem mem_bufferedOrder (w size i : ℕ) (hw : 0 < w) :
    i ∈ bufferedOrder w size ↔ i < size := by
  unfold bufferedOrder
  have hds := Nat.div_add_mod' size w
  simp only [List.mem_append, List.mem_flatten, List.mem_map, List.mem_range]
  constructor
  · rintro (⟨l, ⟨word, hword, rfl⟩, hi⟩ | ⟨t, ht, rfl⟩)
    · rw [List.mem_map] at hi
      obtain ⟨t, ht, rfl⟩ := hi
      rw [List.mem_range] at ht
      have h1 : (word + 1) * w ≤ size / w * w := Nat.mul_le_mul_right w hword
      rw [Nat.succ_mul] at h1
      omega
    · omega
  · intro hi
    have hdi := Nat.div_add_mod' i w
    have hmi := Nat.mod_lt i hw
    by_cases hlt : i / w < size / w
    · left
      refine ⟨_, ⟨i / w, hlt, rfl⟩, ?_⟩
      rw [List.mem_map]
      exact ⟨i % w, List.mem_range.2 hmi, hdi⟩
    · right
      have hle : i / w ≤ size / w := Nat.div_le_div_right hi.le
      have heq : i / w = size / w := by omega
      rw [heq] at hdi
      exact ⟨i % w, by omega, hdi⟩

theorem mem_multiBlockOrder (nBlocks size i : ℕ) (hn : 0 < nBlocks) :
    i ∈ multiBlockOrder nBlocks size ↔ i < size := by
  unfold multiBlockOrder
  simp only [List.mem_flatten, List.mem_map, List.mem_range]
  constructor
  · rintro ⟨l, ⟨iBlock, _, rfl⟩, hi⟩
    rw [List.mem_filter, List.mem_range] at hi
    exact hi.1
  · intro hi
    have hdm := Nat.div_add_mod (size + nBlocks - 1) nBlocks
    have hm := Nat.mod_lt (size + nBlocks - 1) hn
    have hchunk : size ≤ nBlocks * ((size + nBlocks - 1) / nBlocks) := by omega
    have hpos : 0 < (size + nBlocks - 1) / nBlocks := by
      rcases Nat.eq_zero_or_pos ((size + nBlocks - 1) / nBlocks) with h0 | h0
      · rw [h0] at hchunk; omega
      · exact h0
    refine ⟨_, ⟨i / ((size + nBlocks - 1) / nBlocks), ?_, rfl⟩, ?_⟩
    · rw [Nat.div_lt_iff_lt_mul hpos]
      calc i < size := hi
        _ ≤ nBlocks * ((size + nBlocks - 1) / nBlocks) := hchunk
    · rw [List.mem_filter, List.mem_range]
      exact ⟨hi, by simp⟩

theorem copyWidth_pos (k : K) (src dst : ℕ) : 0 < copyWidth k src dst := by
  unfold copyWidth
  dsimp only
  split_ifs <;> norm_num

theorem mem_copyOrder (k : K) (nLanes nBlocks src dst size i : ℕ) (hn : 0 < nLanes)
    (hb : 0 < nBlocks) : i ∈ copyOrder k nLanes nBlocks src dst size ↔ i < size := by
  cases k <;> unfold copyOrder <;> dsimp only
  · exact mem_unbufferedOrder nLanes size i hn
  all_goals first
    | exact mem_multiBlockOrder nBlocks size i hb
    | (split_ifs
       · exact mem_unbufferedOrder nLanes size i hn
       · exact mem_bufferedOrder _ size i (copyWidth_pos _ _ _))

theorem foldl_update_apply (order : List ℕ) (dst : ℕ) (bytes : List ℕ) :
    ∀ (mem : ℕ → ℕ) (a : ℕ),
      (order.foldl (fun d i => Function.update d (dst + i) (bytes.getD i 0)) mem) a
        = if ∃ i ∈ order, dst + i = a then bytes.getD (a - dst) 0 else mem a := by
  induction order with
  | nil => intro mem a; simp
  | cons j rest ih =>
    intro mem a
    rw [List.foldl_cons, ih]
    by_cases hrest : ∃ i ∈ rest, dst + i = a
    · rw [if_pos hrest, if_pos]
      obtain ⟨i, hi, hia⟩ := hrest
      exact ⟨i, List.mem_cons_of_mem _ hi, hia⟩
    · rw [if_neg hrest]
      by_cases hj : dst + j = a
      · rw [if_pos ⟨j, List.mem_cons_self _ _, hj⟩, ← hj, Function.update_same]
        simp
      · rw [Function.update_noteq (Ne.symm hj), if_neg]
        rintro ⟨i, hi, hia⟩
        rcases List.mem_cons.1 hi with rfl | hi'
        · exact hj hia
        · exact hrest ⟨i, hi', hia⟩

/-- Every strategy copies a unit to exactly the addresses `dst .. dst + size - 1`. -/
theorem copyUnit_apply (k : K) (nLanes nBlocks dst : ℕ) (u : GatherUnit) (mem : ℕ → ℕ)
    (hn : 0 < nLanes) (hb : 0 < nBlocks) (a : ℕ) :
    copyUnit k nLanes nBlocks dst u mem a
      = if dst ≤ a ∧ a < dst + u.bytes.length then u.bytes.getD (a - dst) 0 else mem a := by
  unfold copyUnit
  rw [foldl_update_apply]
  have hiff : (∃ i ∈ copyOrder k nLanes nBlocks u.srcPtr dst u.bytes.length, dst + i = a)
      ↔ (dst ≤ a ∧ a < dst + u.bytes.length) := by
    constructor
    · rintro ⟨i, hi, rfl⟩
      rw [mem_copyOrder k nLanes nBlocks _ _ _ i hn hb] at hi
      omega
    · rintro ⟨h1, h2⟩
      refine ⟨a - dst, ?_, by omega⟩
      rw [mem_copyOrder k nLanes nBlocks _ _ _ _ hn hb]
      omega
  by_cases h : dst ≤ a ∧ a < dst + u.bytes.length
  · rw [if_pos (hiff.2 h), if_pos h]
  · rw [if_neg (fun h' => h (hiff.1 h')), if_neg h]

theorem concatenation_cons (u : GatherUnit) (rest : List GatherUnit) :
    concatenation (u :: rest) = u.bytes ++ concatenation rest := by
  simp [concatenation]

theorem unitOffset_prefix (nLanes : ℕ) (hn : 0 < nLanes) (pre suf : List GatherUnit) :
    unitOffset nLanes ((pre ++ suf).map fun u => u.bytes.length) pre.length
      = (pre.map fun u => u.bytes.length).sum := by
  rw [unitOffset_eq _ _ _ hn, prefixSum, List.map_append,
    List.take_left' (List.length_map _ _)]

theorem gatherLoop_apply (k : K) (nLanes nBlocks dst : ℕ) (hn : 0 < nLanes) (hb : 0 < nBlocks)
    (suf : List GatherUnit) :
    ∀ (pre : List GatherUnit) (mem : ℕ → ℕ) (a : ℕ),
      gatherLoop k nLanes nBlocks dst ((pre ++ suf).map fun u => u.bytes.length)
          pre.length suf mem a
        = if dst + (pre.map fun u => u.bytes.length).sum ≤ a ∧
              a < dst + (pre.map fun u => u.bytes.length).sum + (concatenation suf).length then
            (concatenation suf).getD (a - (dst + (pre.map fun u => u.bytes.length).sum)) 0
          else mem a := by
  induction suf with
  | nil =>
    intro pre mem a
    rw [gatherLoop, if_neg]
    simp [concatenation]
  | cons u rest ih =>
    intro pre mem a
    have ih' := ih (pre ++ [u]) (copyUnit k nLanes nBlocks
      (dst + (pre.map fun u => u.bytes.length).sum) u mem) a
    have hlist : pre ++ [u] ++ rest = pre ++ u :: rest := by simp
    have hlen : (pre ++ [u]).length = pre.length + 1 := by simp
    have hsum : ((pre ++ [u]).map fun u => u.bytes.length).sum
        = (pre.map fun u => u.bytes.length).sum + u.bytes.length := by simp
    rw [hlist, hlen, hsum] at ih'
    rw [gatherLoop, unitOffset_prefix nLanes hn pre (u :: rest), ih', concatenation_cons,
      List.length_append, copyUnit_apply k nLanes nBlocks _ u mem hn hb a]
    by_cases h1 : dst + ((pre.map fun u => u.bytes.length).sum + u.bytes.length) ≤ a ∧
        a < dst + ((pre.map fun u => u.bytes.length).sum + u.bytes.length)
          + (concatenation rest).length
    · rw [if_pos h1, if_pos (by omega), List.getD_append_right _ _ _ _ (by omega)]
      congr 1
      omega
    · rw [if_neg h1]
      by_cases h2 : dst + (pre.map fun u => u.bytes.length).sum ≤ a ∧
          a < dst + (pre.map fun u => u.bytes.length).sum + u.bytes.length
      · rw [if_pos h2, if_pos (by omega), List.getD_append _ _ _ _ (by omega)]
      · rw [if_neg h2, if_neg (by omega)]

theorem gather_apply (k : K) (nLanes nBlocks dst : ℕ) (units : List GatherUnit)
    (mem : ℕ → ℕ) (hn : 0 < nLanes) (hb : 0 < nBlocks) (a : ℕ) :
    gather k nLanes nBlocks dst units mem a
      = if dst ≤ a ∧ a < dst + (concatenation units).length then
          (concatenation units).getD (a - dst) 0
        else mem a := by
  have h := gatherLoop_apply k nLanes nBlocks dst hn hb units [] mem a
  simpa [gather] using h

/-- C16: for every list of variable-length units and every copy strategy (with at least one
lane and one work-group), `gather` leaves in the destination buffer exactly the sequential
concatenation of the units in source order and changes nothing outside the buffer; hence any
two strategies, with any lane and work-group counts, produce the same memory. -/
theorem gather_eq_concatenation (k : K) (nLanes nBlocks dst : ℕ) (units : List GatherUnit)
    (mem : ℕ → ℕ) (hn : 0 < nLanes) (hb : 0 < nBlocks) :
    (∀ (b : ℕ) (h : b < (concatenation units).length),
      gather k nLanes nBlocks dst units mem (dst + b) = (concatenation units)[b]) ∧
    (∀ a, a < dst ∨ dst + (concatenation units).length ≤ a →
      gather k nLanes nBlocks dst units mem a = mem a) ∧
    (∀ (k₂ : K) (nLanes₂ nBlocks₂ : ℕ), 0 < nLanes₂ → 0 < nBlocks₂ →
      gather k₂ nLanes₂ nBlocks₂ dst units mem = gather k nLanes nBlocks dst units mem) := by
  refine ⟨fun b h => ?_, fun a ha => ?_, fun k₂ nLanes₂ nBlocks₂ hn₂ hb₂ => ?_⟩
  · rw [gather_apply k nLanes nBlocks dst units mem hn hb, if_pos (by omega),
      Nat.add_sub_cancel_left, List.getD_eq_getElem _ _ h]
  · rw [gather_apply k nLanes nBlocks dst units mem hn hb, if_neg (by omega)]
  · funext a
    rw [gather_apply k nLanes nBlocks dst units mem hn hb,
      gather_apply k₂ nLanes₂ nBlocks₂ dst units mem hn₂ hb₂]

/-- Witness of C16: three units of 3, 1 and 2 bytes gathered by the 32-bit buffered strategy
with 2 lanes into a zeroed buffer at address 0; byte 3 of the output is the byte of the second
unit, and the unbuffered strategy gives the same memory. -/
theorem gather_eq_concatenation_example :
    (0 : ℕ) < 2 ∧ (0 : ℕ) < 1 ∧
    gather K.buffered32 2 1 0 [⟨0, [1, 2, 3]⟩, ⟨8, [4]⟩, ⟨16, [5, 6]⟩] (fun _ => 0) (0 + 3) = 4 ∧
    gather K.unbuffered 2 1 0 [⟨0, [1, 2, 3]⟩, ⟨8, [4]⟩, ⟨16, [5, 6]⟩] (fun _ => 0)
      = gather K.buffered32 2 1 0 [⟨0, [1, 2, 3]⟩, ⟨8, [4]⟩, ⟨16, [5, 6]⟩] (fun _ => 0) := by
  obtain ⟨h1, _, h3⟩ := gather_eq_concatenation K.buffered32 2 1 0
    [⟨0, [1, 2, 3]⟩, ⟨8, [4]⟩, ⟨16, [5, 6]⟩] (fun _ => 0) (by norm_num) (by norm_num)
  exact ⟨by norm_num, by norm_num, h1 3 (by decide), h3 K.unbuffered 2 1 (by norm_num) (by norm_num)⟩

end GPUTPCCompressionGatherKernels


/-! ## Position in row, frame of an insertion, null pointers -/

namespace GPUTPCCFClusterizer

/-- The rejected branch of `computeClustersImpl` with a non-null `clusterPosInRow`. -/
theorem computeClustersImpl_rejected_valid (env : Collaborators)
    (filteredPeakPositions : ℕ → ChargePos) (clusternum maxClusterPerRow : ℕ)
    (clusterByRow : Pointer) (idx : ℕ) (m : Memory)
    (hreal : idx < clusternum)
    (hov : env.isOverlap (peakPosition filteredPeakPositions clusternum idx).time = false)
    (hq : ((env.toNative (peakPosition filteredPeakPositions clusternum idx)).qTot : ℚ)
      ≤ env.tpcCFqtotCutoff) :
    computeClustersImpl env filteredPeakPositions clusternum maxClusterPerRow
        clusterByRow Pointer.valid idx m = some (m.storePosInRow idx maxClusterPerRow) := by
  unfold computeClustersImpl
  simp only [ge_iff_le, not_le.2 hreal, hov, Bool.false_eq_true, or_self, if_false,
    gt_iff_lt, not_lt.2 hq, decide_False, Bool.not_false, if_true]

/-- The rejected branch of `computeClustersImpl` with a null `clusterPosInRow`: the store of
line 90 goes through the null pointer. -/
theorem computeClustersImpl_rejected_null (env : Collaborators)
    (filteredPeakPositions : ℕ → ChargePos) (clusternum maxClusterPerRow : ℕ)
    (clusterByRow : Pointer) (idx : ℕ) (m : Memory)
    (hreal : idx < clusternum)
    (hov : env.isOverlap (peakPosition filteredPeakPositions clusternum idx).time = false)
    (hq : ((env.toNative (peakPosition filteredPeakPositions clusternum idx)).qTot : ℚ)
      ≤ env.tpcCFqtotCutoff) :
    computeClustersImpl env filteredPeakPositions clusternum maxClusterPerRow
        clusterByRow Pointer.null idx m = none := by
  unfold computeClustersImpl
  simp only [ge_iff_le, not_le.2 hreal, hov, Bool.false_eq_true, or_self, if_false,
    gt_iff_lt, not_lt.2 hq, decide_False, Bool.not_false, if_true]

theorem computeClustersImpl_accepted_effects (env : Collaborators)
    (filteredPeakPositions : ℕ → ChargePos) (clusternum maxClusterPerRow : ℕ)
    (idx : ℕ) (m : Memory)
    (hreal : idx < clusternum)
    (hov : env.isOverlap (peakPosition filteredPeakPositions clusternum idx).time = false)
    (hq : env.tpcCFqtotCutoff < ((env.toNative (peakPosition filteredPeakPositions clusternum idx)).qTot : ℚ)) :
    ∃ m₁, computeClustersImpl env filteredPeakPositions clusternum maxClusterPerRow
        Pointer.valid Pointer.valid idx m = some m₁ ∧
      m₁.clusterPosInRow idx = m.clusterInRow (peakPosition filteredPeakPositions clusternum idx).row ∧
      bucketWrites m₁.stores = bucketWrites m.stores ++
        (if m.clusterInRow (peakPosition filteredPeakPositions clusternum idx).row < maxClusterPerRow then
          [(slotIndex maxClusterPerRow (peakPosition filteredPeakPositions clusternum idx).row (m.clusterInRow (peakPosition filteredPeakPositions clusternum idx).row), env.toNative (peakPosition filteredPeakPositions clusternum idx))]
        else []) := by
  refine ⟨_, computeClustersImpl_accepted_valid env filteredPeakPositions clusternum
    maxClusterPerRow idx m hreal hov hq, ?_, ?_⟩
  · rw [sortIntoBuckets_fst]
    simp [Memory.storePosInRow]
  · show bucketWrites ((sortIntoBuckets _ _ _ m).2.stores ++ _) = _
    rw [sortIntoBuckets_stores]
    split_ifs <;> simp [bucketWrites_append, bucketWrites]

theorem computeClustersImpl_rejected_effects (env : Collaborators)
    (filteredPeakPositions : ℕ → ChargePos) (clusternum maxClusterPerRow : ℕ)
    (idx : ℕ) (m : Memory)
    (hreal : idx < clusternum)
    (hov : env.isOverlap (peakPosition filteredPeakPositions clusternum idx).time = false)
    (hq : ((env.toNative (peakPosition filteredPeakPositions clusternum idx)).qTot : ℚ) ≤ env.tpcCFqtotCutoff) :
    ∃ m₁, computeClustersImpl env filteredPeakPositions clusternum maxClusterPerRow
        Pointer.valid Pointer.valid idx m = some m₁ ∧
      m₁.clusterPosInRow idx = maxClusterPerRow ∧
      bucketWrites m₁.stores = bucketWrites m.stores := by
  refine ⟨_, computeClustersImpl_rejected_valid env filteredPeakPositions clusternum
    maxClusterPerRow Pointer.valid idx m hreal hov hq, ?_, ?_⟩
  · simp [Memory.storePosInRow]
  · simp [Memory.storePosInRow, bucketWrites_append, bucketWrites]

/-- C22, counterexample: with capacity `2^31` the first accepted candidate of row 5 gets the
position 0, below the capacity, while its record is written at slot `2^31 * 5 mod 2^32 =
2^31`, which lies in the bucket of row 1 and not in the bucket `[2^31 * 5, 2^31 * 6)` of
row 5. -/
theorem clusterPosInRow_below_capacity_outside_row :
    ∃ m₁, computeClustersImpl (exampleCollaborators 50) examplePositions 1 (2 ^ 31)
        Pointer.valid Pointer.valid 0 zeroMemory = some m₁ ∧
      (peakPosition examplePositions 1 0).row = 5 ∧
      m₁.clusterPosInRow 0 = 0 ∧ m₁.clusterPosInRow 0 < 2 ^ 31 ∧
      bucketWrites m₁.stores = [(2147483648, clusterA)] ∧
      ¬ (2 ^ 31 * 5 ≤ 2147483648 ∧ 2147483648 < 2 ^ 31 * (5 + 1)) ∧
      (2 ^ 31 * 1 ≤ 2147483648 ∧ 2147483648 < 2 ^ 31 * (1 + 1)) := by
  obtain ⟨m₁, h1, hp, hw⟩ := computeClustersImpl_accepted_effects (exampleCollaborators 50)
    examplePositions 1 (2 ^ 31) 0 zeroMemory (by norm_num) rfl
    (by norm_num [exampleCollaborators, clusterA])
  have hrow : (peakPosition examplePositions 1 0).row = 5 := rfl
  have hp0 : m₁.clusterPosInRow 0 = 0 := hp
  have hslot : slotIndex (2 ^ 31) 5 0 = 2147483648 := by norm_num [slotIndex]
  have hw' : bucketWrites m₁.stores = [] ++
      (if (0 : ℕ) < 2 ^ 31 then [(slotIndex (2 ^ 31) 5 0, clusterA)] else []) := hw
  rw [if_pos (by norm_num), hslot, List.nil_append] at hw'
  exact ⟨m₁, h1, hrow, hp0, by rw [hp0]; norm_num, hw', by norm_num, by norm_num⟩

/-- C22, amended: for a real candidate outside the fragment overlap, with `clusterByRow` and
`clusterPosInRow` non-null and the row's bucket addressable without overflow,
`maxClusterPerRow * (pos.row() + 1) <= 2^32`, the work item completes and afterwards
`clusterPosInRow[idx]` is below `maxClusterPerRow` exactly when the work item wrote the
candidate's record into a slot of its row's bucket `[maxClusterPerRow * pos.row(),
maxClusterPerRow * (pos.row() + 1))`, and then the slot is `maxClusterPerRow * pos.row() +
clusterPosInRow[idx]`; a rejected candidate gets exactly `maxClusterPerRow` and an accepted
candidate that found the bucket full gets a value `>= maxClusterPerRow`, both without a bucket
write. -/
theorem clusterPosInRow_tells_stored (env : Collaborators)
    (filteredPeakPositions : ℕ → ChargePos) (clusternum maxClusterPerRow : ℕ)
    (idx : ℕ) (m : Memory)
    (hreal : idx < clusternum)
    (hov : env.isOverlap (peakPosition filteredPeakPositions clusternum idx).time = false)
    (haddr : maxClusterPerRow * ((peakPosition filteredPeakPositions clusternum idx).row + 1) ≤ 2 ^ 32) :
    ∃ m₁, computeClustersImpl env filteredPeakPositions clusternum maxClusterPerRow
        Pointer.valid Pointer.valid idx m = some m₁ ∧
      (m₁.clusterPosInRow idx < maxClusterPerRow ↔
        ∃ slot, maxClusterPerRow * (peakPosition filteredPeakPositions clusternum idx).row ≤ slot ∧ slot < maxClusterPerRow * ((peakPosition filteredPeakPositions clusternum idx).row + 1) ∧
          bucketWrites m₁.stores = bucketWrites m.stores ++ [(slot, env.toNative (peakPosition filteredPeakPositions clusternum idx))]) ∧
      (m₁.clusterPosInRow idx < maxClusterPerRow →
        bucketWrites m₁.stores = bucketWrites m.stores ++
          [(maxClusterPerRow * (peakPosition filteredPeakPositions clusternum idx).row + m₁.clusterPosInRow idx, env.toNative (peakPosition filteredPeakPositions clusternum idx))]) ∧
      (((env.toNative (peakPosition filteredPeakPositions clusternum idx)).qTot : ℚ) ≤ env.tpcCFqtotCutoff →
        m₁.clusterPosInRow idx = maxClusterPerRow ∧
        bucketWrites m₁.stores = bucketWrites m.stores) ∧
      (env.tpcCFqtotCutoff < ((env.toNative (peakPosition filteredPeakPositions clusternum idx)).qTot : ℚ) →
        maxClusterPerRow ≤ m.clusterInRow (peakPosition filteredPeakPositions clusternum idx).row →
        maxClusterPerRow ≤ m₁.clusterPosInRow idx ∧
        bucketWrites m₁.stores = bucketWrites m.stores) := by
  have hne : ∀ (l : List (ℕ × ClusterNative)) (x : ℕ × ClusterNative), l ≠ l ++ [x] := by
    intro l x h
    have := congrArg List.length h
    simp at this
  by_cases hq : ((env.toNative (peakPosition filteredPeakPositions clusternum idx)).qTot : ℚ) ≤ env.tpcCFqtotCutoff
  · obtain ⟨m₁, h1, hp, hw⟩ := computeClustersImpl_rejected_effects env filteredPeakPositions
      clusternum maxClusterPerRow idx m hreal hov hq
    have hnlt : ¬ m₁.clusterPosInRow idx < maxClusterPerRow := by
      rw [hp]
      exact lt_irrefl _
    refine ⟨m₁, h1, ⟨fun h => absurd h hnlt, ?_⟩, fun h => absurd h hnlt, fun _ => ⟨hp, hw⟩,
      fun h => absurd h (not_lt.2 hq)⟩
    rintro ⟨slot, _, _, hs⟩
    exact absurd (hw.symm.trans hs) (hne _ _)
  · obtain ⟨m₁, h1, hp, hw⟩ := computeClustersImpl_accepted_effects env filteredPeakPositions
      clusternum maxClusterPerRow idx m hreal hov (not_le.1 hq)
    by_cases hlt : m.clusterInRow (peakPosition filteredPeakPositions clusternum idx).row < maxClusterPerRow
    · rw [if_pos hlt, slotIndex_eq_of_le _ _ _ hlt haddr] at hw
      have hpl : m₁.clusterPosInRow idx < maxClusterPerRow := by
        rw [hp]
        exact hlt
      refine ⟨m₁, h1, ⟨fun _ => ⟨_, Nat.le_add_right _ _, ?_, hw⟩, fun _ => hpl⟩, fun _ => ?_,
        fun h => absurd h hq, fun _ hfull => absurd hlt (not_lt.2 hfull)⟩
      · rw [Nat.mul_succ]
        omega
      · rw [hp]
        exact hw
    · rw [if_neg hlt, List.append_nil] at hw
      have hnlt : ¬ m₁.clusterPosInRow idx < maxClusterPerRow := by
        rw [hp]
        exact hlt
      refine ⟨m₁, h1, ⟨fun h => absurd h hnlt, ?_⟩, fun h => absurd h hnlt,
        fun h => absurd h hq, fun _ hfull => ⟨?_, hw⟩⟩
      · rintro ⟨slot, _, _, hs⟩
        exact absurd (hw.symm.trans hs) (hne _ _)
      · rw [hp]
        exact hfull

/-- Witness of C22 (amended): work item 0 of 1 with total charge 100, capacity 7, row 5
counting one record: with cutoff 50 the position is 1 and the record is written at slot
`7 * 5 + 1` of the bucket `[35, 42)` of row 5; with cutoff 100 nothing is stored and the
position is 7. -/
theorem clusterPosInRow_tells_stored_example :
    (∃ m₁, computeClustersImpl (exampleCollaborators 50) examplePositions 1 7
        Pointer.valid Pointer.valid 0 oneInRowFive = some m₁ ∧
      (m₁.clusterPosInRow 0 < 7 ↔
        ∃ slot, 7 * 5 ≤ slot ∧ slot < 7 * (5 + 1) ∧
          bucketWrites m₁.stores = bucketWrites oneInRowFive.stores ++ [(slot, clusterA)])) ∧
    (∃ m₁, computeClustersImpl (exampleCollaborators 100) examplePositions 1 7
        Pointer.valid Pointer.valid 0 oneInRowFive = some m₁ ∧
      m₁.clusterPosInRow 0 = 7 ∧
      bucketWrites m₁.stores = bucketWrites oneInRowFive.stores) := by
  have haddr : 7 * ((peakPosition examplePositions 1 0).row + 1) ≤ 2 ^ 32 := by
    norm_num [examplePositions, peakPosition, peakIndex]
  obtain ⟨m₁, h1, h2, _, _, _⟩ := clusterPosInRow_tells_stored (exampleCollaborators 50)
    examplePositions 1 7 0 oneInRowFive (by norm_num) rfl haddr
  obtain ⟨m₂, g1, _, _, g3, _⟩ := clusterPosInRow_tells_stored (exampleCollaborators 100)
    examplePositions 1 7 0 oneInRowFive (by norm_num) rfl haddr
  exact ⟨⟨m₁, h1, h2⟩, ⟨m₂, g1, g3 (by norm_num [exampleCollaborators, clusterA])⟩⟩

/-- C23, counterexample: with capacity `2^31` the first insertion into row 2 computes the slot
`2^31 * 2 + 0`, which is 0 in `uint` arithmetic: slot 0 changes, and it lies in the range of
row 0, not in the range `[cap * 2, cap * 3)` of row 2. -/
theorem sortIntoBuckets_wraps_into_other_row :
    zeroMemory.clusterInRow 2 < 2 ^ 31 ∧
    (sortIntoBuckets clusterA 2 (2 ^ 31) zeroMemory).2.clusterByRow 0 = clusterA ∧
    zeroMemory.clusterByRow 0 ≠ clusterA ∧
    ¬ (2 ^ 31 * 2 ≤ (0 : ℕ) ∧ (0 : ℕ) < 2 ^ 31 * (2 + 1)) ∧
    (2 ^ 31 * 0 ≤ (0 : ℕ) ∧ (0 : ℕ) < 2 ^ 31 * (0 + 1)) := by
  refine ⟨by norm_num [zeroMemory], ?_, by decide, by norm_num, by norm_num⟩
  rw [sortIntoBuckets_clusterByRow, if_pos (by norm_num [zeroMemory])]
  have : slotIndex (2 ^ 31) 2 (zeroMemory.clusterInRow 2) = 0 := by
    norm_num [slotIndex, zeroMemory]
  rw [this, Function.update_same]

/-- C23, amended: `sortIntoBuckets` changes no counter other than `elemsInBucket[row]`, leaves
`clusterPosInRow` alone, changes no bucket slot other than `buckets[cap * row + index]` (the
index computed in `uint` arithmetic) and no slot at all when the bucket is full; when the
row's bucket is addressable without overflow, `cap * (row + 1) <= 2^32`, the written slot
lies in the row's own range `[cap * row, cap * (row + 1))` and every slot outside this range
is unchanged. -/
theorem sortIntoBuckets_frame (cluster : ClusterNative) (row cap : ℕ) (m : Memory) :
    (∀ r, r ≠ row → (sortIntoBuckets cluster row cap m).2.clusterInRow r = m.clusterInRow r) ∧
    (sortIntoBuckets cluster row cap m).2.clusterPosInRow = m.clusterPosInRow ∧
    (∀ s, s ≠ slotIndex cap row (m.clusterInRow row) →
      (sortIntoBuckets cluster row cap m).2.clusterByRow s = m.clusterByRow s) ∧
    (cap ≤ m.clusterInRow row →
      (sortIntoBuckets cluster row cap m).2.clusterByRow = m.clusterByRow) ∧
    (m.clusterInRow row < cap → cap * (row + 1) ≤ 2 ^ 32 →
      cap * row ≤ slotIndex cap row (m.clusterInRow row) ∧
      slotIndex cap row (m.clusterInRow row) < cap * (row + 1)) ∧
    (cap * (row + 1) ≤ 2 ^ 32 → ∀ s, s < cap * row ∨ cap * (row + 1) ≤ s →
      (sortIntoBuckets cluster row cap m).2.clusterByRow s = m.clusterByRow s) := by
  have hslot : m.clusterInRow row < cap → cap * (row + 1) ≤ 2 ^ 32 →
      slotIndex cap row (m.clusterInRow row) = cap * row + m.clusterInRow row :=
    fun h1 h2 => slotIndex_eq_of_le cap row _ h1 h2
  refine ⟨fun r hr => ?_, sortIntoBuckets_clusterPosInRow _ _ _ _, fun s hs => ?_, fun h => ?_,
    fun h1 h2 => ?_, fun h2 s hs => ?_⟩
  · rw [sortIntoBuckets_clusterInRow, Function.update_noteq hr]
  · rw [sortIntoBuckets_clusterByRow]
    split_ifs
    · rw [Function.update_noteq hs]
    · rfl
  · rw [sortIntoBuckets_clusterByRow, if_neg (not_lt.2 h)]
  · rw [hslot h1 h2, Nat.mul_succ]
    omega
  · rw [sortIntoBuckets_clusterByRow]
    split_ifs with h1
    · rw [Function.update_noteq]
      rw [hslot h1 h2]
      rw [Nat.mul_succ] at hs
      omega
    · rfl

/-- Evaluation of C23 (amended): the first insertion into row 5 with capacity 7 writes slot
35, inside `[35, 42)`, and leaves slot 34 of row 4 as it was. -/
theorem sortIntoBuckets_frame_example :
    7 * 5 ≤ slotIndex 7 5 (zeroMemory.clusterInRow 5) ∧
    slotIndex 7 5 (zeroMemory.clusterInRow 5) < 7 * (5 + 1) ∧
    (sortIntoBuckets clusterA 5 7 zeroMemory).2.clusterByRow 34 = zeroMemory.clusterByRow 34 := by
  obtain ⟨_, _, _, _, h5, h6⟩ := sortIntoBuckets_frame clusterA 5 7 zeroMemory
  have h := h5 (by norm_num [zeroMemory]) (by norm_num)
  exact ⟨h.1, h.2, h6 (by norm_num) 34 (Or.inl (by norm_num))⟩

/-- C26, evaluation at the failing input: work item 0 of 1, outside the overlap, with total
charge 100 not above the cutoff 100 and a null `clusterPosInRow`: the store of line 90 is
executed through the null pointer. -/
theorem computeClustersImpl_null_store :
    computeClustersImpl (exampleCollaborators 100) examplePositions 1 7
      Pointer.valid Pointer.null 0 zeroMemory = none :=
  computeClustersImpl_rejected_null (exampleCollaborators 100) examplePositions 1 7
    Pointer.valid 0 zeroMemory (by norm_num) rfl (by norm_num [exampleCollaborators, clusterA])

theorem rowRecords_two_colliding (cap r₁ r₂ : ℕ) (a b : ClusterNative) (hcap : 0 < cap)
    (hne : r₁ ≠ r₂) (hcol : slotIndex cap r₁ 0 = slotIndex cap r₂ 0) (r : ℕ)
    (hr : r = r₁ ∨ r = r₂) :
    rowRecords cap (sortAll cap [(a, r₁), (b, r₂)] zeroMemory) r = [b] := by
  have h1 : (0 + 1) % 2 ^ 32 = 1 := by norm_num
  have hm1 : (sortIntoBuckets a r₁ cap zeroMemory).2.clusterInRow r₂ = 0 := by
    rw [sortIntoBuckets_clusterInRow, Function.update_noteq (Ne.symm hne)]
    rfl
  have hcount : (sortAll cap [(a, r₁), (b, r₂)] zeroMemory).clusterInRow r = 1 := by
    show (sortIntoBuckets b r₂ cap (sortIntoBuckets a r₁ cap zeroMemory).2).2.clusterInRow r = 1
    rw [sortIntoBuckets_clusterInRow, hm1, h1]
    rcases hr with hr | hr
    · rw [hr, Function.update_noteq hne, sortIntoBuckets_clusterInRow, Function.update_same]
      exact h1
    · rw [hr, Function.update_same]
  have hslot : slotIndex cap r 0 = slotIndex cap r₂ 0 := by
    rcases hr with hr | hr
    · rw [hr, hcol]
    · rw [hr]
  unfold rowRecords
  rw [hcount, show List.range 1 = [0] from rfl, List.map_singleton, hslot]
  show [(sortIntoBuckets b r₂ cap (sortIntoBuckets a r₁ cap zeroMemory).2).2.clusterByRow
    (slotIndex cap r₂ 0)] = [b]
  rw [sortIntoBuckets_clusterByRow, hm1, if_pos hcap, Function.update_same]

/-- C15, counterexample: with capacity `2^31` the slot of row 2 wraps onto slot 0 of row 0, so
the record row 0 holds at the end depends on the order of the two insertions. -/
theorem sortAll_order_matters_on_overflow :
    [(clusterA, 0), (clusterB, 2)].Perm [(clusterB, 2), (clusterA, 0)] ∧
    (∀ r, zeroMemory.clusterInRow r = 0) ∧ 2 ^ 31 < 2 ^ 32 ∧
    (∀ r, (rowInsertions [(clusterA, 0), (clusterB, 2)] r).length ≤ 2 ^ 31) ∧
    rowRecords (2 ^ 31) (sortAll (2 ^ 31) [(clusterA, 0), (clusterB, 2)] zeroMemory) 0
      = [clusterB] ∧
    rowRecords (2 ^ 31) (sortAll (2 ^ 31) [(clusterB, 2), (clusterA, 0)] zeroMemory) 0
      = [clusterA] ∧
    (([clusterB] : List ClusterNative) : Multiset ClusterNative) ≠ ([clusterA] : List ClusterNative) := by
  have hcol : slotIndex (2 ^ 31) 0 0 = slotIndex (2 ^ 31) 2 0 := by norm_num [slotIndex]
  refine ⟨List.Perm.swap _ _ _, fun _ => rfl, by norm_num, fun r => ?_,
    rowRecords_two_colliding (2 ^ 31) 0 2 clusterA clusterB (by norm_num) (by norm_num) hcol 0
      (Or.inl rfl),
    rowRecords_two_colliding (2 ^ 31) 2 0 clusterB clusterA (by norm_num) (by norm_num)
      hcol.symm 0 (Or.inr rfl), ?_⟩
  · refine le_trans ?_ (by norm_num : (2 : ℕ) ≤ 2 ^ 31)
    unfold rowInsertions
    rw [List.length_map]
    exact List.length_filter_le _ _
  · simp [clusterA, clusterB]

end GPUTPCCFClusterizer


/-! ## Factors up to one, and the row start hits -/

namespace GPUMemorySizeScalers

theorem minTimesFactor_le_max (A : DoubleArith) {maxVal : ℕ} {val factor : ℚ} {r : ℕ}
    (h0 : 0 ≤ factor) (h1 : factor ≤ 1) (hmax : A.ofSizeT maxVal ≤ maxVal)
    (h : minTimesFactor A maxVal val factor = some r) : r ≤ maxVal := by
  obtain ⟨v, _, hr⟩ := minTimesFactor_eq_some_iff.1 h
  rw [toSizeT_eq_some_iff] at hr
  have hm : A.ofSizeT (min maxVal v) ≤ maxVal :=
    le_trans (A.ofSizeT_mono (min_le_left _ _)) hmax
  have hnn : 0 ≤ A.ofSizeT (min maxVal v) := A.ofSizeT_nonneg _
  have hprod : A.ofSizeT (min maxVal v) * factor ≤ A.ofSizeT (min maxVal v) := by
    nlinarith
  have hle : A.mul (A.ofSizeT (min maxVal v)) factor ≤ A.ofSizeT (min maxVal v) := by
    have := A.rnd_mono hprod
    unfold DoubleArith.mul
    refine le_trans this ?_
    unfold DoubleArith.ofSizeT
    rw [A.rnd_idem]
  rw [← hr.2]
  have : (⌊A.mul (A.ofSizeT (min maxVal v)) factor⌋₊ : ℚ) ≤ maxVal :=
    le_trans (Nat.floor_le (A.mul_nonneg_of hnn h0)) (le_trans hle hm)
  exact_mod_cast this

theorem toSizeT_zero : toSizeT 0 = some 0 := by
  apply toSizeT_of_bounds <;> norm_num

theorem mul_zero_eq (A : DoubleArith) (x : ℚ) : A.mul x 0 = 0 := by
  unfold DoubleArith.mul
  rw [mul_zero, A.rnd_zero]

theorem zero_mul_eq (A : DoubleArith) (x : ℚ) : A.mul 0 x = 0 := by
  unfold DoubleArith.mul
  rw [zero_mul, A.rnd_zero]

theorem ofSizeT_zero (A : DoubleArith) : A.ofSizeT 0 = 0 := by
  unfold DoubleArith.ofSizeT
  rw [Nat.cast_zero, A.rnd_zero]

theorem minTimesFactor_zero (A : DoubleArith) {maxVal : ℕ} {val : ℚ}
    (h : (toSizeT val).isSome = true) : minTimesFactor A maxVal val 0 = some 0 := by
  obtain ⟨v, hv⟩ := Option.isSome_iff_exists.1 h
  exact minTimesFactor_eq_some_iff.2 ⟨v, hv, by rw [mul_zero_eq, toSizeT_zero]⟩

theorem isSome_of_minTimesFactor {A : DoubleArith} {maxVal : ℕ} {val factor : ℚ}
    (h : (minTimesFactor A maxVal val factor).isSome = true) : (toSizeT val).isSome = true := by
  obtain ⟨r, hr⟩ := Option.isSome_iff_exists.1 h
  obtain ⟨v, hv, _⟩ := minTimesFactor_eq_some_iff.1 hr
  rw [hv]
  rfl

theorem direct_zero (A : DoubleArith) (maxVal : GPUMemorySizeScalers → ℕ)
    (val : GPUMemorySizeScalers → ℕ → ℚ)
    (hval : ∀ s n, val (withFactor s 0) n = val s n)
    (hmax : ∀ s, maxVal (withFactor s 0) = maxVal s) (s : GPUMemorySizeScalers) :
    ZeroAtFactorZero (fun s n => minTimesFactor A (maxVal s) (val s n) s.factor) s := by
  intro n h
  show minTimesFactor A (maxVal (withFactor s 0)) (val (withFactor s 0) n) 0 = some 0
  rw [hval, hmax]
  exact minTimesFactor_zero A (isSome_of_minTimesFactor h)

theorem isSome_of_bind {α β : Type} {o : Option α} {f : α → Option β}
    (h : (o.bind f).isSome = true) : ∃ a, o = some a ∧ (f a).isSome = true := by
  cases o with
  | none => simp at h
  | some a => exact ⟨a, rfl, by simpa using h⟩

theorem chained_le_max (A : DoubleArith) {maxVal : ℕ} {factor : ℚ} (F : ℕ → Option ℕ)
    (g : ℕ → ℚ) (h0 : 0 ≤ factor) (h1 : factor ≤ 1) (hmax : A.ofSizeT maxVal ≤ maxVal) :
    BoundedStage (fun n => (F n).bind fun p => minTimesFactor A maxVal (g p) factor) maxVal := by
  intro n r hr
  cases hp : F n with
  | none => simp [hp] at hr
  | some p =>
    simp only [hp, Option.some_bind] at hr
    exact minTimesFactor_le_max A h0 h1 hmax hr

theorem stages_bounded_of_factor_le_one (A : DoubleArith) (GPUCA_ROW_COUNT : ℕ)
    (s : GPUMemorySizeScalers) (h0 : 0 ≤ s.factor) (h1 : s.factor ≤ 1)
    (hrep : BoundsNotRoundedUp A s) :
    BoundedStage (NTPCPeaks A s) s.tpcMaxPeaks ∧
    BoundedStage (NTPCClusters A s) s.tpcMaxClusters ∧
    BoundedStage (NTPCStartHits A s) s.tpcMaxStartHits ∧
    BoundedStage (NTPCRowStartHits A GPUCA_ROW_COUNT s) s.tpcMaxRowStartHits ∧
    BoundedStage (NTPCTracklets A s) s.tpcMaxTracklets ∧
    BoundedStage (NTPCTrackletHits A s) s.tpcMaxTrackletHits ∧
    BoundedStage (NTPCSectorTracks A s) s.tpcMaxSectorTracks ∧
    BoundedStage (NTPCSectorTrackHits A s) s.tpcMaxSectorTrackHits ∧
    BoundedStage (NTPCMergedTracks A s) s.tpcMaxMergedTracks ∧
    BoundedStage (NTPCMergedTrackHits A s) s.tpcMaxMergedTrackHits := by
  obtain ⟨r1, r2, r3, r4, r5, r6, r7, r8, r9, r10⟩ := hrep
  exact ⟨fun n r hr => minTimesFactor_le_max A h0 h1 r1 hr,
    chained_le_max A _ _ h0 h1 r2,
    fun n r hr => minTimesFactor_le_max A h0 h1 r3 hr,
    chained_le_max A _ _ h0 h1 r4,
    chained_le_max A _ _ h0 h1 r5,
    fun n r hr => minTimesFactor_le_max A h0 h1 r6 hr,
    fun n r hr => minTimesFactor_le_max A h0 h1 r7 hr,
    fun n r hr => minTimesFactor_le_max A h0 h1 r8 hr,
    fun n r hr => minTimesFactor_le_max A h0 h1 r9 hr,
    fun n r hr => minTimesFactor_le_max A h0 h1 r10 hr⟩

theorem NTPCPeaks_zero (A : DoubleArith) (s : GPUMemorySizeScalers) :
    ZeroAtFactorZero (NTPCPeaks A) s :=
  fun _ h => minTimesFactor_zero A (isSome_of_minTimesFactor h)

theorem NTPCStartHits_zero (A : DoubleArith) (s : GPUMemorySizeScalers) :
    ZeroAtFactorZero (NTPCStartHits A) s :=
  fun _ h => minTimesFactor_zero A (isSome_of_minTimesFactor h)

theorem stages_zero_at_factor_zero (A : DoubleArith) (GPUCA_ROW_COUNT : ℕ)
    (s : GPUMemorySizeScalers) (hoff : 0 ≤ s.offset) :
    ZeroAtFactorZero (NTPCPeaks A) s ∧ ZeroAtFactorZero (NTPCClusters A) s ∧
    ZeroAtFactorZero (NTPCStartHits A) s ∧
    ZeroAtFactorZero (NTPCRowStartHits A GPUCA_ROW_COUNT) s ∧
    ZeroAtFactorZero (NTPCTracklets A) s ∧ ZeroAtFactorZero (NTPCTrackletHits A) s ∧
    ZeroAtFactorZero (NTPCSectorTracks A) s ∧ ZeroAtFactorZero (NTPCSectorTrackHits A) s ∧
    ZeroAtFactorZero (NTPCMergedTracks A) s ∧ ZeroAtFactorZero (NTPCMergedTrackHits A) s := by
  have direct : ∀ (maxVal : ℕ) (val : ℚ), (minTimesFactor A maxVal val s.factor).isSome = true →
      minTimesFactor A maxVal val 0 = some 0 :=
    fun _ _ h => minTimesFactor_zero A (isSome_of_minTimesFactor h)
  refine ⟨NTPCPeaks_zero A s, ?_, NTPCStartHits_zero A s, ?_, ?_, fun n h => direct _ _ h,
    fun n h => direct _ _ h, fun n h => direct _ _ h, fun n h => direct _ _ h,
    fun n h => direct _ _ h⟩
  · intro n h
    obtain ⟨p, hp, _⟩ := isSome_of_bind h
    have hz := NTPCPeaks_zero A s n (by rw [hp]; rfl)
    show (NTPCPeaks A (withFactor s 0) n).bind _ = some 0
    rw [hz, Option.some_bind]
    apply minTimesFactor_zero
    rw [ofSizeT_zero, mul_zero_eq, toSizeT_zero]
    rfl
  · intro n h
    obtain ⟨p, hp, hdef⟩ := isSome_of_bind h
    have hz := NTPCStartHits_zero A s n (by rw [hp]; rfl)
    show (NTPCStartHits A (withFactor s 0) n).bind _ = some 0
    rw [hz, Option.some_bind]
    apply minTimesFactor_zero
    have hdef' := isSome_of_minTimesFactor hdef
    obtain ⟨v, hv⟩ := Option.isSome_iff_exists.1 hdef'
    have hnn : 0 ≤ A.add (withFactor s 0).offset (A.mul (A.ofSizeT (0 / GPUCA_ROW_COUNT)) 4) :=
      A.add_nonneg_of hoff (A.mul_nonneg_of (A.ofSizeT_nonneg _) (by norm_num))
    have hle : A.add (withFactor s 0).offset (A.mul (A.ofSizeT (0 / GPUCA_ROW_COUNT)) 4)
        ≤ A.add s.offset (A.mul (A.ofSizeT (p / GPUCA_ROW_COUNT)) 4) :=
      A.add_mono_right s.offset
        (A.mul_mono_left (A.ofSizeT_mono (Nat.div_le_div_right (Nat.zero_le p))) (by norm_num))
    obtain ⟨a, ha, _⟩ := toSizeT_mono hnn hle hv
    rw [ha]
    rfl
  · intro n h
    obtain ⟨p, hp, _⟩ := isSome_of_bind h
    have hz := NTPCStartHits_zero A s n (by rw [hp]; rfl)
    show (NTPCStartHits A (withFactor s 0) n).bind _ = some 0
    rw [hz, Option.some_bind]
    apply minTimesFactor_zero
    rw [ofSizeT_zero, zero_mul_eq, toSizeT_zero]
    rfl

theorem binary64Rnd_band_example :
    binary64Rnd 9007199254740995 = 9007199254740996 ∧
    binary64Rnd 9007199254740996 = 9007199254740996 := by
  have hf : ⌊(9007199254740995 : ℚ) / 4⌋ = 2251799813685248 := by
    rw [Int.floor_eq_iff]
    constructor <;> norm_num
  have hg : ⌊(9007199254740996 : ℚ) / 4⌋ = 2251799813685249 := by
    rw [Int.floor_eq_iff]
    constructor <;> norm_num
  constructor
  · unfold binary64Rnd roundToEven2
    rw [if_pos (by norm_num), hf]
    norm_num
  · unfold binary64Rnd roundToEven2
    rw [if_pos (by norm_num), hg]
    norm_num

/-- C24, counterexample: a hard upper bound that is not a `double` is rounded when
`min(...)` is converted for the product with the factor.  With `tpcMaxPeaks = 2^53 + 3`,
`hitOffset = 2^54` and factor 1, `NTPCPeaks(0)` is `2^53 + 4`, above the bound. -/
theorem peaks_exceed_unrepresentable_bound :
    (0 : ℚ) ≤ ({ tpcMaxPeaks := 9007199254740995, hitOffset := 18014398509481984 } :
      GPUMemorySizeScalers).factor ∧
    ({ tpcMaxPeaks := 9007199254740995, hitOffset := 18014398509481984 } :
      GPUMemorySizeScalers).factor ≤ 1 ∧
    NTPCPeaks binary64Band { tpcMaxPeaks := 9007199254740995, hitOffset := 18014398509481984 } 0
      = some 9007199254740996 ∧
    ¬ BoundedStage
      (NTPCPeaks binary64Band { tpcMaxPeaks := 9007199254740995, hitOffset := 18014398509481984 })
      9007199254740995 := by
  have hval : NTPCPeaks binary64Band
      { tpcMaxPeaks := 9007199254740995, hitOffset := 18014398509481984 } 0
      = some 9007199254740996 := by
    have e1 : binary64Band.add 18014398509481984
        (binary64Band.mul (binary64Band.ofSizeT 0) (2 / 10)) = 18014398509481984 := by
      norm_num [DoubleArith.add, DoubleArith.mul, DoubleArith.ofSizeT, binary64Band,
        binary64Rnd]
    have e2 : toSizeT (18014398509481984 : ℚ) = some 18014398509481984 := by
      apply toSizeT_of_bounds <;> norm_num
    have e3 : binary64Band.mul (binary64Band.ofSizeT 9007199254740995) 1
        = 9007199254740996 := by
      show binary64Rnd (binary64Rnd ((9007199254740995 : ℕ) : ℚ) * 1) = 9007199254740996
      rw [mul_one]
      norm_num only [Nat.cast_ofNat]
      rw [binary64Rnd_band_example.1, binary64Rnd_band_example.2]
    have e4 : toSizeT (9007199254740996 : ℚ) = some 9007199254740996 := by
      apply toSizeT_of_bounds <;> norm_num
    show minTimesFactor binary64Band 9007199254740995
      (binary64Band.add 18014398509481984
        (binary64Band.mul (binary64Band.ofSizeT 0) (2 / 10))) 1 = some 9007199254740996
    unfold minTimesFactor
    rw [e1, e2, Option.some_bind,
      show min 9007199254740995 18014398509481984 = 9007199254740995 from by norm_num, e3, e4]
  refine ⟨by norm_num, by norm_num, hval, fun h => ?_⟩
  have := h 0 _ hval
  norm_num at this

/-- C24, amended: for a factor between 0 and 1 and hard upper bounds that are not rounded up
by the conversion to `double` (every bound up to `2^53` is exact), every value returned by a
stage function is at most that stage's hard upper bound; and with the factor set to 0 every
stage function returns 0 for every input count for which it returns a value at all (for
`NTPCRowStartHits` with a non-negative `offset`). -/
theorem stages_le_bound_of_factor_le_one (A : DoubleArith) (GPUCA_ROW_COUNT : ℕ)
    (s : GPUMemorySizeScalers) (h0 : 0 ≤ s.factor) (h1 : s.factor ≤ 1)
    (hrep : BoundsNotRoundedUp A s) (hoff : 0 ≤ s.offset) :
    (BoundedStage (NTPCPeaks A s) s.tpcMaxPeaks ∧
     BoundedStage (NTPCClusters A s) s.tpcMaxClusters ∧
     BoundedStage (NTPCStartHits A s) s.tpcMaxStartHits ∧
     BoundedStage (NTPCRowStartHits A GPUCA_ROW_COUNT s) s.tpcMaxRowStartHits ∧
     BoundedStage (NTPCTracklets A s) s.tpcMaxTracklets ∧
     BoundedStage (NTPCTrackletHits A s) s.tpcMaxTrackletHits ∧
     BoundedStage (NTPCSectorTracks A s) s.tpcMaxSectorTracks ∧
     BoundedStage (NTPCSectorTrackHits A s) s.tpcMaxSectorTrackHits ∧
     BoundedStage (NTPCMergedTracks A s) s.tpcMaxMergedTracks ∧
     BoundedStage (NTPCMergedTrackHits A s) s.tpcMaxMergedTrackHits) ∧
    (ZeroAtFactorZero (NTPCPeaks A) s ∧ ZeroAtFactorZero (NTPCClusters A) s ∧
     ZeroAtFactorZero (NTPCStartHits A) s ∧
     ZeroAtFactorZero (NTPCRowStartHits A GPUCA_ROW_COUNT) s ∧
     ZeroAtFactorZero (NTPCTracklets A) s ∧ ZeroAtFactorZero (NTPCTrackletHits A) s ∧
     ZeroAtFactorZero (NTPCSectorTracks A) s ∧ ZeroAtFactorZero (NTPCSectorTrackHits A) s ∧
     ZeroAtFactorZero (NTPCMergedTracks A) s ∧ ZeroAtFactorZero (NTPCMergedTrackHits A) s) :=
  ⟨stages_bounded_of_factor_le_one A GPUCA_ROW_COUNT s h0 h1 hrep,
    stages_zero_at_factor_zero A GPUCA_ROW_COUNT s hoff⟩

/-- Evaluation of C24 (amended) at the default tunables, without rounding error: the default
factor is 1, the default bounds are exact, and `NTPCRowStartHits(100)` is 1024 with the
default factor and 0 with the factor 0. -/
theorem stages_le_bound_of_factor_le_one_default :
    NTPCRowStartHits exactArith 152 {} 100 = some 1024 ∧ 1024 ≤ 1000000000 ∧
    NTPCRowStartHits exactArith 152 (withFactor {} 0) 100 = some 0 := by
  have h100 : NTPCStartHits exactArith {} 100 = some 1008 := by
    apply minTimesFactor_exact 1008 1008 <;>
      norm_num [DoubleArith.add, DoubleArith.mul, DoubleArith.ofSizeT, exactArith]
  have hrow : NTPCRowStartHits exactArith 152 {} 100 = some 1024 := by
    unfold NTPCRowStartHits
    rw [h100, Option.some_bind]
    apply minTimesFactor_exact 1024 1024 <;>
      norm_num [DoubleArith.add, DoubleArith.mul, DoubleArith.ofSizeT, exactArith]
  have hrep : BoundsNotRoundedUp exactArith {} := by
    unfold BoundsNotRoundedUp
    refine ⟨?_, ?_, ?_, ?_, ?_, ?_, ?_, ?_, ?_, ?_⟩ <;> exact le_refl _
  obtain ⟨hb, hz⟩ := stages_le_bound_of_factor_le_one exactArith 152 {}
    (by norm_num) (by norm_num) hrep (by norm_num)
  exact ⟨hrow, hb.2.2.2.1 100 1024 hrow, hz.2.2.2.1 100 (by rw [hrow]; rfl)⟩

/-- C25, counterexample: below one row of start hits the result is not `offset * factor`.
With `offset = 2000000000` above `tpcMaxRowStartHits = 1000000000` (and `tpcMaxStartHits = 100`)
the result is 1000000000, not 2000000000; with `offset = 1/2` and factor 2 the result is 0, not
1. -/
theorem rowStartHits_not_offset_times_factor :
    NTPCStartHits exactArith { offset := 2000000000, tpcMaxStartHits := 100 } 0 = some 100 ∧
    NTPCRowStartHits exactArith 152 { offset := 2000000000, tpcMaxStartHits := 100 } 0
      = some 1000000000 ∧
    toSizeT (exactArith.mul 2000000000 1) = some 2000000000 ∧
    NTPCStartHits exactArith { offset := 1 / 2, factor := 2 } 0 = some 0 ∧
    NTPCRowStartHits exactArith 152 { offset := 1 / 2, factor := 2 } 0 = some 0 ∧
    toSizeT (exactArith.mul (1 / 2) 2) = some 1 := by
  have h1 : NTPCStartHits exactArith { offset := 2000000000, tpcMaxStartHits := 100 } 0
      = some 100 := by
    apply minTimesFactor_exact 2000000000 100 <;>
      norm_num [DoubleArith.add, DoubleArith.mul, DoubleArith.ofSizeT, exactArith]
  have h2 : NTPCStartHits exactArith { offset := 1 / 2, factor := 2 } 0 = some 0 := by
    apply minTimesFactor_exact 0 0 <;>
      norm_num [DoubleArith.add, DoubleArith.mul, DoubleArith.ofSizeT, exactArith]
  refine ⟨h1, ?_, ?_, h2, ?_, ?_⟩
  · unfold NTPCRowStartHits
    rw [h1, Option.some_bind]
    apply minTimesFactor_exact 2000000000 1000000000 <;>
      norm_num [DoubleArith.add, DoubleArith.mul, DoubleArith.ofSizeT, exactArith]
  · apply toSizeT_of_bounds <;> norm_num [DoubleArith.mul, exactArith]
  · unfold NTPCRowStartHits
    rw [h2, Option.some_bind]
    apply minTimesFactor_exact 0 0 <;>
      norm_num [DoubleArith.add, DoubleArith.mul, DoubleArith.ofSizeT, exactArith]
  · apply toSizeT_of_bounds <;> norm_num [DoubleArith.mul, exactArith]

/-- C25, amended: `NTPCRowStartHits(h)` is `min(tpcMaxRowStartHits, offset +
floor(NTPCStartHits(h) / GPUCA_ROW_COUNT) * 4) * factor` with the quotient an integer division;
two inputs whose start-hit predictions have the same quotient give the same result; and when
`NTPCStartHits(h) < GPUCA_ROW_COUNT` the result is `min(tpcMaxRowStartHits, offset) * factor`,
the offset truncated to an unsigned integer before the minimum. -/
theorem rowStartHits_integer_division (A : DoubleArith) (GPUCA_ROW_COUNT : ℕ)
    (s : GPUMemorySizeScalers) (h₁ h₂ : ℕ) :
    NTPCRowStartHits A GPUCA_ROW_COUNT s h₁ =
      (NTPCStartHits A s h₁).bind (fun startHits =>
        chainedFormula A s.tpcMaxRowStartHits
          (A.add s.offset (A.mul (A.ofSizeT (startHits / GPUCA_ROW_COUNT)) 4)) s.factor) ∧
    (∀ a b, NTPCStartHits A s h₁ = some a → NTPCStartHits A s h₂ = some b →
      a / GPUCA_ROW_COUNT = b / GPUCA_ROW_COUNT →
      NTPCRowStartHits A GPUCA_ROW_COUNT s h₁ = NTPCRowStartHits A GPUCA_ROW_COUNT s h₂) ∧
    (∀ a, NTPCStartHits A s h₁ = some a → a < GPUCA_ROW_COUNT →
      NTPCRowStartHits A GPUCA_ROW_COUNT s h₁
        = chainedFormula A s.tpcMaxRowStartHits (A.rnd s.offset) s.factor) := by
  refine ⟨?_, fun a b ha hb hab => ?_, fun a ha hlt => ?_⟩
  · unfold NTPCRowStartHits
    congr 1
    funext startHits
    exact minTimesFactor_eq_chainedFormula A _ _ _
  · unfold NTPCRowStartHits
    rw [ha, hb, Option.some_bind, Option.some_bind, hab]
  · unfold NTPCRowStartHits
    rw [ha, Option.some_bind, Nat.div_eq_of_lt hlt, ofSizeT_zero, zero_mul_eq,
      minTimesFactor_eq_chainedFormula]
    unfold DoubleArith.add
    rw [add_zero]

/-- Evaluation of C25 (amended): with the default tunables and 152 rows, 0 and 100 hits give
1000 and 1008 start hits, both below 7 * 152 = 1064, and the same 1024 row start hits. -/
theorem rowStartHits_integer_division_example :
    NTPCStartHits exactArith {} 0 = some 1000 ∧ NTPCStartHits exactArith {} 100 = some 1008 ∧
    NTPCRowStartHits exactArith 152 {} 0 = NTPCRowStartHits exactArith 152 {} 100 := by
  have h100 : NTPCStartHits exactArith {} 100 = some 1008 := by
    apply minTimesFactor_exact 1008 1008 <;>
      norm_num [DoubleArith.add, DoubleArith.mul, DoubleArith.ofSizeT, exactArith]
  exact ⟨NTPCStartHits_default_zero, h100,
    (rowStartHits_integer_division exactArith 152 {} 0 100).2.1 1000 1008
      NTPCStartHits_default_zero h100 (by norm_num)⟩

end GPUMemorySizeScalers

/-! ## TRD propagator interfaces -/

namespace GPUTRDInterfaces

theorem propagateToX_eq {R Track : Type} (env : GMPropagator R Track) (t : Track)
    (x maxSnp maxStep : R) :
    (propagateToX env t x maxSnp maxStep).1
      = env.CheckNumericalQuality (env.PropagateToXAlpha t x (env.GetAlpha t) true).2 := rfl

/-- C27, evaluation at the failing input: the propagation returns the non-zero code 1 and the
track passes `CheckNumericalQuality`; `propagateToX` returns `true`. -/
theorem propagateToX_true_on_failure :
    ((exampleGMPropagator 1).PropagateToXAlpha 0 83 ((exampleGMPropagator 1).GetAlpha 0) true).1
      = 1 ∧
    (propagateToX (exampleGMPropagator 1) 0 83 (4 / 5) 2).1 = true :=
  ⟨rfl, rfl⟩

/-- C28, evaluation at the failing input: with a non-null track and a covariance array of
three elements the index 3 is read, which is outside the array, so neither `update` nor
`getPredictedChi2` has a defined result; in a longer array the value passed third is `cov[3]`,
not `cov[2]`.  With a null track `update` returns `false` and `getPredictedChi2` returns 99999
whatever the arrays are. -/
theorem cov_read_out_of_bounds :
    covIndices = [0, 1, 3] ∧ ¬ (∀ i ∈ covIndices, i < 3) ∧
    covTmp ([1, 2, 3] : List ℚ) = none ∧
    update exampleO2Track (some 0) [0, 0] [1, 2, 3] = none ∧
    getPredictedChi2 exampleO2Track (some 0) [0, 0] [1, 2, 3] = none ∧
    covTmp ([1, 2, 3, 4] : List ℚ) = some (1, 2, 4) ∧
    update exampleO2Track (none : Option ℕ) [] [] = some (false, none) ∧
    getPredictedChi2 exampleO2Track (none : Option ℕ) [] [] = some 99999 := by
  refine ⟨rfl, by decide, rfl, rfl, rfl, rfl, rfl, rfl⟩

end GPUTRDInterfaces

/-! ## Initializing the interface -/

namespace GPUTPCO2Interface

/-- C21: a call on an initialized interface returns 1 and changes nothing; a call that returns
0 was made on an uninitialized interface whose reconstruction was created and whose `Init()`
returned 0, and afterwards the global factor is the factor left by `Init()`, doubled exactly
when the backend is not a GPU and the allocation strategy is `ALLOCATION_INDIVIDUAL`, times
`memoryBufferScaleFactor`; and every such call returns 0. -/
theorem Initialize_spec {CRest RRest : Type} (A : DoubleArith) (env : Backend CRest RRest)
    (s : Interface CRest RRest) (config : Configuration CRest) :
    (s.mInitialized = true → Initialize A env s config = (1, s)) ∧
    ((Initialize A env s config).1 = 0 →
      s.mInitialized = false ∧
      ∃ created afterInit, env.CreateInstance config = some created ∧
        env.Init (env.configure
          (if config.inputsTPCRaw then { config with needsClusterer := 1 } else config)
          created) = (0, afterInit) ∧
        (Initialize A env s config).2.mInitialized = true ∧
        (Initialize A env s config).2.mRec.map (fun r => r.factor)
          = some (A.mul
              (if afterInit.IsGPU = false ∧
                  afterInit.memoryAllocationStrategy = env.ALLOCATION_INDIVIDUAL then
                A.mul afterInit.factor 2
              else afterInit.factor)
              config.memoryBufferScaleFactor)) ∧
    (∀ created afterInit, s.mInitialized = false → env.CreateInstance config = some created →
      env.Init (env.configure
        (if config.inputsTPCRaw then { config with needsClusterer := 1 } else config)
        created) = (0, afterInit) →
      (Initialize A env s config).1 = 0) := by
  refine ⟨fun h => ?_, fun h => ?_, fun created afterInit hs hc hi => ?_⟩
  · unfold Initialize
    rw [if_pos h]
  · cases hs : s.mInitialized with
    | true =>
      unfold Initialize at h
      rw [if_pos hs] at h
      cases h
    | false =>
      refine ⟨rfl, ?_⟩
      have hs' : ¬ (s.mInitialized = true) := by simp [hs]
      cases hc : env.CreateInstance config with
      | none =>
        unfold Initialize at h
        rw [if_neg hs'] at h
        simp only [hc] at h
        cases h
      | some created =>
        cases hi : env.Init (env.configure
          (if config.inputsTPCRaw then { config with needsClusterer := 1 } else config)
          created) with
        | mk code afterInit =>
          have hcode : code = 0 := by
            by_contra hne
            unfold Initialize at h
            rw [if_neg hs'] at h
            simp only [hc, hi, if_pos hne] at h
            cases h
          subst hcode
          refine ⟨created, afterInit, rfl, hi, ?_, ?_⟩
          · unfold Initialize
            rw [if_neg hs']
            simp only [hc, hi]
            rfl
          · unfold Initialize
            rw [if_neg hs']
            simp only [hc, hi]
            by_cases hb : afterInit.IsGPU = false ∧
                afterInit.memoryAllocationStrategy = env.ALLOCATION_INDIVIDUAL
            · simp [hb]
              split_ifs <;> rfl
            · simp [hb]
              split_ifs <;> rfl
  · have hs' : ¬ (s.mInitialized = true) := by simp [hs]
    unfold Initialize
    rw [if_neg hs']
    simp only [hc, hi]
    rfl

/-- Evaluation of C21: a CPU backend with individual allocation, the factor 1 after `Init()`
and the buffer scale factor `3 / 2` give the factor `1 * 2 * (3 / 2) = 3`; the call on the
interface so initialized returns 1 and leaves it as it is. -/
theorem Initialize_spec_example :
    (Initialize exactArith exampleBackend freshInterface exampleConfiguration).1 = 0 ∧
    (Initialize exactArith exampleBackend freshInterface exampleConfiguration).2.mRec.map
      (fun r => r.factor) = some 3 ∧
    Initialize exactArith exampleBackend
      (Initialize exactArith exampleBackend freshInterface exampleConfiguration).2
      exampleConfiguration
      = (1, (Initialize exactArith exampleBackend freshInterface exampleConfiguration).2) := by
  have h := Initialize_spec exactArith exampleBackend freshInterface exampleConfiguration
  have h0 : (Initialize exactArith exampleBackend freshInterface exampleConfiguration).1 = 0 :=
    h.2.2 ⟨1, false, 1, ()⟩ ⟨1, false, 1, ()⟩ rfl rfl rfl
  obtain ⟨_, created, afterInit, hc, hi, hinit, hf⟩ := h.2.1 h0
  have hc' : created = ⟨1, false, 1, ()⟩ := by
    have : some created = some (⟨1, false, 1, ()⟩ : Reconstruction Unit) := hc.symm
    exact (Option.some.inj this)
  have hi' : afterInit = ⟨1, false, 1, ()⟩ := by
    rw [hc'] at hi
    exact ((Prod.mk.inj hi).2).symm
  refine ⟨h0, ?_, ?_⟩
  · rw [hf, hi']
    norm_num [DoubleArith.mul, exactArith, exampleBackend, exampleConfiguration]
  · exact (Initialize_spec exactArith exampleBackend _ exampleConfiguration).1 hinit

end GPUTPCO2Interface


/-! ## Reading a dump -/

namespace GPUChainTracking

theorem toUInt_eq_some {x : ℚ} {a : ℕ} (h : toUInt x = some a) :
    -1 < x ∧ x < 2 ^ 32 ∧ a = ⌊x⌋₊ := by
  unfold toUInt at h
  split_ifs at h with hx
  exact ⟨hx.1, hx.2, (Option.some.inj h).symm⟩

theorem clusterDataBody_spec {c c₁ : GPUTPCClusterData} {n n₁ : ℤ}
    (h : clusterDataBody c n = some (c₁, n₁)) :
    n₁ = n + 1 ∧ c₁.id = n ∧
    c₁.amp = (if (25 * 1024 : ℚ) ≤ c.amp then 25 * 1024 - 1 else c.amp) ∧
    c₁.amp < 25 * 1024 := by
  unfold clusterDataBody at h
  split_ifs at h with hn
  cases ha : toUInt c.amp with
  | none => rw [ha] at h; cases h
  | some a =>
    rw [ha] at h
    obtain ⟨hlo, _, hfl⟩ := toUInt_eq_some ha
    have hiff : a ≥ 25 * 1024 ↔ (25 * 1024 : ℚ) ≤ c.amp := by
      rw [hfl]
      by_cases h0 : 0 ≤ c.amp
      · rw [ge_iff_le, Nat.le_floor_iff h0]
        norm_num
      · have hz : ⌊c.amp⌋₊ = 0 := Nat.floor_of_nonpos (le_of_lt (not_le.1 h0))
        rw [hz]
        constructor
        · intro h1
          norm_num at h1
        · intro h1
          exfalso
          apply h0
          linarith
    simp only [Option.map_some'] at h
    have h' := Option.some.inj h
    by_cases hge : a ≥ 25 * 1024
    · rw [if_pos hge] at h'
      obtain ⟨h1, h2⟩ := Prod.mk.inj h'
      subst h1 h2
      refine ⟨rfl, rfl, ?_, ?_⟩
      · rw [if_pos (hiff.1 hge)]
      · norm_num
    · rw [if_neg hge] at h'
      obtain ⟨h1, h2⟩ := Prod.mk.inj h'
      subst h1 h2
      have hlt : ¬ (25 * 1024 : ℚ) ≤ c.amp := fun hc => hge (hiff.2 hc)
      refine ⟨rfl, rfl, ?_, ?_⟩
      · rw [if_neg hlt]
      · exact not_le.1 hlt

theorem clusterDataBody_defined (c : GPUTPCClusterData) (n : ℤ) (hn : n + 1 < 2 ^ 31)
    (hc : -1 < c.amp ∧ c.amp < 2 ^ 32) : ∃ r, clusterDataBody c n = some r := by
  unfold clusterDataBody toUInt
  rw [if_pos hn, if_pos hc]
  exact ⟨_, rfl⟩

theorem clusterDataLoop_cons_eq_some {c : GPUTPCClusterData} {rest out : List GPUTPCClusterData}
    {n n₁ : ℤ} (h : clusterDataLoop (c :: rest) n = some (out, n₁)) :
    ∃ c₁ rest₁, out = c₁ :: rest₁ ∧ clusterDataBody c n = some (c₁, n + 1) ∧
      clusterDataLoop rest (n + 1) = some (rest₁, n₁) := by
  unfold clusterDataLoop at h
  cases hb : clusterDataBody c n with
  | none => rw [hb] at h; cases h
  | some r =>
    obtain ⟨c₁, m⟩ := r
    have hm : m = n + 1 := (clusterDataBody_spec hb).1
    subst hm
    rw [hb, Option.some_bind] at h
    cases hl : clusterDataLoop rest (n + 1) with
    | none =>
      simp only [hl, Option.map_none'] at h
      cases h
    | some rs =>
      obtain ⟨rest₁, m₁⟩ := rs
      simp only [hl, Option.map_some'] at h
      obtain ⟨h1, h2⟩ := Prod.mk.inj (Option.some.inj h)
      subst h1 h2
      exact ⟨c₁, rest₁, rfl, rfl, rfl⟩

theorem clusterDataLoop_spec (cs : List GPUTPCClusterData) :
    ∀ (n n₁ : ℤ) (out : List GPUTPCClusterData), clusterDataLoop cs n = some (out, n₁) →
      n₁ = n + cs.length ∧ out.length = cs.length ∧
      out.map (fun c => c.id) = (List.range cs.length).map (fun k : ℕ => n + (k : ℤ)) ∧
      out.map (fun c => c.amp)
        = cs.map (fun c => if (25 * 1024 : ℚ) ≤ c.amp then 25 * 1024 - 1 else c.amp) ∧
      (∀ c ∈ out, c.amp < 25 * 1024) ∧
      (∀ (j : ℕ) (c : GPUTPCClusterData), out[j]? = some c → c.id = n + j) := by
  induction cs with
  | nil =>
    intro n n₁ out h
    unfold clusterDataLoop at h
    obtain ⟨h1, h2⟩ := Prod.mk.inj (Option.some.inj h)
    subst h1 h2
    refine ⟨by simp, rfl, rfl, rfl, (fun c hc => by cases hc), (fun j c hj => by simp at hj)⟩
  | cons c rest ih =>
    intro n n₁ out h
    obtain ⟨c₁, rest₁, hout, hb, hl⟩ := clusterDataLoop_cons_eq_some h
    obtain ⟨_, hid, hamp, hlt⟩ := clusterDataBody_spec hb
    obtain ⟨i1, i2, i3, i4, i5, i6⟩ := ih (n + 1) n₁ rest₁ hl
    subst hout
    refine ⟨?_, ?_, ?_, ?_, ?_, ?_⟩
    · rw [i1, List.length_cons]
      push_cast
      ring
    · rw [List.length_cons, List.length_cons, i2]
    · rw [List.length_cons, List.range_succ_eq_map, List.map_cons, List.map_cons, List.map_map,
        i3, hid]
      congr 1
      · simp
      · apply List.map_congr_left
        intro k _
        simp only [Function.comp_apply]
        push_cast
        ring
    · rw [List.map_cons, List.map_cons, i4, hamp]
    · intro x hx
      rcases List.mem_cons.1 hx with hx | hx
      · rw [hx]; exact hlt
      · exact i5 x hx
    · intro j x hj
      cases j with
      | zero =>
        simp only [List.getElem?_cons_zero, Option.some.injEq] at hj
        rw [← hj, hid]
        simp
      | succ j =>
        simp only [List.getElem?_cons_succ] at hj
        rw [i6 j x hj]
        push_cast
        ring

theorem clusterDataLoop_defined (cs : List GPUTPCClusterData) :
    ∀ n : ℤ, n + cs.length < 2 ^ 31 → (∀ c ∈ cs, -1 < c.amp ∧ c.amp < 2 ^ 32) →
      ∃ r, clusterDataLoop cs n = some r := by
  induction cs with
  | nil => intro n _ _; exact ⟨_, rfl⟩
  | cons c rest ih =>
    intro n hn hc
    have hlen : ((c :: rest).length : ℤ) = rest.length + 1 := by
      rw [List.length_cons]; push_cast; rfl
    rw [hlen] at hn
    have hpos : (0 : ℤ) ≤ rest.length := Int.natCast_nonneg _
    obtain ⟨r, hr⟩ := clusterDataBody_defined c n (by linarith) (hc c (List.mem_cons_self _ _))
    obtain ⟨c₁, m⟩ := r
    have hm : m = n + 1 := (clusterDataBody_spec hr).1
    subst hm
    obtain ⟨rs, hrs⟩ := ih (n + 1) (by linarith)
      (fun x hx => hc x (List.mem_cons_of_mem _ hx))
    refine ⟨(c₁ :: rs.1, rs.2), ?_⟩
    unfold clusterDataLoop
    rw [hr, Option.some_bind, hrs]
    rfl

theorem rawClusterBody_spec (c : AliHLTTPCRawCluster) (h1 : c.charge < 2 ^ 16)
    (h2 : c.qMax < 2 ^ 16) :
    (rawClusterBody c).charge = (if 25 * 1024 ≤ c.charge then 25 * 1024 - 1 else c.charge) ∧
    (rawClusterBody c).qMax = (if 1024 ≤ c.qMax then 1024 - 1 else c.qMax) ∧
    (rawClusterBody c).charge < 25 * 1024 ∧ (rawClusterBody c).qMax < 1024 := by
  have e1 : c.charge % 2 ^ 32 = c.charge := Nat.mod_eq_of_lt (by omega)
  have e2 : c.qMax % 2 ^ 32 = c.qMax := Nat.mod_eq_of_lt (by omega)
  unfold rawClusterBody
  simp only [e1]
  by_cases hc : 25 * 1024 ≤ c.charge <;> by_cases hq : 1024 ≤ c.qMax
  · simp only [ge_iff_le, if_pos hc, e2, if_pos hq]
    refine ⟨trivial, trivial, by norm_num, by norm_num⟩
  · simp only [ge_iff_le, if_pos hc, e2, if_neg hq]
    exact ⟨trivial, trivial, by norm_num, not_le.1 hq⟩
  · simp only [ge_iff_le, if_neg hc, e2, if_pos hq]
    exact ⟨trivial, trivial, not_le.1 hc, by norm_num⟩
  · simp only [ge_iff_le, if_neg hc, e2, if_neg hq]
    exact ⟨trivial, trivial, not_le.1 hc, not_le.1 hq⟩

theorem sliceLoop_cons_eq_some
    {slice : List GPUTPCClusterData × List AliHLTTPCRawCluster}
    {rest out : List (List GPUTPCClusterData × List AliHLTTPCRawCluster)} {n : ℤ}
    (h : sliceLoop (slice :: rest) n = some out) :
    ∃ cd rest₁, out = (cd, slice.2.map rawClusterBody) :: rest₁ ∧
      clusterDataLoop slice.1 n = some (cd, n + slice.1.length) ∧
      sliceLoop rest (n + slice.1.length) = some rest₁ := by
  unfold sliceLoop at h
  cases hb : clusterDataLoop slice.1 n with
  | none => rw [hb] at h; cases h
  | some r =>
    obtain ⟨cd, m⟩ := r
    have hm : m = n + slice.1.length := (clusterDataLoop_spec _ _ _ _ hb).1
    subst hm
    rw [hb, Option.some_bind] at h
    cases hl : sliceLoop rest (n + slice.1.length) with
    | none =>
      simp only [hl, Option.map_none'] at h
      cases h
    | some rest₁ =>
      simp only [hl, Option.map_some'] at h
      exact ⟨cd, rest₁, (Option.some.inj h).symm, rfl, rfl⟩

theorem sliceLoop_spec (ss : List (List GPUTPCClusterData × List AliHLTTPCRawCluster)) :
    ∀ (n : ℤ) (out : List (List GPUTPCClusterData × List AliHLTTPCRawCluster)),
      sliceLoop ss n = some out →
      out.map (fun s => s.1.length) = ss.map (fun s => s.1.length) ∧
      out.map Prod.snd = ss.map (fun s => s.2.map rawClusterBody) ∧
      (allClusterData out).map (fun c => c.id)
        = (List.range (allClusterData ss).length).map (fun k : ℕ => n + (k : ℤ)) ∧
      (allClusterData out).map (fun c => c.amp)
        = (allClusterData ss).map
            (fun c => if (25 * 1024 : ℚ) ≤ c.amp then 25 * 1024 - 1 else c.amp) ∧
      (∀ c ∈ allClusterData out, c.amp < 25 * 1024) ∧
      (∀ (i j : ℕ) (s : List GPUTPCClusterData × List AliHLTTPCRawCluster)
        (c : GPUTPCClusterData), out[i]? = some s → s.1[j]? = some c →
        c.id = n + clustersBefore ss i + j) := by
  induction ss with
  | nil =>
    intro n out h
    unfold sliceLoop at h
    have := Option.some.inj h
    subst this
    refine ⟨rfl, rfl, rfl, rfl, (fun c hc => by simp [allClusterData] at hc),
      (fun i j s c hi => by simp at hi)⟩
  | cons slice rest ih =>
    intro n out h
    obtain ⟨cd, rest₁, hout, hcd, hl⟩ := sliceLoop_cons_eq_some h
    obtain ⟨_, c2, c3, c4, c5, c6⟩ := clusterDataLoop_spec _ _ _ _ hcd
    obtain ⟨i1, i2, i3, i4, i5, i6⟩ := ih _ _ hl
    subst hout
    have hall : ∀ (a : List GPUTPCClusterData × List AliHLTTPCRawCluster)
        (l : List (List GPUTPCClusterData × List AliHLTTPCRawCluster)),
        allClusterData (a :: l) = a.1 ++ allClusterData l := fun a l => by
      simp [allClusterData]
    refine ⟨?_, ?_, ?_, ?_, ?_, ?_⟩
    · rw [List.map_cons, List.map_cons, i1, c2]
    · rw [List.map_cons, List.map_cons, i2]
    · rw [hall, hall, List.map_append, c3, i3, List.length_append, List.range_add,
        List.map_append, List.map_map]
      congr 1
      apply List.map_congr_left
      intro k _
      simp only [Function.comp_apply]
      push_cast
      ring
    · rw [hall, hall, List.map_append, List.map_append, c4, i4]
    · intro c hc
      rw [hall] at hc
      rcases List.mem_append.1 hc with hc | hc
      · exact c5 c hc
      · exact i5 c hc
    · intro i j s c hi hj
      cases i with
      | zero =>
        simp only [List.getElem?_cons_zero, Option.some.injEq] at hi
        subst hi
        rw [c6 j c hj]
        simp [clustersBefore]
      | succ i =>
        simp only [List.getElem?_cons_succ] at hi
        rw [i6 i j s c hi hj]
        simp only [clustersBefore, List.take_succ_cons, List.map_cons, List.sum_cons]
        push_cast
        ring

theorem sliceLoop_defined (ss : List (List GPUTPCClusterData × List AliHLTTPCRawCluster)) :
    ∀ n : ℤ, n + (allClusterData ss).length < 2 ^ 31 →
      (∀ c ∈ allClusterData ss, -1 < c.amp ∧ c.amp < 2 ^ 32) →
      ∃ out, sliceLoop ss n = some out := by
  induction ss with
  | nil => intro n _ _; exact ⟨_, rfl⟩
  | cons slice rest ih =>
    intro n hn hc
    have hall : allClusterData (slice :: rest) = slice.1 ++ allClusterData rest := by
      simp [allClusterData]
    rw [hall] at hn hc
    rw [List.length_append] at hn
    push_cast at hn
    have hpos : (0 : ℤ) ≤ (allClusterData rest).length := Int.natCast_nonneg _
    obtain ⟨r, hr⟩ := clusterDataLoop_defined slice.1 n (by linarith)
      (fun c hx => hc c (List.mem_append_left _ hx))
    obtain ⟨cd, m⟩ := r
    have hm : m = n + slice.1.length := (clusterDataLoop_spec _ _ _ _ hr).1
    subst hm
    obtain ⟨rs, hrs⟩ := ih (n + slice.1.length) (by linarith)
      (fun c hx => hc c (List.mem_append_right _ hx))
    refine ⟨(cd, slice.2.map rawClusterBody) :: rs, ?_⟩
    unfold sliceLoop
    rw [hr, Option.some_bind, hrs]
    rfl

theorem ReadData_eq_zero {geometryType : ℕ} {file : Option DumpFile}
    {out : List (List GPUTPCClusterData × List AliHLTTPCRawCluster)}
    (h : ReadData geometryType file = some (0, out)) :
    ∃ f, file = some f ∧ f.header = DUMP_HEADER ∧ f.geo = geometryType ∧
      sliceLoop f.slices 0 = some out := by
  cases file with
  | none =>
    unfold ReadData at h
    simp at h
  | some f =>
    unfold ReadData at h
    simp only at h
    by_cases hh : f.header ≠ DUMP_HEADER
    · rw [if_pos hh] at h
      simp at h
    · rw [if_neg hh] at h
      by_cases hg : f.geo ≠ geometryType
      · rw [if_pos hg] at h
        simp at h
      · rw [if_neg hg] at h
        cases hl : sliceLoop f.slices 0 with
        | none => rw [hl] at h; cases h
        | some o =>
          rw [hl] at h
          simp only [Option.map_some', Option.some.injEq, Prod.mk.injEq, true_and] at h
          subst h
          exact ⟨f, rfl, not_not.1 hh, not_not.1 hg, hl⟩

theorem ReadData_defined (geometryType : ℕ) (f : DumpFile) (hh : f.header = DUMP_HEADER)
    (hg : f.geo = geometryType) (hl : Loadable f.slices) :
    ∃ out, ReadData geometryType (some f) = some (0, out) := by
  obtain ⟨out, hout⟩ := sliceLoop_defined f.slices 0 (by rw [zero_add]; exact hl.2) hl.1
  refine ⟨out, ?_⟩
  unfold ReadData
  simp only
  rw [if_neg (not_not.2 hh), if_neg (not_not.2 hg), hout]
  rfl

theorem sliceLoop_raw (ss out : List (List GPUTPCClusterData × List AliHLTTPCRawCluster))
    (n : ℤ) (h : sliceLoop ss n = some out) :
    out.map (fun s => s.2.length) = ss.map (fun s => s.2.length) ∧
    allRawClusters out = (allRawClusters ss).map rawClusterBody := by
  have h2 := (sliceLoop_spec ss n out h).2.1
  constructor
  · have : out.map (fun s => s.2.length) = (out.map Prod.snd).map List.length := by
      rw [List.map_map]; rfl
    rw [this, h2, List.map_map]
    apply List.map_congr_left
    intro s _
    simp
  · unfold allRawClusters
    rw [h2, List.map_flatten, List.map_map]
    rfl

theorem exampleDump_loadable : Loadable exampleDump.slices := by
  constructor
  · intro c hc
    simp only [allClusterData, exampleDump, List.map_cons, List.map_nil, List.flatten_cons,
      List.flatten_nil, List.cons_append, List.nil_append, List.append_nil, List.mem_cons,
      List.mem_singleton, List.not_mem_nil, or_false] at hc
    rcases hc with hc | hc | hc <;> subst hc <;> norm_num
  · norm_num [allClusterData, exampleDump]

/-- The clamps of `ReadData` on the inputs for which every conversion is defined: when
`ReadData` returns 0 the slices keep their numbers of clusters, every
cluster-data `amp` at or above `25 * 1024` has become `25 * 1024 - 1` and every other `amp`
is as loaded, so every `amp` is below `25 * 1024`; for raw clusters (whose charge and charge
maximum are unsigned 16-bit fields) a charge at or above `25 * 1024` has become
`25 * 1024 - 1`, a charge maximum at or above 1024 has become 1023, the others are as loaded,
so every charge is below `25 * 1024` and every charge maximum below 1024.  `ReadData` does
return 0 for a file with the right header and geometry whose `amp` values convert to
`unsigned int` and whose cluster count fits an `int`. -/
theorem ReadData_clamps (geometryType : ℕ) (file : Option DumpFile) :
    (∀ out, ReadData geometryType file = some (0, out) → ∃ f, file = some f ∧
      out.map (fun s => s.1.length) = f.slices.map (fun s => s.1.length) ∧
      out.map (fun s => s.2.length) = f.slices.map (fun s => s.2.length) ∧
      (allClusterData out).map (fun c => c.amp)
        = (allClusterData f.slices).map
            (fun c => if (25 * 1024 : ℚ) ≤ c.amp then 25 * 1024 - 1 else c.amp) ∧
      (∀ c ∈ allClusterData out, c.amp < 25 * 1024) ∧
      (RawInRange f.slices →
        (allRawClusters out).map (fun c => (c.charge, c.qMax))
          = (allRawClusters f.slices).map
              (fun c => (if 25 * 1024 ≤ c.charge then 25 * 1024 - 1 else c.charge,
                         if 1024 ≤ c.qMax then 1024 - 1 else c.qMax)) ∧
        ∀ c ∈ allRawClusters out, c.charge < 25 * 1024 ∧ c.qMax < 1024)) ∧
    (∀ f, file = some f → f.header = DUMP_HEADER → f.geo = geometryType →
      Loadable f.slices → ∃ out, ReadData geometryType file = some (0, out)) := by
  refine ⟨fun out h => ?_, fun f hf hh hg hl => ?_⟩
  · obtain ⟨f, hf, _, _, hs⟩ := ReadData_eq_zero h
    obtain ⟨s1, _, _, s4, s5, _⟩ := sliceLoop_spec _ _ _ hs
    obtain ⟨r1, r2⟩ := sliceLoop_raw _ _ _ hs
    refine ⟨f, hf, s1, r1, s4, s5, fun hr => ⟨?_, fun c hc => ?_⟩⟩
    · rw [r2, List.map_map]
      apply List.map_congr_left
      intro c hc
      obtain ⟨e1, e2, _, _⟩ := rawClusterBody_spec c (hr c hc).1 (hr c hc).2
      simp only [Function.comp_apply, e1, e2]
    · rw [r2] at hc
      obtain ⟨c₀, hc₀, rfl⟩ := List.mem_map.1 hc
      obtain ⟨_, _, e3, e4⟩ := rawClusterBody_spec c₀ (hr c₀ hc₀).1 (hr c₀ hc₀).2
      exact ⟨e3, e4⟩
  · rw [hf]
    exact ReadData_defined geometryType f hh hg hl

/-- Evaluation of `ReadData_clamps`: the amplitudes 100, 30000, 25600 become 100, 25599,
25599; the raw
charges and maxima (30000, 2000), (50, 7) become (25599, 1023), (50, 7). -/
theorem ReadData_clamps_example :
    ∃ out, ReadData 0 (some exampleDump) = some (0, out) ∧
      (allClusterData out).map (fun c => c.amp) = [100, 25599, 25599] ∧
      (allRawClusters out).map (fun c => (c.charge, c.qMax)) = [(25599, 1023), (50, 7)] := by
  obtain ⟨hspec, hdef⟩ := ReadData_clamps 0 (some exampleDump)
  obtain ⟨out, hout⟩ := hdef exampleDump rfl rfl rfl exampleDump_loadable
  obtain ⟨f, hf, _, _, hamp, _, hraw⟩ := hspec out hout
  have hf' : f = exampleDump := (Option.some.inj hf).symm
  subst hf'
  have hr : RawInRange exampleDump.slices := by
    intro c hc
    simp only [allRawClusters, exampleDump, List.map_cons, List.map_nil, List.flatten_cons,
      List.flatten_nil, List.cons_append, List.nil_append, List.append_nil, List.mem_cons,
      List.mem_singleton, List.not_mem_nil, or_false] at hc
    rcases hc with hc | hc <;> subst hc <;> norm_num
  refine ⟨out, hout, ?_, ?_⟩
  · rw [hamp]
    norm_num [allClusterData, exampleDump]
  · rw [(hraw hr).1]
    norm_num [allRawClusters, exampleDump]

/-- C29, evaluation at the failing input: a loaded amplitude of `2^32` is at or above the
limit `25 * 1024`, but its conversion `(unsigned int)amp` in the test of line 205 is out of
range, so the test does not decide that the value is clamped and `ReadData` has no defined
result (a build whose conversion yields 0 returns 0 and leaves the amplitude at `2^32`); the
same holds for the amplitude `-5`, which is below the limit (a build whose conversion wraps
replaces it by 25599). -/
theorem ReadData_amp_out_of_range :
    (25 * 1024 : ℚ) ≤ 4294967296 ∧ toUInt 4294967296 = none ∧
    ReadData 0 (some hugeAmpDump) = none ∧
    (-5 : ℚ) < 25 * 1024 ∧ toUInt (-5) = none ∧
    ReadData 0 (some negativeAmpDump) = none := by
  have h1 : toUInt 4294967296 = none := by
    unfold toUInt
    rw [if_neg (by norm_num)]
  have h2 : toUInt (-5) = none := by
    unfold toUInt
    rw [if_neg (by norm_num)]
  refine ⟨by norm_num, h1, ?_, by norm_num, h2, ?_⟩
  · simp [ReadData, hugeAmpDump, DUMP_HEADER, sliceLoop, clusterDataLoop, clusterDataBody, h1]
  · simp [ReadData, negativeAmpDump, DUMP_HEADER, sliceLoop, clusterDataLoop, clusterDataBody,
      h2]

/-- C30: when `ReadData` returns 0 the `j`-th cluster of slice `i` has the id (number of
clusters in the slices before `i`) `+ j`, so the ids read in slice-major order are
`0, 1, ..., N - 1` for the number `N` of loaded clusters and are pairwise distinct; `ReadData`
returns 1 for a file that cannot be opened, -1 for a header other than `CAv1` and 1 for
another geometry, each time with no cluster loaded and no id assigned; and it does return 0
for a file with the right header and geometry whose `amp` values convert to `unsigned int`
and whose cluster count fits an `int`. -/
theorem ReadData_ids (geometryType : ℕ) (file : Option DumpFile) :
    (∀ out, ReadData geometryType file = some (0, out) → ∃ f, file = some f ∧
      (∀ (i j : ℕ) (s : List GPUTPCClusterData × List AliHLTTPCRawCluster)
        (c : GPUTPCClusterData), out[i]? = some s → s.1[j]? = some c →
        c.id = clustersBefore f.slices i + j) ∧
      (allClusterData out).map (fun c => c.id)
        = (List.range (allClusterData f.slices).length).map (fun k : ℕ => (k : ℤ)) ∧
      ((allClusterData out).map (fun c => c.id)).Nodup ∧
      (allClusterData out).length = (allClusterData f.slices).length) ∧
    (file = none → ReadData geometryType file = some (1, [])) ∧
    (∀ f, file = some f → f.header ≠ DUMP_HEADER →
      ReadData geometryType file = some (-1, [])) ∧
    (∀ f, file = some f → f.header = DUMP_HEADER → f.geo ≠ geometryType →
      ReadData geometryType file = some (1, [])) ∧
    (∀ f, file = some f → f.header = DUMP_HEADER → f.geo = geometryType →
      Loadable f.slices → ∃ out, ReadData geometryType file = some (0, out)) := by
  refine ⟨fun out h => ?_, fun hf => ?_, fun f hf hh => ?_, fun f hf hh hg => ?_,
    fun f hf hh hg hl => ?_⟩
  · obtain ⟨f, hf, _, _, hs⟩ := ReadData_eq_zero h
    obtain ⟨_, _, s3, _, _, s6⟩ := sliceLoop_spec _ _ _ hs
    have hids : (allClusterData out).map (fun c => c.id)
        = (List.range (allClusterData f.slices).length).map (fun k : ℕ => (k : ℤ)) := by
      rw [s3]
      apply List.map_congr_left
      intro k _
      rw [zero_add]
    refine ⟨f, hf, fun i j s c hi hj => ?_, hids, ?_, ?_⟩
    · rw [s6 i j s c hi hj, zero_add]
    · rw [hids]
      exact (List.nodup_range _).map Nat.cast_injective
    · have := congrArg List.length hids
      rw [List.length_map, List.length_map, List.length_range] at this
      exact this
  · rw [hf]
    rfl
  · rw [hf]
    unfold ReadData
    simp only
    rw [if_pos hh]
  · rw [hf]
    unfold ReadData
    simp only
    rw [if_neg (not_not.2 hh), if_pos hg]
  · rw [hf]
    exact ReadData_defined geometryType f hh hg hl

/-- Evaluation of C30: the three clusters of the example dump get the ids 0, 1 in the first
slice and 2 in the second; a missing file gives 1, the header `CAv2` gives -1 and a dump of
another geometry gives 1. -/
theorem ReadData_ids_example :
    (∃ out, ReadData 0 (some exampleDump) = some (0, out) ∧
      (allClusterData out).map (fun c => c.id) = [0, 1, 2]) ∧
    ReadData 0 none = some (1, []) ∧
    ReadData 0 (some { exampleDump with header := ['C', 'A', 'v', '2'] }) = some (-1, []) ∧
    ReadData 1 (some exampleDump) = some (1, []) := by
  refine ⟨?_, ?_, ?_, ?_⟩
  · obtain ⟨hspec, _, _, _, hdef⟩ := ReadData_ids 0 (some exampleDump)
    obtain ⟨out, hout⟩ := hdef exampleDump rfl rfl rfl exampleDump_loadable
    obtain ⟨f, hf, _, hids, _, _⟩ := hspec out hout
    have hf' : f = exampleDump := (Option.some.inj hf).symm
    subst hf'
    refine ⟨out, hout, ?_⟩
    rw [hids]
    simp [allClusterData, exampleDump, List.range_succ]
  · exact (ReadData_ids 0 none).2.1 rfl
  · exact (ReadData_ids 0 (some { exampleDump with header := ['C', 'A', 'v', '2'] })).2.2.1 _ rfl
      (by decide)
  · exact (ReadData_ids 1 (some exampleDump)).2.2.2.1 _ rfl rfl (by decide)

end GPUChainTracking

end GPU
